import Mathlib

/-!
Lab IP Manager: the host store of `popup.js` and `background.js`.

A shallow embedding of the document of environments and host records that the
extension keeps in `chrome.storage.local`, and of the operations of
`class IPManager` (popup.js) and of the background script that read and
mutate it.  JavaScript objects are records, arrays are lists, mutation of
`this.data` is explicit state passing; what comes from outside the program
(form values, the clock, `Math.random`, dialog answers, probe replies, the
locale-dependent string builtins) is a parameter.
-/

namespace IPManager

/-! ## String builtins -/

/-- Code points that `String.prototype.trim` strips: ECMAScript WhiteSpace and
LineTerminator. -/
def isWhiteSpace (c : Char) : Bool :=
  c.toNat ∈ [0x9, 0xA, 0xB, 0xC, 0xD, 0x20, 0xA0, 0x1680, 0x2000, 0x2001, 0x2002,
    0x2003, 0x2004, 0x2005, 0x2006, 0x2007, 0x2008, 0x2009, 0x200A, 0x2028, 0x2029,
    0x202F, 0x205F, 0x3000, 0xFEFF]

/-- The characters of `s.trim()`. -/
def trimChars (cs : List Char) : List Char :=
  ((cs.dropWhile isWhiteSpace).reverse.dropWhile isWhiteSpace).reverse

/-- The value of `s.trim()`. -/
def trim (s : String) : String := ⟨trimChars s.data⟩

/-- The pieces of `s.split(sep)` for a one-character separator, as character lists. -/
def splitChars (sep : Char) : List Char → List (List Char)
  | [] => [[]]
  | c :: cs =>
    if c = sep then [] :: splitChars sep cs
    else
      match splitChars sep cs with
      | [] => [[c]]
      | w :: ws => (c :: w) :: ws

/-- The value of `s.split(',')`. -/
def splitComma (s : String) : List String := (splitChars ',' s.data).map String.mk

/-- Does `p` start `cs`? -/
def startsWithChars : List Char → List Char → Bool
  | [], _ => true
  | _ :: _, [] => false
  | p :: ps, c :: cs => p == c && startsWithChars ps cs

/-- Does `p` occur in `cs` as a contiguous run? -/
def includesChars (p : List Char) : List Char → Bool
  | [] => startsWithChars p []
  | c :: cs => startsWithChars p (c :: cs) || includesChars p cs

/-- The value of `s.includes(t)`. -/
def includes (s t : String) : Bool := includesChars t.data s.data

/-- The builtin `String.prototype.toLowerCase` on the letters A to Z; used to instantiate the
case-folding parameter on ASCII text. -/
def asciiLower (s : String) : String := ⟨s.data.map Char.toLower⟩

/-- One digit of `Number.prototype.toString(36)`. -/
def digit36 (d : Nat) : Char := Char.ofNat (if d < 10 then 48 + d else 87 + d)

/-- The digits of `n` in base 36, least significant first, `fuel` bounding their number. -/
def digits36 : Nat → Nat → List Char
  | 0, _ => []
  | fuel + 1, n => if n < 36 then [digit36 n] else digit36 (n % 36) :: digits36 fuel (n / 36)

/-- The value of `n.toString(36)` for a non-negative integer `n` (64 digits cover every
`Date.now()` value). -/
def toString36 (n : Nat) : String := ⟨(digits36 64 n).reverse⟩

/-- The value of a `port` property: `null`, `NaN` or an integer. -/
inductive PortValue where
  | null
  | NaN
  | num (n : Int)
  deriving DecidableEq, Repr

/-- Value of a decimal digit character, if it is one. -/
def decDigit? (c : Char) : Option Nat :=
  if 48 ≤ c.toNat ∧ c.toNat ≤ 57 then some (c.toNat - 48) else none

/-- Value of a hexadecimal digit character, if it is one. -/
def hexDigit? (c : Char) : Option Nat :=
  if 48 ≤ c.toNat ∧ c.toNat ≤ 57 then some (c.toNat - 48)
  else if 97 ≤ c.toNat ∧ c.toNat ≤ 102 then some (c.toNat - 87)
  else if 65 ≤ c.toNat ∧ c.toNat ≤ 70 then some (c.toNat - 55)
  else none

/-- Reads the longest run of digits at the head of `cs`; `none` when there is no digit. -/
def readDigits (digit? : Char → Option Nat) (base : Nat) : Option Nat → List Char → Option Nat
  | acc, [] => acc
  | acc, c :: cs =>
    match digit? c with
    | some d => readDigits digit? base (some (acc.getD 0 * base + d)) cs
    | none => acc

/-- The magnitude part of `parseInt` with no radix argument: a `0x`/`0X` prefix selects
base 16, anything else base 10. -/
def parseMagnitude : List Char → Option Nat
  | '0' :: 'x' :: cs => readDigits hexDigit? 16 none cs
  | '0' :: 'X' :: cs => readDigits hexDigit? 16 none cs
  | cs => readDigits decDigit? 10 none cs

/-- The value of `parseInt(s)`: leading white space skipped, optional sign, digits read
as an exact integer; `NaN` when no digit can be read. -/
def parseInt (s : String) : PortValue :=
  match s.data.dropWhile isWhiteSpace with
  | '-' :: cs =>
    match parseMagnitude cs with
    | some n => .num (-(n : Int))
    | none => .NaN
  | '+' :: cs =>
    match parseMagnitude cs with
    | some n => .num n
    | none => .NaN
  | cs =>
    match parseMagnitude cs with
    | some n => .num n
    | none => .NaN

/-! ## Data model -/

/-- A host record as stored in an environment's `items` array.  The properties that
`saveHost` writes are `name, ip, port, rdpUser, environment, tags, notes, pinned, id`;
the health properties are added by the sweeps.  A property the code guards with
`||` or `&&` may be absent (`none`). -/
structure HostRecord where
  id : String
  name : String
  ip : String
  port : PortValue
  rdpUser : Option String
  environment : Option String
  tags : Option (List String)
  notes : String
  pinned : Bool
  healthStatus : Option String
  lastHealthCheck : Option Nat
  responseTime : Option Nat
  healthMethod : Option String
  deriving DecidableEq, Repr

/-- One entry of `data.envs`. -/
structure Environment where
  id : String
  name : String
  items : List HostRecord
  deriving DecidableEq, Repr

/-- The persisted object `ipManagerData` (`this.data`). -/
structure Document where
  version : Int
  envs : List Environment
  deriving DecidableEq, Repr

/-- The values of the host form's inputs, as `saveHost` reads them from the DOM. -/
structure HostForm where
  hostName : String
  hostIP : String
  hostPort : String
  hostRDPUser : String
  hostEnvironment : String
  hostTags : String
  hostNotes : String
  hostPinned : Bool
  deriving DecidableEq, Repr

/-! ## Array helpers -/

/-- The value of `arr.findIndex(p)`, with `none` for `-1`. -/
def findIndex {α : Type} (p : α → Bool) : List α → Option Nat
  | [] => none
  | x :: xs => if p x then some 0 else (findIndex p xs).map (· + 1)

/-- The environment list after the `items` array of the environment at position `k`
has been mutated by `f`; every other environment is untouched. -/
def updateItems (f : List HostRecord → List HostRecord) : Nat → List Environment → List Environment
  | _, [] => []
  | 0, e :: es => { e with items := f e.items } :: es
  | k + 1, e :: es => e :: updateItems f k es

/-- All host ids of the document, in environment order and then list order. -/
def hostIds (envs : List Environment) : List String :=
  envs.flatMap (fun env => env.items.map (·.id))

/-- Number of hosts in the whole document. -/
def hostCount (envs : List Environment) : Nat :=
  (envs.map (fun env => env.items.length)).sum

/-! ## popup.js: `generateId`, `saveHost`, `deleteHost`, `addNewEnvironment` -/

/-- The method `generateId()`: `Date.now().toString(36) + Math.random().toString(36).substr(2)`.
`now` is the value of `Date.now()` and `randomText` the text of
`Math.random().toString(36)` (such as `0.4fzyo82mvyr`). -/
def generateId (now : Nat) (randomText : String) : String :=
  toString36 now ++ ⟨randomText.data.drop 2⟩

/-- The object `hostData` built from the form (popup.js 585-594), with the `id` it is
given later in `saveHost`. -/
def hostData (f : HostForm) (id : String) : HostRecord :=
  { id := id
    name := trim f.hostName
    ip := trim f.hostIP
    port := if f.hostPort = "" then .null else parseInt f.hostPort
    rdpUser := if trim f.hostRDPUser = "" then none else some (trim f.hostRDPUser)
    environment := some f.hostEnvironment
    tags := some (((splitComma f.hostTags).map trim).filter (fun t => t ≠ ""))
    notes := trim f.hostNotes
    pinned := f.hostPinned
    healthStatus := none
    lastHealthCheck := none
    responseTime := none
    healthMethod := none }

/-- Position of `targetEnv`:
`this.data.envs.find(e => e.id === hostData.environment) || this.data.envs[0]`;
`none` when the result is `undefined` (no environment at all). -/
def targetEnvIndex (envs : List Environment) (environment : String) : Option Nat :=
  match findIndex (fun e => e.id == environment) envs with
  | some j => some j
  | none => if envs.isEmpty then none else some 0

/-- The search loop of `saveHost` (popup.js 610-618): the first environment, in order,
whose `items.findIndex(item => item.id === itemId)` is not `-1`, with that index. -/
def findHost (itemId : String) : List Environment → Option (Nat × Nat)
  | [] => none
  | env :: rest =>
    match findIndex (fun item => item.id == itemId) env.items with
    | some i => some (0, i)
    | none => (findHost itemId rest).map (fun p => (p.1 + 1, p.2))

/-- How a call of `saveHost` ends. -/
inductive SaveOutcome where
  /-- `alert('Name and IP address are required'); return;` -/
  | validationAlert
  /-- The end of the function is reached: `saveData()`, `hideModal`, re-render. -/
  | completed
  /-- A `TypeError` from reading a property of an `undefined` `targetEnv`. -/
  | typeError
  deriving DecidableEq, Repr

/-- The outcome of `saveHost` together with `this.data` after the call. -/
structure SaveResult where
  outcome : SaveOutcome
  data : Document
  deriving DecidableEq, Repr

/-- The method `saveHost()` (popup.js 581-638).  `mode` and `itemId` are `form.dataset.mode` and
`form.dataset.itemId`; `now` and `randomText` feed `generateId`. -/
def saveHost (data : Document) (mode itemId : String) (f : HostForm)
    (now : Nat) (randomText : String) : SaveResult :=
  if trim f.hostName = "" ∨ trim f.hostIP = "" then
    ⟨.validationAlert, data⟩
  else
    let targetEnv := targetEnvIndex data.envs f.hostEnvironment
    if mode = "add" then
      let newHost := hostData f (generateId now randomText)
      match targetEnv with
      | none => ⟨.typeError, data⟩
      | some t =>
        ⟨.completed, { data with envs := updateItems (fun items => items ++ [newHost]) t data.envs }⟩
    else
      match findHost itemId data.envs with
      | none => ⟨.completed, data⟩
      | some (s, i) =>
        match data.envs[s]?, targetEnv.bind (fun t => data.envs[t]?.map (fun e => (t, e))) with
        | some sourceEnv, some (t, target) =>
          if sourceEnv.id ≠ target.id then
            let spliced := updateItems (fun items => items.eraseIdx i) s data.envs
            let pushed := updateItems (fun items => items ++ [hostData f itemId]) t spliced
            ⟨.completed, { data with envs := pushed }⟩
          else
            let replaced := updateItems (fun items => items.set i (hostData f itemId)) s data.envs
            ⟨.completed, { data with envs := replaced }⟩
        | _, _ => ⟨.typeError, data⟩

/-- The loop of `deleteHost` (popup.js 567-577): splice the first match out of the first
environment that has one, then `break`. -/
def deleteLoop (itemId : String) : List Environment → List Environment
  | [] => []
  | env :: rest =>
    match findIndex (fun i => i.id == itemId) env.items with
    | some k => { env with items := env.items.eraseIdx k } :: rest
    | none => env :: deleteLoop itemId rest

/-- The method `deleteHost(item)` (popup.js 561-579); `confirmed` is the answer of `confirm(...)`. -/
def deleteHost (data : Document) (confirmed : Bool) (item : HostRecord) : Document :=
  if confirmed then { data with envs := deleteLoop item.id data.envs } else data

/-- The method `addNewEnvironment()` (popup.js 718-732); `envName` is the answer of `prompt(...)`,
`none` when the dialog is cancelled. -/
def addNewEnvironment (data : Document) (envName : Option String)
    (now : Nat) (randomText : String) : Document :=
  match envName with
  | none => data
  | some n =>
    if n = "" ∨ trim n = "" then data
    else
      let newEnv : Environment := { id := generateId now randomText, name := trim n, items := [] }
      { data with envs := data.envs ++ [newEnv] }

/-! ## popup.js: `filterItems` -/

/-- An element of `allItems` in `filterItems`: `{ ...item, envId: env.id }`. -/
structure ListedItem where
  item : HostRecord
  envId : String
  deriving DecidableEq, Repr

/-- The array `allItems` built by the two nested `forEach` loops (popup.js 215-220). -/
def allItems (data : Document) : List ListedItem :=
  data.envs.flatMap (fun env => env.items.map (fun item => ⟨item, env.id⟩))

/-- The test of the environment filter (popup.js 224). -/
def matchesEnv (selectedEnv : String) (x : ListedItem) : Bool :=
  x.item.environment == some selectedEnv || x.envId == selectedEnv

/-- The value of `matchesSearch` (popup.js 229-232). -/
def matchesSearch (toLowerCase : String → String) (searchTerm : String) (item : HostRecord) : Bool :=
  searchTerm == "" ||
    includes (toLowerCase item.name) searchTerm ||
    includes (toLowerCase item.ip) searchTerm ||
    (match item.tags with
      | none => false
      | some tags => tags.any (fun tag => includes (toLowerCase tag) searchTerm))

/-- The value of `matchesTags` (popup.js 234-235); the set `activeTags` is given by the
list of its elements. -/
def matchesTags (activeTags : List String) (item : HostRecord) : Bool :=
  activeTags.isEmpty ||
    (match item.tags with
      | none => false
      | some tags => tags.any (fun tag => activeTags.contains tag))

/-- The comparator passed to `sort` (popup.js 241-245). -/
def compareItems (localeCompare : String → String → Int) (a b : ListedItem) : Int :=
  if a.item.pinned && !b.item.pinned then -1
  else if !a.item.pinned && b.item.pinned then 1
  else localeCompare a.item.name b.item.name

/-- The method `filterItems()` (popup.js 210-245): the value left in `this.filteredItems`.
`searchInput` and `selectedEnv` are the values of the two DOM inputs;
`toLowerCase` and `localeCompare` are the string builtins of the same names;
`Array.prototype.sort` is stable, here an insertion sort that puts `a` before `b`
when the comparator is not positive. -/
def filterItems (toLowerCase : String → String) (localeCompare : String → String → Int)
    (data : Document) (searchInput selectedEnv : String) (activeTags : List String) :
    List ListedItem :=
  let searchTerm := toLowerCase searchInput
  let all := allItems data
  let inEnv := if selectedEnv ≠ "" then all.filter (matchesEnv selectedEnv) else all
  let filtered := inEnv.filter
    (fun x => matchesSearch toLowerCase searchTerm x.item && matchesTags activeTags x.item)
  filtered.insertionSort (fun a b => compareItems localeCompare a b ≤ 0)

/-- The text `t` occurs in `s` when case is ignored: the lower-cased `t` is a contiguous
run of characters of the lower-cased `s`. -/
def ContainsIgnoringCase (toLowerCase : String → String) (s t : String) : Prop :=
  (toLowerCase t).data <:+: (toLowerCase s).data

/-- The array held in `this.filteredItems` before `sort` is called (popup.js 211-238),
in the order of `allItems`. -/
def matchingItems (toLowerCase : String → String) (data : Document)
    (searchInput selectedEnv : String) (activeTags : List String) : List ListedItem :=
  let searchTerm := toLowerCase searchInput
  let all := allItems data
  let inEnv := if selectedEnv ≠ "" then all.filter (matchesEnv selectedEnv) else all
  inEnv.filter
    (fun x => matchesSearch toLowerCase searchTerm x.item && matchesTags activeTags x.item)

/-- Three-way comparison of two character lists by code points, position by position. -/
def compareChars : List Char → List Char → Int
  | [], [] => 0
  | [], _ :: _ => -1
  | _ :: _, [] => 1
  | a :: as, b :: bs =>
    if a.toNat < b.toNat then -1
    else if b.toNat < a.toNat then 1
    else compareChars as bs

/-- A comparator with the contract of `localeCompare`, ordering texts lexicographically by
code points. -/
def codePointCompare (a b : String) : Int := compareChars a.data b.data

/-! ## Health sweeps -/

/-- The object a probe resolves to: `{ success, responseTime, status, method }`. -/
structure HealthResult where
  success : Bool
  responseTime : Option Nat
  status : String
  method : Option String
  deriving DecidableEq, Repr

/-- What the sweep gets back for one host: a result object, `undefined`, or an
exception raised inside the `try` block. -/
inductive ProbeReply where
  | result (r : HealthResult)
  | undefined
  | thrown
  deriving DecidableEq, Repr

/-- Applies `commit` to the hosts of one `items` array; the host at position `j` of the
array is the `k + j`-th host of the sweep and gets the `k + j`-th reply and clock value. -/
def sweepItems (commit : HostRecord → ProbeReply → Nat → HostRecord)
    (replies : Nat → ProbeReply) (clock : Nat → Nat) : Nat → List HostRecord → List HostRecord
  | _, [] => []
  | k, host :: rest =>
    commit host (replies k) (clock k) :: sweepItems commit replies clock (k + 1) rest

/-- The loop `for (const host of allHosts)` over the hosts of all environments in order,
each host mutated in place in its own array. -/
def sweepEnvs (commit : HostRecord → ProbeReply → Nat → HostRecord)
    (replies : Nat → ProbeReply) (clock : Nat → Nat) : Nat → List Environment → List Environment
  | _, [] => []
  | k, env :: rest =>
    { env with items := sweepItems commit replies clock k env.items } ::
      sweepEnvs commit replies clock (k + env.items.length) rest

/-- The terminal writes of the popup sweep for one host (popup.js 514-525). -/
def commitHealth (host : HostRecord) (reply : ProbeReply) (now : Nat) : HostRecord :=
  match reply with
  | .result response =>
    if response.success then
      { host with healthStatus := some "online", lastHealthCheck := some now,
                  responseTime := response.responseTime }
    else
      { host with healthStatus := some "offline", lastHealthCheck := some now }
  | .undefined => { host with healthStatus := some "offline", lastHealthCheck := some now }
  | .thrown => { host with healthStatus := some "offline", lastHealthCheck := some now }

/-- The method `performHealthChecks()` of the popup (popup.js 487-531): `this.data` when the sweep
is over.  `enableHealthProbe` is `this.settings.enableHealthProbe`; `replies k` is what
the `k`-th `sendMessage` call answers and `clock k` the `Date.now()` read at its commit. -/
def performHealthChecks (enableHealthProbe : Bool) (data : Document)
    (replies : Nat → ProbeReply) (clock : Nat → Nat) : Document :=
  if enableHealthProbe then { data with envs := sweepEnvs commitHealth replies clock 0 data.envs }
  else data

end IPManager

namespace Background

open IPManager

/-- The writes of the background sweep for one host (background.js 260-277).  Reading
`success` of an `undefined` result raises inside the `try`, so it ends in the `catch`. -/
def commitHealth (host : HostRecord) (reply : ProbeReply) (now : Nat) : HostRecord :=
  match reply with
  | .result healthResult =>
    if healthResult.success then
      { host with healthStatus := some "online", lastHealthCheck := some now,
                  responseTime := healthResult.responseTime,
                  healthMethod := healthResult.method }
    else
      { host with healthStatus := some "offline", lastHealthCheck := some now,
                  healthMethod := healthResult.method }
  | .undefined =>
    { host with healthStatus := some "offline", lastHealthCheck := some now,
                healthMethod := some "error" }
  | .thrown =>
    { host with healthStatus := some "offline", lastHealthCheck := some now,
                healthMethod := some "error" }

/-- The function `performHealthChecks()` of the background script (background.js 244-285): the
document written back to storage; `data` is the stored `ipManagerData`, `replies k` the
outcome of the `k`-th `performHealthCheck` call. -/
def performHealthChecks (data : Document) (replies : Nat → ProbeReply) (clock : Nat → Nat) :
    Document :=
  { data with envs := sweepEnvs commitHealth replies clock 0 data.envs }

end Background

namespace Background

open IPManager

/-! ## background.js: `performHealthCheck` -/

/-- One `fetch` call of the probe: the address fetched and the delay given to
`AbortSignal.timeout`. -/
structure Attempt where
  url : String
  timeoutMs : Nat
  deriving DecidableEq, Repr

/-- What a call of `performHealthCheck` leaves behind: the object it resolves to and the
`fetch` calls it made, in order. -/
structure ProbeRun where
  result : HealthResult
  attempts : List Attempt
  deriving DecidableEq, Repr

/-- The array `commonPorts` (background.js 213). -/
def commonPorts : List Nat := [22, 23, 80, 443, 3389, 8080, 8443]

/-- The loop over `commonPorts` (background.js 215-234) and the final `return`
(237-241).  `made` holds the `fetch` calls made so far; `fetch k a` tells whether the call
number `k` of this probe, with request `a`, resolves (`true`) or rejects, by failure or
by timeout (`false`); `elapsed k` is `Date.now() - startTime` read after `k` calls. -/
def tryPorts (fetch : Nat → Attempt → Bool) (elapsed : Nat → Nat) (ip : String) :
    List Nat → List Attempt → ProbeRun
  | [], made =>
    ⟨{ success := false, responseTime := none, status := "offline",
       method := some "all-failed" }, made⟩
  | port :: rest, made =>
    let attempt : Attempt := ⟨"http://" ++ ip ++ ":" ++ toString port, 2000⟩
    if fetch made.length attempt then
      ⟨{ success := true, responseTime := some (elapsed (made.length + 1)),
         status := "online", method := some ("port-" ++ toString port) },
        made ++ [attempt]⟩
    else tryPorts fetch elapsed ip rest (made ++ [attempt])

/-- The function `performHealthCheck(ip)` (background.js 169-242). -/
def performHealthCheck (fetch : Nat → Attempt → Bool) (elapsed : Nat → Nat) (ip : String) :
    ProbeRun :=
  let http : Attempt := ⟨"http://" ++ ip, 3000⟩
  if fetch 0 http then
    ⟨{ success := true, responseTime := some (elapsed 1), status := "online",
       method := some "http" }, [http]⟩
  else
    let https : Attempt := ⟨"https://" ++ ip, 3000⟩
    if fetch 1 https then
      ⟨{ success := true, responseTime := some (elapsed 2), status := "online",
         method := some "https" }, [http, https]⟩
    else tryPorts fetch elapsed ip commonPorts [http, https]

/-- The nine attempts of a probe of `ip` in their fixed order: http, https, then one per
common port. -/
def plannedAttempts (ip : String) : List Attempt :=
  [⟨"http://" ++ ip, 3000⟩, ⟨"https://" ++ ip, 3000⟩,
   ⟨"http://" ++ ip ++ ":22", 2000⟩, ⟨"http://" ++ ip ++ ":23", 2000⟩,
   ⟨"http://" ++ ip ++ ":80", 2000⟩, ⟨"http://" ++ ip ++ ":443", 2000⟩,
   ⟨"http://" ++ ip ++ ":3389", 2000⟩, ⟨"http://" ++ ip ++ ":8080", 2000⟩,
   ⟨"http://" ++ ip ++ ":8443", 2000⟩]

/-- The method names of the nine attempts, in the same order. -/
def methodNames : List String :=
  ["http", "https", "port-22", "port-23", "port-80", "port-443", "port-3389", "port-8080",
   "port-8443"]

/-- The network in which the call number `n` of a probe resolves and every other call
rejects. -/
def onlyCall (n : Nat) (k : Nat) (_ : Attempt) : Bool := k == n

end Background

namespace IPManager

/-! ## The course of a sweep -/

/-- The array `allHosts` that both sweeps build first: the hosts of all environments, in
document order. -/
def allHosts (data : Document) : List HostRecord :=
  data.envs.flatMap (fun env => env.items)

/-- The steps a sweep takes for one host. -/
inductive SweepStep where
  /-- The write `host.healthStatus = 'checking'`. -/
  | checking
  /-- The probe is started (`sendMessage` in the popup, `performHealthCheck` in the
  background script). -/
  | probe
  /-- The writes of the terminal result. -/
  | commit
  deriving DecidableEq, Repr

/-- One step of a sweep: which step, the position of the host in `allHosts`, and the host
record as it is once the step is taken. -/
structure SweepEvent where
  step : SweepStep
  index : Nat
  host : HostRecord
  deriving DecidableEq, Repr

/-- The steps of the popup loop `for (const host of allHosts)` (popup.js 500-526), in the
order they are taken; the host at the head of the list is host number `k`. -/
def sweepLog (replies : Nat → ProbeReply) (clock : Nat → Nat) :
    Nat → List HostRecord → List SweepEvent
  | _, [] => []
  | k, host :: rest =>
    let checking := { host with healthStatus := some "checking" }
    ⟨.checking, k, checking⟩ :: ⟨.probe, k, checking⟩ ::
      ⟨.commit, k, commitHealth checking (replies k) (clock k)⟩ ::
      sweepLog replies clock (k + 1) rest

/-- The steps taken by `performHealthChecks()` of the popup. -/
def performHealthChecksLog (enableHealthProbe : Bool) (data : Document)
    (replies : Nat → ProbeReply) (clock : Nat → Nat) : List SweepEvent :=
  if enableHealthProbe then sweepLog replies clock 0 (allHosts data) else []

/-- The terminal statuses. -/
def IsTerminal (status : Option String) : Prop :=
  status = some "online" ∨ status = some "offline"

/-- The two records agree on every property that is not a health property. -/
def SameIdentity (a b : HostRecord) : Prop :=
  a.id = b.id ∧ a.name = b.name ∧ a.ip = b.ip ∧ a.port = b.port ∧ a.rdpUser = b.rdpUser ∧
    a.environment = b.environment ∧ a.tags = b.tags ∧ a.notes = b.notes ∧ a.pinned = b.pinned

/-- The probe steps of a log, in order. -/
def probesOf (log : List SweepEvent) : List SweepEvent :=
  log.filter (fun e => e.step == .probe)

/-- The commit steps of a log, in order. -/
def commitsOf (log : List SweepEvent) : List SweepEvent :=
  log.filter (fun e => e.step == .commit)

end IPManager

namespace Background

open IPManager

/-- The steps of the background loop `for (const host of allHosts)` (background.js
259-278), in the order they are taken. -/
def sweepLog (replies : Nat → ProbeReply) (clock : Nat → Nat) :
    Nat → List HostRecord → List SweepEvent
  | _, [] => []
  | k, host :: rest =>
    ⟨.probe, k, host⟩ :: ⟨.commit, k, commitHealth host (replies k) (clock k)⟩ ::
      sweepLog replies clock (k + 1) rest

/-- The steps taken by `performHealthChecks()` of the background script. -/
def performHealthChecksLog (data : Document) (replies : Nat → ProbeReply)
    (clock : Nat → Nat) : List SweepEvent :=
  sweepLog replies clock 0 (allHosts data)

end Background

namespace Background

open IPManager

/-! ## background.js: the address-bar lookup -/

/-- The loop of the `onInputEntered` listener (background.js 93-96): in each environment
in turn, `items.find` with the test `item.id === text || item.name.toLowerCase() ===
text.toLowerCase()`, stopping at the first environment where it finds a host. -/
def findTargetHost (toLowerCase : String → String) (text : String) :
    List Environment → Option HostRecord
  | [] => none
  | env :: rest =>
    match env.items.find? (fun item => item.id == text || toLowerCase item.name == toLowerCase text) with
    | some targetHost => some targetHost
    | none => findTargetHost toLowerCase text rest

/-- The `onInputEntered` listener (background.js 86-109): the address of the tab it
opens, if any.  `stored` is the value of `ipManagerData` in storage, `none` when there is
none. -/
def inputEntered (toLowerCase : String → String) (stored : Option Document) (text : String) :
    Option String :=
  match stored with
  | none => none
  | some data =>
    match findTargetHost toLowerCase text data.envs with
    | some targetHost => some ("http://" ++ targetHost.ip)
    | none => none

end Background

namespace IPManager

/-! ## Import and export -/

/-- A JavaScript number as far as its truth value goes: a finite value or `NaN`. -/
inductive JsNumber where
  | finite (value : ℚ)
  | nan

/-- A value of the kind `JSON.parse` returns and `JSON.stringify` prints; an object is
given by the list of its properties. -/
inductive Json where
  | null
  | bool (b : Bool)
  | num (n : JsNumber)
  | str (s : String)
  | arr (items : List Json)
  | obj (properties : List (String × Json))

/-- The value of `ToBoolean(v)`, as used by `&&` and `if`. -/
def Json.truthy : Json → Bool
  | .null => false
  | .bool b => b
  | .num (.finite value) => !(value == 0)
  | .num .nan => false
  | .str s => !(s == "")
  | .arr _ => true
  | .obj _ => true

/-- The value of `v[key]` for a `v` other than `null` and a `key` that no prototype
defines; `none` stands for `undefined`.  Only an object has such properties. -/
def Json.get (v : Json) (key : String) : Option Json :=
  match v with
  | .obj properties => properties.lookup key
  | _ => none

/-- The truth value of `v[key]`; `undefined` is falsy. -/
def Json.truthyAt (v : Json) (key : String) : Bool :=
  match v.get key with
  | some w => w.truthy
  | none => false

/-- A stored number. -/
def jsonNat (n : Nat) : Json := .num (.finite n)

/-- A property that is present only when the record has it. -/
def optionalProperty (key : String) (value : Option Json) : List (String × Json) :=
  match value with
  | some v => [(key, v)]
  | none => []

/-- The object a host record is in memory. -/
def HostRecord.toJson (h : HostRecord) : Json :=
  .obj ([("name", .str h.name), ("ip", .str h.ip),
      ("port", match h.port with
        | .null => .null
        | .NaN => .num .nan
        | .num n => .num (.finite n)),
      ("rdpUser", match h.rdpUser with
        | some u => .str u
        | none => .null)] ++
    optionalProperty "environment" (h.environment.map Json.str) ++
    optionalProperty "tags" (h.tags.map (fun tags => Json.arr (tags.map Json.str))) ++
    [("notes", .str h.notes), ("pinned", .bool h.pinned), ("id", .str h.id)] ++
    optionalProperty "healthStatus" (h.healthStatus.map Json.str) ++
    optionalProperty "lastHealthCheck" (h.lastHealthCheck.map jsonNat) ++
    optionalProperty "responseTime" (h.responseTime.map jsonNat) ++
    optionalProperty "healthMethod" (h.healthMethod.map Json.str))

/-- The object an environment is in memory. -/
def Environment.toJson (env : Environment) : Json :=
  .obj [("id", .str env.id), ("name", .str env.name),
    ("items", .arr (env.items.map HostRecord.toJson))]

/-- The object `this.data` is in memory. -/
def Document.toJson (data : Document) : Json :=
  .obj [("version", .num (.finite data.version)),
    ("envs", .arr (data.envs.map Environment.toJson))]

/-- The method `exportData()` of the popup (popup.js 662-674): the text of the downloaded
file.  `stringify v` is `JSON.stringify(v, null, 2)`. -/
def exportData (stringify : Json → String) (data : Json) : String :=
  stringify data

/-- How the `onload` handler of an import ends. -/
inductive ImportOutcome where
  /-- The value replaced the document: `Data imported successfully!` -/
  | imported
  /-- The test failed: `Invalid file format`. -/
  | invalidFormat
  /-- The `catch` branch: `Error parsing file: ...`. -/
  | parseError
  deriving DecidableEq, Repr

/-- The `onload` handler of `handleFileImport` in the popup (popup.js 685-699): how it
ends and the document `this.data` afterwards.  `parse text` is `JSON.parse(text)`, `none`
when it throws; reading a property of `null` throws as well, inside the same `try`.
`render v` tells whether `this.render()` runs to its end on the document `v`: it throws
on a value that is not of the shape the rendering code walks through (`this.data.envs.forEach`
at popup.js 261 for an `envs` that has no `forEach`), and the same `try` catches that,
after the document was replaced and `saveData()` was called. -/
def handleFileImport (parse : String → Option Json) (render : Json → Bool) (data : Json)
    (text : String) : ImportOutcome × Json :=
  match parse text with
  | none => (.parseError, data)
  | some .null => (.parseError, data)
  | some importedData =>
    if importedData.truthyAt "version" && importedData.truthyAt "envs" then
      if render importedData then (.imported, importedData)
      else (.parseError, importedData)
    else (.invalidFormat, data)

end IPManager

namespace OptionsManager

open IPManager

/-! ## options.js: export and import -/

/-- The method `exportData()` of the options page (options.js 145-167): the text of the
downloaded file, `none` when there is `No data to export`.  `stored` is the value of
`ipManagerData` in storage, `none` when there is none, and `stringify v` is
`JSON.stringify(v, null, 2)`. -/
def exportData (stringify : Json → String) (stored : Option Json) : Option String :=
  match stored with
  | none => none
  | some data => if data.truthy then some (stringify data) else none

/-- The `onload` handler of `handleFileImport` in the options page (options.js 176-189):
how it ends and the value of `ipManagerData` in storage afterwards.  `set v` tells
whether the awaited write of `v` to storage is fulfilled; a rejected write leaves the
stored value as it was and is caught by the same `try`. -/
def handleFileImport (parse : String → Option Json) (set : Json → Bool)
    (stored : Option Json) (text : String) : ImportOutcome × Option Json :=
  match parse text with
  | none => (.parseError, stored)
  | some .null => (.parseError, stored)
  | some importedData =>
    if importedData.truthyAt "version" && importedData.truthyAt "envs" then
      if set importedData then (.imported, some importedData)
      else (.parseError, stored)
    else (.invalidFormat, stored)

end OptionsManager

namespace Background

open IPManager

/-! ## background.js: the context-menu check -/

/-- A character class `[...]`: one of the listed characters. -/
def oneOf (cs : List Char) : RegularExpression Char :=
  cs.foldr (fun c r => RegularExpression.char c + r) 0

/-- The pattern `r?`: `r` or nothing. -/
def optional (r : RegularExpression Char) : RegularExpression Char := 1 + r

/-- The class `[0-9]`. -/
def digitClass : RegularExpression Char := oneOf "0123456789".data

/-- One group of `ipRegex`: `25[0-5]|2[0-4][0-9]|[01]?[0-9][0-9]?`. -/
def octetRegex : RegularExpression Char :=
  (RegularExpression.char '2' * RegularExpression.char '5' * oneOf "012345".data) +
    (RegularExpression.char '2' * oneOf "01234".data * digitClass) +
    (optional (oneOf "01".data) * digitClass * optional digitClass)

/-- The pattern `ipRegex` (background.js 29), anchored at both ends:
`^(?:(?:octet)\.){3}(?:octet)$` with the group repeated three times written out. -/
def ipRegex : RegularExpression Char :=
  (octetRegex * RegularExpression.char '.') * (octetRegex * RegularExpression.char '.') *
    (octetRegex * RegularExpression.char '.') * octetRegex

/-- What the `contextMenus.onClicked` listener does (background.js 23-58). -/
inductive MenuOutcome where
  /-- The text is stored as `pendingIp` and the popup is opened. -/
  | accepted (pendingIp : String)
  /-- The text is refused: `Selected text is not a valid IP address`. -/
  | rejected
  /-- Another menu item: nothing is done. -/
  | ignored
  deriving DecidableEq, Repr

/-- The `contextMenus.onClicked` listener (background.js 23-58) for the menu item
`menuItemId` and the selection `selectionText`. -/
def contextMenuClicked (menuItemId selectionText : String) : MenuOutcome :=
  if menuItemId = "addIpToManager" then
    let selectedText := trim selectionText
    if ipRegex.rmatch selectedText.data then .accepted selectedText else .rejected
  else .ignored

/-- The number written by a run of decimal digits. -/
def decimalValue (digits : List Char) : Nat :=
  digits.foldl (fun acc c => 10 * acc + (c.toNat - 48)) 0

/-- One group of an address: one to three decimal digits with a value from 0 to 255. -/
def IsOctetText (g : List Char) : Prop :=
  1 ≤ g.length ∧ g.length ≤ 3 ∧ (∀ c ∈ g, c.isDigit = true) ∧ decimalValue g ≤ 255

/-- Four groups separated by single dots, and nothing else. -/
def IsDottedQuad (cs : List Char) : Prop :=
  ∃ a b c d, IsOctetText a ∧ IsOctetText b ∧ IsOctetText c ∧ IsOctetText d ∧
    cs = a ++ '.' :: (b ++ '.' :: (c ++ '.' :: d))

end Background

namespace Background

open IPManager

/-! ## background.js: the address-bar suggestions -/

/-- One element of the array passed to `suggest`: `{ content, description }`. -/
structure SuggestResult where
  content : String
  description : String
  deriving DecidableEq, Repr

/-- The array `allHosts` of the `onInputChanged` listener (background.js 66-74): one entry
per host, pushed by the two nested `forEach` loops. -/
def Omnibox.allHosts (data : Document) : List SuggestResult :=
  data.envs.flatMap (fun env => env.items.map (fun item =>
    { content := item.id, description := item.name ++ " - " ++ item.ip }))

/-- The array `filtered` of the listener (background.js 76-78). -/
def Omnibox.filtered (toLowerCase : String → String) (data : Document) (text : String) :
    List SuggestResult :=
  (Omnibox.allHosts data).filter (fun host =>
    includes (toLowerCase host.description) (toLowerCase text))

/-- The `onInputChanged` listener (background.js 62-83): the array it passes to `suggest`,
`none` when it does not call `suggest`.  `stored` is the value of `ipManagerData` in
storage, `none` when there is none. -/
def inputChanged (toLowerCase : String → String) (stored : Option Document) (text : String) :
    Option (List SuggestResult) :=
  match stored with
  | none => none
  | some data => some ((Omnibox.filtered toLowerCase data text).take 5)

end Background

namespace IPManager

/-! ## The text of a JSON value

A reference for the two builtins of import and export, `JSON.stringify(v, null, 2)` and
`JSON.parse`, on the values it covers: where `printJson` gives a text, that text is what
`JSON.stringify` prints, and where `readJson` gives a value, that value is what
`JSON.parse` returns.  `none` means that the reference does not say. -/

/-- Heads of the JSON grammar's white space: space, tab, line feed, carriage return. -/
def isJsonWhiteSpace (c : Char) : Bool :=
  c == ' ' || c == '\t' || c == '\n' || c == '\r'

/-- The text behind its leading white space. -/
def skipWhiteSpace : List Char → List Char
  | [] => []
  | c :: cs => if isJsonWhiteSpace c then skipWhiteSpace cs else c :: cs

/-- The rest of `cs` behind the text `p`, when `cs` starts with `p`. -/
def expect : List Char → List Char → Option (List Char)
  | [], cs => some cs
  | _ :: _, [] => none
  | a :: p, c :: cs => if a = c then expect p cs else none

/-- The decimal digits of `n`, least significant first, `fuel` bounding their number. -/
def digits10 : Nat → Nat → List Char
  | 0, _ => []
  | fuel + 1, n =>
    if n < 10 then [Char.ofNat (48 + n)] else Char.ofNat (48 + n % 10) :: digits10 fuel (n / 10)

/-- The text `Number::toString` gives for an integer of magnitude below 2^53, where every
integer is a number of JavaScript and is printed digit by digit: a minus sign when it is
negative, then its decimal digits.  Other numbers are not covered. -/
def numberToString? (q : ℚ) : Option (List Char) :=
  if q.den = 1 ∧ q.num.natAbs < 2 ^ 53 then
    some ((if q.num < 0 then ['-'] else []) ++ (digits10 16 q.num.natAbs).reverse)
  else none

/-- The text `QuoteJSONString` puts for one character: a two-character escape for the
quotation mark, the backslash, backspace, tab, line feed, form feed and carriage return,
`\u00xx` with lower-case digits for any other character below U+0020, and the character
itself otherwise. -/
def quoteChar (c : Char) : List Char :=
  if c = '"' then ['\\', '"']
  else if c = '\\' then ['\\', '\\']
  else if c.toNat = 8 then ['\\', 'b']
  else if c.toNat = 9 then ['\\', 't']
  else if c.toNat = 10 then ['\\', 'n']
  else if c.toNat = 12 then ['\\', 'f']
  else if c.toNat = 13 then ['\\', 'r']
  else if c.toNat < 32 then
    ['\\', 'u', '0', '0', digit36 (c.toNat / 16), digit36 (c.toNat % 16)]
  else [c]

/-- The value of `QuoteJSONString`: the text between quotation marks. -/
def quote (cs : List Char) : List Char :=
  '"' :: (cs.flatMap quoteChar ++ ['"'])

/-- Is the key made of decimal digits only?  Such keys include the array indices, which an
object lists before its other keys whatever the order they were added in. -/
def isDigitKey (key : String) : Bool :=
  !key.data.isEmpty && key.data.all (fun c => (decDigit? c).isSome)

/-- The keys are pairwise different and none is made of digits: the list of properties is
then the object's own order of properties. -/
def keysInOrder (properties : List (String × Json)) : Bool :=
  decide (properties.map Prod.fst).Nodup && properties.all (fun p => !isDigitKey p.1)

/-- The indentation at nesting depth `depth`, for the gap of two spaces. -/
def indentation (depth : Nat) : List Char := List.replicate (2 * depth) ' '

mutual

/-- The text `SerializeJSONProperty` gives for a value at nesting depth `depth`, with the
gap of two spaces: `NaN` is printed as `null`, an empty array as `[]`, an empty object as
an opening and a closing brace, and the elements of any other array or object on lines of
their own. -/
def printValue (depth : Nat) : Json → Option (List Char)
  | .null => some "null".data
  | .bool b => some (if b then "true".data else "false".data)
  | .num .nan => some "null".data
  | .num (.finite value) => numberToString? value
  | .str s => some (quote s.data)
  | .arr items =>
    if items.isEmpty then some "[]".data
    else
      match printItems (depth + 1) items with
      | some text =>
        some ('[' :: '\n' :: (indentation (depth + 1) ++ text ++
          '\n' :: (indentation depth ++ [']'])))
      | none => none
  | .obj properties =>
    if properties.isEmpty then some "\x7b\x7d".data
    else if keysInOrder properties then
      match printMembers (depth + 1) properties with
      | some text =>
        some ('{' :: '\n' :: (indentation (depth + 1) ++ text ++
          '\n' :: (indentation depth ++ ['}'])))
      | none => none
    else none

/-- The elements of an array, each at depth `depth`, separated by a comma and a line
break. -/
def printItems (depth : Nat) : List Json → Option (List Char)
  | [] => some []
  | v :: vs =>
    match printValue depth v, printItems depth vs with
    | some text, some rest =>
      some (if vs.isEmpty then text else text ++ ',' :: '\n' :: (indentation depth ++ rest))
    | _, _ => none

/-- The members of an object, each at depth `depth`: the quoted key, a colon, a space and
the value, separated by a comma and a line break. -/
def printMembers (depth : Nat) : List (String × Json) → Option (List Char)
  | [] => some []
  | (key, v) :: ps =>
    match printValue depth v, printMembers depth ps with
    | some text, some rest =>
      some (quote key.data ++ ':' :: ' ' :: (if ps.isEmpty then text
        else text ++ ',' :: '\n' :: (indentation depth ++ rest)))
    | _, _ => none

end

/-- The text of `JSON.stringify(v, null, 2)`, for the values the reference covers. -/
def printJson (v : Json) : Option String :=
  (printValue 0 v).map String.mk

/-- The decimal value of a run of digits. -/
def digitsValue (digits : List Char) : Nat :=
  digits.foldl (fun acc c => 10 * acc + (c.toNat - 48)) 0

/-- Reads a number of the JSON grammar that is an integer of magnitude below 2^53 written
without fraction and exponent: an optional minus sign, then `0` or a run of digits that
does not start with `0`.  Other numbers are not covered. -/
def readNumber (cs : List Char) : Option (ℚ × List Char) :=
  let negative := cs.head? == some '-'
  let body := if negative then cs.drop 1 else cs
  let digits := body.takeWhile (fun c => (decDigit? c).isSome)
  let rest := body.dropWhile (fun c => (decDigit? c).isSome)
  if digits.isEmpty then none
  else if digits.head? == some '0' && 1 < digits.length then none
  else if rest.head? == some '.' || rest.head? == some 'e' || rest.head? == some 'E' then none
  else if digitsValue digits < 2 ^ 53 then
    some (if negative then -((digitsValue digits : ℤ) : ℚ) else ((digitsValue digits : ℤ) : ℚ), rest)
  else none

/-- The character with the code of four hexadecimal digits, unless the code is that of a
surrogate. -/
def readHex4 (a b c d : Char) : Option Char :=
  match hexDigit? a, hexDigit? b, hexDigit? c, hexDigit? d with
  | some x, some y, some z, some w =>
    if Nat.isValidChar (4096 * x + 256 * y + 16 * z + w) then
      some (Char.ofNat (4096 * x + 256 * y + 16 * z + w))
    else none
  | _, _, _, _ => none

/-- The character that stands behind a backslash for itself or for a control character. -/
def unescape? (e : Char) : Option Char :=
  if e = '"' then some '"'
  else if e = '\\' then some '\\'
  else if e = '/' then some '/'
  else if e = 'b' then some (Char.ofNat 8)
  else if e = 'f' then some (Char.ofNat 12)
  else if e = 'n' then some '\n'
  else if e = 'r' then some '\r'
  else if e = 't' then some '\t'
  else none

/-- Reads the rest of a string of the JSON grammar behind its opening quotation mark, up
to the closing one: the characters from U+0020 on stand for themselves, a backslash starts
one of the escapes `\" \\ \/ \b \f \n \r \t \uxxxx`. -/
def readStringBody : List Char → Option (List Char × List Char)
  | [] => none
  | c :: cs =>
    if c = '"' then some ([], cs)
    else if c = '\\' then
      match cs with
      | [] => none
      | e :: rest =>
        if e = 'u' then
          match rest with
          | a :: b :: c :: d :: rest =>
            match readHex4 a b c d, readStringBody rest with
            | some x, some (s, r) => some (x :: s, r)
            | _, _ => none
          | _ => none
        else
          match unescape? e, readStringBody rest with
          | some x, some (s, r) => some (x :: s, r)
          | _, _ => none
    else if c.toNat < 32 then none
    else
      match readStringBody cs with
      | some (s, r) => some (c :: s, r)
      | none => none

mutual

/-- Reads one value of the JSON grammar at the head of the text, behind white space;
`fuel` bounds the number of values, elements and members read. -/
def readValue : Nat → List Char → Option (Json × List Char)
  | 0, _ => none
  | fuel + 1, cs =>
    match skipWhiteSpace cs with
    | [] => none
    | c :: rest =>
      if c = 'n' then (expect "ull".data rest).map (fun r => (.null, r))
      else if c = 't' then (expect "rue".data rest).map (fun r => (.bool true, r))
      else if c = 'f' then (expect "alse".data rest).map (fun r => (.bool false, r))
      else if c = '"' then (readStringBody rest).map (fun p => (.str ⟨p.1⟩, p.2))
      else if c = '[' then
        match skipWhiteSpace rest with
        | [] => none
        | d :: r =>
          if d = ']' then some (.arr [], r)
          else (readItems fuel (d :: r)).map (fun p => (.arr p.1, p.2))
      else if c = '{' then
        match skipWhiteSpace rest with
        | [] => none
        | d :: r =>
          if d = '}' then some (.obj [], r)
          else
            match readMembers fuel (d :: r) with
            | some (properties, r) =>
              if keysInOrder properties then some (.obj properties, r) else none
            | none => none
      else (readNumber (c :: rest)).map (fun p => (.num (.finite p.1), p.2))

/-- Reads the elements of an array up to the closing bracket. -/
def readItems : Nat → List Char → Option (List Json × List Char)
  | 0, _ => none
  | fuel + 1, cs =>
    match readValue fuel cs with
    | none => none
    | some (v, rest) =>
      match skipWhiteSpace rest with
      | [] => none
      | d :: r =>
        if d = ',' then (readItems fuel r).map (fun p => (v :: p.1, p.2))
        else if d = ']' then some ([v], r)
        else none

/-- Reads the members of an object up to the closing brace. -/
def readMembers : Nat → List Char → Option (List (String × Json) × List Char)
  | 0, _ => none
  | fuel + 1, cs =>
    match skipWhiteSpace cs with
    | [] => none
    | q :: rest =>
      if q = '"' then
        match readStringBody rest with
        | none => none
        | some (key, rest) =>
          match skipWhiteSpace rest with
          | [] => none
          | colon :: rest =>
            if colon = ':' then
              match readValue fuel rest with
              | none => none
              | some (v, rest) =>
                match skipWhiteSpace rest with
                | [] => none
                | d :: r =>
                  if d = ',' then
                    (readMembers fuel r).map (fun p => ((⟨key⟩, v) :: p.1, p.2))
                  else if d = '}' then some ([(⟨key⟩, v)], r)
                  else none
            else none
      else none

end

/-- The value of `JSON.parse(text)`, for the texts the reference covers: one value with
white space around it. -/
def readJson (text : String) : Option Json :=
  match readValue (text.length + 1) text.data with
  | some (v, rest) => if (skipWhiteSpace rest).isEmpty then some v else none
  | none => none

end IPManager

namespace IPManager

/-- Does the text start like a value of the JSON grammar? -/
def startsValue : List Char → Bool
  | [] => false
  | c :: _ =>
    c == 'n' || c == 't' || c == 'f' || c == '"' || c == '[' || c == '{' || c == '-' ||
      (decDigit? c).isSome

/-- Is the text empty, or does it start with a comma or a line break? -/
def endsValue : List Char → Bool
  | [] => true
  | c :: _ => c == ',' || c == '\n'

mutual

/-- The value with `null` in the place of every `NaN`. -/
def Json.nanToNull : Json → Json
  | .num .nan => .null
  | .arr items => .arr (nanToNullItems items)
  | .obj properties => .obj (nanToNullMembers properties)
  | v => v

/-- The elements with `null` in the place of every `NaN`. -/
def nanToNullItems : List Json → List Json
  | [] => []
  | v :: vs => v.nanToNull :: nanToNullItems vs

/-- The members with `null` in the place of every `NaN`. -/
def nanToNullMembers : List (String × Json) → List (String × Json)
  | [] => []
  | (key, v) :: ps => (key, v.nanToNull) :: nanToNullMembers ps

end

end IPManager

namespace IPManager

/-- The reference covers the value at every depth, and reading its text gives the value
itself: it holds no `NaN`. -/
def Json.RoundTrips (v : Json) : Prop :=
  (∀ depth, (printValue depth v).isSome = true) ∧ v.nanToNull = v

/-- The builtin `JSON.stringify(·, null, 2)` as far as the export relies on it: on a value
that the reference covers, `stringify` gives the text of the reference. -/
def PrintsJson (stringify : Json → String) : Prop :=
  ∀ v text, printJson v = some text → stringify v = text

/-- The builtin `JSON.parse` as far as the import relies on it: on a text that the
reference covers, `parse` gives the value of the reference. -/
def ReadsJson (parse : String → Option Json) : Prop :=
  ∀ text v, readJson text = some v → parse text = some v

/-- The value has a property `key` whose value is truthy. -/
def Json.HasTruthy (v : Json) (key : String) : Prop :=
  ∃ w, v.get key = some w ∧ w.truthy = true

/-- The numbers of a host record are integers of magnitude below 2^53, the range in which
an integer of the model is a number of JavaScript: the port, when it is a number, the
time of the last check and the response time. -/
def safeNumbers (h : HostRecord) : Bool :=
  (match h.port with
    | .num n => decide (n.natAbs < 2 ^ 53)
    | _ => true) &&
  (match h.lastHealthCheck with
    | some t => decide (t < 2 ^ 53)
    | none => true) &&
  (match h.responseTime with
    | some t => decide (t < 2 ^ 53)
    | none => true)

end IPManager

namespace IPManager

/-! ## Sample documents and forms -/

/-- A stored host with the given id, name, address, environment value and tags. -/
def mkHost (id name ip environment : String) (tags : List String) : HostRecord :=
  { id := id, name := name, ip := ip, port := .null, rdpUser := none,
    environment := some environment, tags := some tags, notes := "", pinned := false,
    healthStatus := none, lastHealthCheck := none, responseTime := none,
    healthMethod := none }

/-- A filled-in host form. -/
def sampleForm : HostForm :=
  { hostName := "  web1 ", hostIP := "10.0.0.1", hostPort := "8080", hostRDPUser := " ",
    hostEnvironment := "lab", hostTags := "prod, , db ,", hostNotes := "",
    hostPinned := false }

/-- The sample form with a name of white space only. -/
def blankNameForm : HostForm := { sampleForm with hostName := " \t " }

/-- The sample form aimed at the environment `default`. -/
def renameForm : HostForm :=
  { sampleForm with hostName := "renamed", hostEnvironment := "default" }

/-- A form with an empty name aimed at the environment `lab`. -/
def emptyNameForm : HostForm := { sampleForm with hostName := "" }

/-- A form with an ip of white space only aimed at the environment `default`. -/
def blankIpForm : HostForm := { renameForm with hostIP := "  " }

/-- Two empty environments. -/
def emptyDoc : Document :=
  { version := 1, envs := [⟨"default", "Default", []⟩, ⟨"lab", "Lab", []⟩] }

/-- Host `a` in `default`, host `b` in `lab`. -/
def twoEnvDoc : Document :=
  { version := 1,
    envs := [⟨"default", "Default", [mkHost "a" "alpha" "10.0.0.1" "default" []]⟩,
             ⟨"lab", "Lab", [mkHost "b" "beta" "10.0.0.2" "lab" []]⟩] }

/-- A document that already holds a host whose id is `generateId 1700000000000 "0.4fzyo82mvyr"`. -/
def collisionDoc : Document :=
  { version := 1,
    envs := [⟨"default", "Default", []⟩,
             ⟨"lab", "Lab", [mkHost "loyw3v284fzyo82mvyr" "old" "10.0.0.9" "lab" []]⟩] }

/-- The hosts `web1` (tag `prod`) and `db1` (tag `dev`) in one environment. -/
def webDbDoc : Document :=
  { version := 1,
    envs := [⟨"default", "Default",
      [mkHost "h1" "web1" "10.0.0.1" "default" ["prod"],
       mkHost "h2" "db1" "10.0.0.2" "default" ["dev"]]⟩] }

/-- A host stored in the list of environment `a` whose own `environment` value is `b`. -/
def strayDoc : Document :=
  { version := 1,
    envs := [⟨"a", "A", [mkHost "x" "stray" "10.0.0.5" "b" []]⟩, ⟨"b", "B", []⟩] }

/-- Two environments that share the id `dup`; host `a` is in the second. -/
def twinEnvDoc : Document :=
  { version := 1,
    envs := [⟨"dup", "First", []⟩,
             ⟨"dup", "Second", [mkHost "a" "alpha" "10.0.0.1" "dup" []]⟩] }

/-- The sample form aimed at the environment id `dup`. -/
def dupForm : HostForm := { sampleForm with hostEnvironment := "dup" }

/-- Four hosts out of name order, the third one pinned, two of them named `db`. -/
def pinnedDoc : Document :=
  { version := 1,
    envs := [⟨"default", "Default",
      [mkHost "h1" "web" "10.0.0.1" "default" [],
       mkHost "h2" "db" "10.0.0.2" "default" [],
       { mkHost "h3" "zeta" "10.0.0.3" "default" [] with pinned := true },
       mkHost "h4" "db" "10.0.0.4" "default" []]⟩] }

/-- A host that an earlier sweep found online over http. -/
def seenHost : HostRecord :=
  { mkHost "h2" "db" "10.0.0.2" "default" [] with
    healthStatus := some "online", lastHealthCheck := some 5,
    responseTime := some 40, healthMethod := some "http" }

/-- Three hosts in two environments; the second was found online over http before. -/
def threeHostDoc : Document :=
  { version := 1,
    envs := [⟨"default", "Default", [mkHost "h1" "web" "10.0.0.1" "default" [], seenHost]⟩,
             ⟨"lab", "Lab", [mkHost "h3" "nas" "10.0.0.3" "lab" []]⟩] }

/-- A prober that answers for the first host, finds the second one unreachable and
throws for the third. -/
def sampleReplies : Nat → ProbeReply
  | 0 => .result ⟨true, some 12, "online", some "https"⟩
  | 1 => .result ⟨false, none, "offline", some "all-failed"⟩
  | _ => .thrown

/-- The host named `web` comes before the host whose id is `web`. -/
def nameFirstDoc : Document :=
  { version := 1,
    envs := [⟨"default", "Default",
      [mkHost "h1" "web" "10.0.0.1" "default" [], mkHost "web" "db" "10.0.0.2" "default" []]⟩] }

/-- The parsed file `{"version": 0, "envs": []}`. -/
def versionZeroFile : Json :=
  .obj [("version", .num (.finite 0)), ("envs", .arr [])]

/-- The parsed file `{"version": 1, "envs": "x"}`. -/
def envsTextFile : Json :=
  .obj [("version", .num (.finite 1)), ("envs", .str "x")]

/-- A rendering that runs to its end exactly when `envs` is an array, the first thing
`render()` calls `forEach` on. -/
def renderEnvs (v : Json) : Bool :=
  match v.get "envs" with
  | some (.arr _) => true
  | _ => false

/-- The reference printer as a total function, for use in the place of `JSON.stringify`. -/
def referenceStringify (v : Json) : String := (printJson v).getD ""

/-- The sample form with the port text `abc`, which `parseInt` cannot read. -/
def nanPortForm : HostForm := { sampleForm with hostPort := "abc" }

/-- The document of two environments after the form with the port text `abc` was added:
the new host has the port `NaN`. -/
def nanPortDoc : Document :=
  { version := 1,
    envs := [⟨"default", "Default", []⟩,
      ⟨"lab", "Lab", [{ hostData nanPortForm "loyw3v284fzyo82mvyr" with port := .NaN }]⟩] }

/-- The document above with the port `null` in the place of `NaN`. -/
def nullPortDoc : Document :=
  { version := 1,
    envs := [⟨"default", "Default", []⟩,
      ⟨"lab", "Lab", [{ hostData nanPortForm "loyw3v284fzyo82mvyr" with port := .null }]⟩] }

/-- A host that was probed: its port and its health properties are set. -/
def probedHost : HostRecord :=
  { mkHost "h3" "gate \"A\"" "10.0.0.3" "default" ["edge", "tab\there"] with
    port := .num 8443, rdpUser := some "admin", notes := "line one\nline two", pinned := true,
    healthStatus := some "online", lastHealthCheck := some 1700000000000,
    responseTime := some 42, healthMethod := some "port-8443" }

/-- The hosts `web1` and `db1` and the probed host, in two environments. -/
def probedDoc : Document :=
  { version := 1,
    envs := webDbDoc.envs ++ [⟨"lab", "Lab", [probedHost]⟩] }

/-- Eight hosts in two environments; seven of them have `web` in the name. -/
def eightHostDoc : Document :=
  { version := 1,
    envs := [
      ⟨"default", "Default",
        [mkHost "h1" "Web1" "10.0.0.1" "default" [], mkHost "h2" "web2" "10.0.0.2" "default" [],
          mkHost "h3" "db1" "10.0.0.3" "default" [], mkHost "h4" "web3" "10.0.0.4" "default" []]⟩,
      ⟨"lab", "Lab",
        [mkHost "h5" "WEB4" "10.0.1.1" "lab" [], mkHost "h6" "web5" "10.0.1.2" "lab" [],
          mkHost "h7" "web6" "10.0.1.3" "lab" [], mkHost "h8" "web7" "10.0.1.4" "lab" []]⟩] }

/-- Two hosts that share the id `a`, as an imported file may contain. -/
def sharedIdDoc : Document :=
  { version := 1,
    envs := [⟨"default", "Default",
      [mkHost "a" "first" "10.0.0.1" "default" [], mkHost "a" "second" "10.0.0.2" "default" []]⟩] }

end IPManager

namespace IPManager

/-! ## Lemmas on the array helpers -/

theorem findIndex_eq_none {α : Type} (p : α → Bool) (l : List α) :
    findIndex p l = none ↔ ∀ x ∈ l, p x = false := by
  induction l with
  | nil => simp [findIndex]
  | cons a l ih =>
    by_cases h : p a = true
    · simp [findIndex, h]
    · simp only [Bool.not_eq_true] at h
      simp [findIndex, h, ih]

theorem findIndex_eq_some {α : Type} (p : α → Bool) (l : List α) (i : Nat)
    (h : findIndex p l = some i) :
    (∃ x, l[i]? = some x ∧ p x = true) ∧ ∀ j, j < i → ∀ y, l[j]? = some y → p y = false := by
  induction l generalizing i with
  | nil => simp [findIndex] at h
  | cons a l ih =>
    by_cases ha : p a = true
    · simp only [findIndex, ha, if_true, Option.some.injEq] at h
      subst h
      exact ⟨⟨a, by simp, ha⟩, fun j hj => absurd hj (Nat.not_lt_zero j)⟩
    · simp only [Bool.not_eq_true] at ha
      simp only [findIndex, ha, Bool.false_eq_true, if_false, Option.map_eq_some'] at h
      obtain ⟨i', hi', rfl⟩ := h
      obtain ⟨⟨x, hx, hpx⟩, hlt⟩ := ih i' hi'
      refine ⟨⟨x, by simpa using hx, hpx⟩, ?_⟩
      intro j hj y hy
      cases j with
      | zero =>
        simp only [List.getElem?_cons_zero, Option.some.injEq] at hy
        subst hy; exact ha
      | succ j =>
        simp only [List.getElem?_cons_succ] at hy
        exact hlt j (by omega) y hy

theorem updateItems_length (f : List HostRecord → List HostRecord) (k : Nat)
    (envs : List Environment) : (updateItems f k envs).length = envs.length := by
  induction envs generalizing k with
  | nil => cases k <;> simp [updateItems]
  | cons e es ih => cases k <;> simp [updateItems, ih]

theorem updateItems_getElem?_self (f : List HostRecord → List HostRecord) (k : Nat)
    (envs : List Environment) :
    (updateItems f k envs)[k]? = envs[k]?.map (fun e => { e with items := f e.items }) := by
  induction envs generalizing k with
  | nil => cases k <;> simp [updateItems]
  | cons e es ih => cases k <;> simp [updateItems, ih]

theorem updateItems_getElem?_ne (f : List HostRecord → List HostRecord) (k j : Nat)
    (envs : List Environment) (h : j ≠ k) : (updateItems f k envs)[j]? = envs[j]? := by
  induction envs generalizing k j with
  | nil => cases k <;> simp [updateItems]
  | cons e es ih =>
    cases k with
    | zero =>
      cases j with
      | zero => exact absurd rfl h
      | succ j => simp [updateItems]
    | succ k =>
      cases j with
      | zero => simp [updateItems]
      | succ j => simpa [updateItems] using ih k j (by omega)

theorem hostCount_updateItems (f : List HostRecord → List HostRecord) (k : Nat)
    (envs : List Environment) (e : Environment) (h : envs[k]? = some e) :
    hostCount (updateItems f k envs) + e.items.length = hostCount envs + (f e.items).length := by
  induction envs generalizing k with
  | nil => simp at h
  | cons a es ih =>
    cases k with
    | zero =>
      simp only [List.getElem?_cons_zero, Option.some.injEq] at h
      subst h
      simp [updateItems, hostCount]; omega
    | succ k =>
      simp only [List.getElem?_cons_succ] at h
      have := ih k h
      simp only [hostCount, updateItems, List.map_cons, List.sum_cons] at this ⊢
      omega

theorem hostIds_count_updateItems (f : List HostRecord → List HostRecord) (k : Nat)
    (envs : List Environment) (e : Environment) (h : envs[k]? = some e) (a : String) :
    (hostIds (updateItems f k envs)).count a + (e.items.map (·.id)).count a
      = (hostIds envs).count a + ((f e.items).map (·.id)).count a := by
  induction envs generalizing k with
  | nil => simp at h
  | cons b es ih =>
    cases k with
    | zero =>
      simp only [List.getElem?_cons_zero, Option.some.injEq] at h
      subst h
      simp [updateItems, hostIds]; omega
    | succ k =>
      simp only [List.getElem?_cons_succ] at h
      have := ih k h
      simp only [hostIds, updateItems, List.flatMap_cons, List.count_append] at this ⊢
      omega

theorem mem_hostIds (envs : List Environment) (a : String) :
    a ∈ hostIds envs ↔ ∃ e ∈ envs, ∃ h ∈ e.items, h.id = a := by
  simp [hostIds]

theorem count_items_le_hostIds (envs : List Environment) (k : Nat) (e : Environment)
    (h : envs[k]? = some e) (a : String) :
    (e.items.map (·.id)).count a ≤ (hostIds envs).count a := by
  induction envs generalizing k with
  | nil => simp at h
  | cons b es ih =>
    cases k with
    | zero =>
      simp only [List.getElem?_cons_zero, Option.some.injEq] at h
      subst h
      simp [hostIds]
    | succ k =>
      simp only [List.getElem?_cons_succ] at h
      have := ih k h
      simp only [hostIds, List.flatMap_cons, List.count_append] at this ⊢
      omega

theorem count_ids_eraseIdx (items : List HostRecord) (i : Nat) (h : HostRecord)
    (hi : items[i]? = some h) (a : String) :
    ((items.eraseIdx i).map (·.id)).count a + (if h.id = a then 1 else 0)
      = (items.map (·.id)).count a := by
  induction items generalizing i with
  | nil => simp at hi
  | cons x xs ih =>
    cases i with
    | zero =>
      simp only [List.getElem?_cons_zero, Option.some.injEq] at hi
      subst hi
      by_cases hxa : x.id = a <;> simp [List.count_cons, hxa]
    | succ i =>
      simp only [List.getElem?_cons_succ] at hi
      have := ih i hi
      simp only [List.eraseIdx_cons_succ, List.map_cons, List.count_cons] at this ⊢
      omega

theorem ids_set_same (items : List HostRecord) (i : Nat) (h x : HostRecord)
    (hi : items[i]? = some h) (hx : x.id = h.id) :
    (items.set i x).map (·.id) = items.map (·.id) := by
  induction items generalizing i with
  | nil => simp
  | cons y ys ih =>
    cases i with
    | zero =>
      simp only [List.getElem?_cons_zero, Option.some.injEq] at hi
      subst hi
      simp [hx]
    | succ i =>
      simp only [List.getElem?_cons_succ] at hi
      simp [ih i hi]

theorem findIndex_of_nodup (items : List HostRecord) (i : Nat) (h : HostRecord)
    (hn : (items.map (·.id)).Nodup) (hi : items[i]? = some h) :
    findIndex (fun x => x.id == h.id) items = some i := by
  induction items generalizing i with
  | nil => simp at hi
  | cons y ys ih =>
    cases i with
    | zero =>
      simp only [List.getElem?_cons_zero, Option.some.injEq] at hi
      subst hi
      simp [findIndex]
    | succ i =>
      simp only [List.getElem?_cons_succ] at hi
      simp only [List.map_cons, List.nodup_cons] at hn
      have hmem : h.id ∈ ys.map (·.id) := List.mem_map_of_mem _ (List.getElem?_mem hi)
      have hne : y.id ≠ h.id := fun he => hn.1 (he ▸ hmem)
      simp [findIndex, hne, ih i hn.2 hi]

theorem findHost_eq_none (itemId : String) (envs : List Environment) :
    findHost itemId envs = none ↔ itemId ∉ hostIds envs := by
  induction envs with
  | nil => simp [findHost, hostIds]
  | cons e es ih =>
    cases hfi : findIndex (fun item => item.id == itemId) e.items with
    | none =>
      have hnone := (findIndex_eq_none _ _).1 hfi
      have hnot : itemId ∉ e.items.map (·.id) := by
        intro hm
        obtain ⟨x, hx, hxid⟩ := List.mem_map.1 hm
        have := hnone x hx
        simp [hxid] at this
      simp only [findHost, hfi, Option.map_eq_none', ih]
      simp only [hostIds, List.flatMap_cons, List.mem_append, not_or] at hnot ⊢
      exact ⟨fun h => ⟨hnot, h⟩, fun h => h.2⟩
    | some i =>
      obtain ⟨⟨x, hx, hpx⟩, -⟩ := findIndex_eq_some _ _ _ hfi
      simp only [beq_iff_eq] at hpx
      have hmem : itemId ∈ e.items.map (·.id) :=
        hpx ▸ List.mem_map_of_mem _ (List.getElem?_mem hx)
      simp [findHost, hfi, hostIds, hmem]

theorem findHost_eq_some (itemId : String) (envs : List Environment) (s i : Nat)
    (h : findHost itemId envs = some (s, i)) :
    ∃ S x, envs[s]? = some S ∧ S.items[i]? = some x ∧ x.id = itemId ∧
      (∀ j, j < i → ∀ y, S.items[j]? = some y → y.id ≠ itemId) ∧
      (∀ k, k < s → ∀ e, envs[k]? = some e → ∀ y ∈ e.items, y.id ≠ itemId) := by
  induction envs generalizing s with
  | nil => simp [findHost] at h
  | cons e es ih =>
    cases hfi : findIndex (fun item => item.id == itemId) e.items with
    | some i' =>
      simp only [findHost, hfi, Option.some.injEq, Prod.mk.injEq] at h
      obtain ⟨rfl, rfl⟩ := h
      obtain ⟨⟨x, hx, hpx⟩, hlt⟩ := findIndex_eq_some _ _ _ hfi
      simp only [beq_iff_eq] at hpx
      refine ⟨e, x, by simp, hx, hpx, ?_, fun k hk => absurd hk (Nat.not_lt_zero k)⟩
      intro j hj y hy
      simpa using hlt j hj y hy
    | none =>
      simp only [findHost, hfi, Option.map_eq_some', Prod.mk.injEq, Prod.exists] at h
      obtain ⟨s', i', hrec, rfl, rfl⟩ := h
      obtain ⟨S, x, hS, hx, hxid, hj, hk⟩ := ih s' hrec
      refine ⟨S, x, by simpa using hS, hx, hxid, hj, ?_⟩
      intro k hklt e' he' y hy
      cases k with
      | zero =>
        simp only [List.getElem?_cons_zero, Option.some.injEq] at he'
        subst he'
        have := (findIndex_eq_none _ _).1 hfi y hy
        simpa using this
      | succ k =>
        simp only [List.getElem?_cons_succ] at he'
        exact hk k (by omega) e' he' y hy

theorem findHost_of_nodup (envs : List Environment) (s i : Nat) (S : Environment)
    (h : HostRecord) (hn : (hostIds envs).Nodup) (hS : envs[s]? = some S)
    (hh : S.items[i]? = some h) : findHost h.id envs = some (s, i) := by
  induction envs generalizing s with
  | nil => simp at hS
  | cons e es ih =>
    simp only [hostIds, List.flatMap_cons, List.nodup_append] at hn
    obtain ⟨hn1, hn2, hdis⟩ := hn
    cases s with
    | zero =>
      simp only [List.getElem?_cons_zero, Option.some.injEq] at hS
      subst hS
      simp [findHost, findIndex_of_nodup _ _ _ hn1 hh]
    | succ s =>
      simp only [List.getElem?_cons_succ] at hS
      have hmem : h.id ∈ hostIds es :=
        (mem_hostIds es h.id).2 ⟨S, List.getElem?_mem hS, h, List.getElem?_mem hh, rfl⟩
      have hnot : h.id ∉ e.items.map (·.id) := fun hm => hdis hm hmem
      have hfi : findIndex (fun item => item.id == h.id) e.items = none := by
        rw [findIndex_eq_none]
        intro x hx
        simp only [beq_eq_false_iff_ne, ne_eq]
        intro hxe
        exact hnot (hxe ▸ List.mem_map_of_mem _ hx)
      simp [findHost, hfi, ih s hn2 hS]

theorem deleteLoop_eq (itemId : String) (envs : List Environment) :
    deleteLoop itemId envs =
      match findHost itemId envs with
      | some (s, i) => updateItems (fun items => items.eraseIdx i) s envs
      | none => envs := by
  induction envs with
  | nil => simp [deleteLoop, findHost]
  | cons e es ih =>
    cases hfi : findIndex (fun item => item.id == itemId) e.items with
    | some i => simp [deleteLoop, findHost, hfi, updateItems]
    | none =>
      simp only [deleteLoop, findHost, hfi, ih]
      cases hrec : findHost itemId es with
      | none => simp
      | some p => simp [updateItems]

theorem targetEnvIndex_spec (envs : List Environment) (environment : String)
    (hne : envs ≠ []) :
    ∃ t target, targetEnvIndex envs environment = some t ∧ envs[t]? = some target ∧
      ((∃ e ∈ envs, e.id = environment) →
        target.id = environment ∧
          ∀ k, k < t → ∀ e, envs[k]? = some e → e.id ≠ environment) ∧
      ((∀ e ∈ envs, e.id ≠ environment) → t = 0) := by
  unfold targetEnvIndex
  cases hfi : findIndex (fun e => e.id == environment) envs with
  | none =>
    rw [findIndex_eq_none] at hfi
    cases envs with
    | nil => exact absurd rfl hne
    | cons a es =>
      refine ⟨0, a, by simp, by simp, ?_, fun _ => rfl⟩
      rintro ⟨e, he, hid⟩
      have := hfi e he
      simp [hid] at this
  | some j =>
    obtain ⟨⟨x, hx, hpx⟩, hlt⟩ := findIndex_eq_some _ _ _ hfi
    simp only [beq_iff_eq] at hpx
    refine ⟨j, x, rfl, hx, ?_, ?_⟩
    · intro _
      refine ⟨hpx, ?_⟩
      intro k hk e he
      have := hlt k hk e he
      simpa using this
    · intro hall
      exact absurd hpx (hall x (List.getElem?_mem hx))

theorem saveHost_add_eq (data : Document) (itemId : String) (f : HostForm)
    (now : Nat) (randomText : String) (t : Nat)
    (hname : trim f.hostName ≠ "") (hip : trim f.hostIP ≠ "")
    (ht : targetEnvIndex data.envs f.hostEnvironment = some t) :
    saveHost data "add" itemId f now randomText =
      ⟨.completed, ⟨data.version,
        updateItems (fun items => items ++ [hostData f (generateId now randomText)]) t
          data.envs⟩⟩ := by
  simp [saveHost, hname, hip, ht]

theorem saveHost_edit_missing (data : Document) (mode itemId : String) (f : HostForm)
    (now : Nat) (randomText : String) (hmode : mode ≠ "add")
    (hname : trim f.hostName ≠ "") (hip : trim f.hostIP ≠ "")
    (hfind : findHost itemId data.envs = none) :
    saveHost data mode itemId f now randomText = ⟨.completed, data⟩ := by
  simp [saveHost, hname, hip, hmode, hfind]

theorem saveHost_edit_move (data : Document) (mode itemId : String) (f : HostForm)
    (now : Nat) (randomText : String) (s i t : Nat) (S T : Environment)
    (hmode : mode ≠ "add")
    (hname : trim f.hostName ≠ "") (hip : trim f.hostIP ≠ "")
    (hfind : findHost itemId data.envs = some (s, i))
    (hS : data.envs[s]? = some S)
    (ht : targetEnvIndex data.envs f.hostEnvironment = some t)
    (hT : data.envs[t]? = some T) (hne : S.id ≠ T.id) :
    saveHost data mode itemId f now randomText =
      ⟨.completed, ⟨data.version,
        updateItems (fun items => items ++ [hostData f itemId]) t
          (updateItems (fun items => items.eraseIdx i) s data.envs)⟩⟩ := by
  simp [saveHost, hname, hip, hmode, hfind, hS, ht, hT, hne]

theorem saveHost_edit_replace (data : Document) (mode itemId : String) (f : HostForm)
    (now : Nat) (randomText : String) (s i t : Nat) (S T : Environment)
    (hmode : mode ≠ "add")
    (hname : trim f.hostName ≠ "") (hip : trim f.hostIP ≠ "")
    (hfind : findHost itemId data.envs = some (s, i))
    (hS : data.envs[s]? = some S)
    (ht : targetEnvIndex data.envs f.hostEnvironment = some t)
    (hT : data.envs[t]? = some T) (heq : S.id = T.id) :
    saveHost data mode itemId f now randomText =
      ⟨.completed, ⟨data.version,
        updateItems (fun items => items.set i (hostData f itemId)) s data.envs⟩⟩ := by
  simp [saveHost, hname, hip, hmode, hfind, hS, ht, hT, heq]

/-- C1. In a document with at least one environment, `saveHost` in mode `add` with a name
and an ip that are non-empty after trimming runs to its end and appends exactly one
host, the record built from the form with the generated id, at the end of the `items`
of the target environment: the first environment whose id is the form's environment
value, or the first environment of the document when no environment has that id.
Nothing else changes: the version, the number of environments, every other
environment, and the earlier hosts of the target (kept in order before the new one). -/
theorem saveHost_add_appends_one (data : Document) (itemId : String) (f : HostForm)
    (now : Nat) (randomText : String)
    (henv : data.envs ≠ [])
    (hname : trim f.hostName ≠ "") (hip : trim f.hostIP ≠ "") :
    ∃ t target, data.envs[t]? = some target ∧
      ((∃ e ∈ data.envs, e.id = f.hostEnvironment) →
        target.id = f.hostEnvironment ∧
          ∀ k, k < t → ∀ e, data.envs[k]? = some e → e.id ≠ f.hostEnvironment) ∧
      ((∀ e ∈ data.envs, e.id ≠ f.hostEnvironment) → t = 0) ∧
      (saveHost data "add" itemId f now randomText).outcome = .completed ∧
      (saveHost data "add" itemId f now randomText).data.version = data.version ∧
      (saveHost data "add" itemId f now randomText).data.envs.length = data.envs.length ∧
      (saveHost data "add" itemId f now randomText).data.envs[t]? =
        some { target with
          items := target.items ++ [hostData f (generateId now randomText)] } ∧
      (∀ k, k ≠ t →
        (saveHost data "add" itemId f now randomText).data.envs[k]? = data.envs[k]?) ∧
      hostCount (saveHost data "add" itemId f now randomText).data.envs
        = hostCount data.envs + 1 := by
  obtain ⟨t, target, ht, htarget, hfound, hfallback⟩ :=
    targetEnvIndex_spec data.envs f.hostEnvironment henv
  have hsave := saveHost_add_eq data itemId f now randomText t hname hip ht
  refine ⟨t, target, htarget, hfound, hfallback, ?_⟩
  rw [hsave]
  refine ⟨rfl, rfl, updateItems_length _ _ _, ?_, ?_, ?_⟩
  · simp [updateItems_getElem?_self, htarget]
  · intro k hk
    exact updateItems_getElem?_ne _ _ _ _ hk
  · have := hostCount_updateItems
      (fun items => items ++ [hostData f (generateId now randomText)]) t data.envs target htarget
    simp only [List.length_append, List.length_singleton] at this
    simp only
    omega

/-- C2. When the name or the ip of the form is empty after trimming (white space only
included), `saveHost` stops at the validation alert and `this.data` is the document it
started from, whatever the mode: no host is added, replaced or removed. -/
theorem saveHost_blank_rejected (data : Document) (mode itemId : String) (f : HostForm)
    (now : Nat) (randomText : String)
    (h : trim f.hostName = "" ∨ trim f.hostIP = "") :
    (saveHost data mode itemId f now randomText).outcome = .validationAlert ∧
      (saveHost data mode itemId f now randomText).data = data := by
  simp [saveHost, h]

/-- Witness of C1: the sample form added to the document of two empty environments. -/
theorem saveHost_add_appends_one_witness :
    emptyDoc.envs ≠ [] ∧ trim sampleForm.hostName ≠ "" ∧ trim sampleForm.hostIP ≠ "" ∧
      hostCount (saveHost emptyDoc "add" "" sampleForm 1700000000000 "0.4fzyo82mvyr").data.envs
        = hostCount emptyDoc.envs + 1 := by
  refine ⟨by decide, by decide, by decide, ?_⟩
  obtain ⟨_, _, _, _, _, _, _, _, _, _, h⟩ :=
    saveHost_add_appends_one emptyDoc "" sampleForm 1700000000000 "0.4fzyo82mvyr"
      (by decide) (by decide) (by decide)
  exact h

/-- Witness of C2: a name of white space only. -/
theorem saveHost_blank_rejected_witness :
    (trim blankNameForm.hostName = "" ∨ trim blankNameForm.hostIP = "") ∧
      (saveHost twoEnvDoc "add" "" blankNameForm 1700000000000 "0.4fzyo82mvyr").outcome
        = .validationAlert ∧
      (saveHost twoEnvDoc "add" "" blankNameForm 1700000000000 "0.4fzyo82mvyr").data
        = twoEnvDoc :=
  ⟨by decide,
    saveHost_blank_rejected twoEnvDoc "add" "" blankNameForm 1700000000000 "0.4fzyo82mvyr"
      (by decide)⟩

/-- C3, counterexample. The document holds a host whose id is the text that `generateId`
builds from the clock value 1700000000000 and the random text `0.4fzyo82mvyr`; adding the
sample form with these two values completes, and the new host has the id of the host that
was already there: the ids of the document, distinct before, are no longer distinct. -/
theorem saveHost_add_id_collides :
    trim sampleForm.hostName ≠ "" ∧ trim sampleForm.hostIP ≠ "" ∧
      (hostIds collisionDoc.envs).Nodup ∧
      (saveHost collisionDoc "add" "" sampleForm 1700000000000 "0.4fzyo82mvyr").outcome
        = .completed ∧
      hostIds (saveHost collisionDoc "add" "" sampleForm 1700000000000 "0.4fzyo82mvyr").data.envs
        = ["loyw3v284fzyo82mvyr", generateId 1700000000000 "0.4fzyo82mvyr"] ∧
      generateId 1700000000000 "0.4fzyo82mvyr" = "loyw3v284fzyo82mvyr" := by
  decide

/-- C3, amended. `saveHost` in mode `add` with a valid form gives the new host the id
`generateId now randomText` and compares it with nothing.  If that text is not yet the id
of a host of the document, the new id differs from the id of every host already there:
it then occurs exactly once in the resulting document, and ids that were pairwise
distinct stay so. -/
theorem saveHost_add_id_new_if_unused (data : Document) (itemId : String) (f : HostForm)
    (now : Nat) (randomText : String)
    (henv : data.envs ≠ [])
    (hname : trim f.hostName ≠ "") (hip : trim f.hostIP ≠ "")
    (hunused : generateId now randomText ∉ hostIds data.envs) :
    (∃ (t : Nat) (target : Environment), data.envs[t]? = some target ∧
      (saveHost data "add" itemId f now randomText).data.envs[t]? =
        some { target with
          items := target.items ++ [hostData f (generateId now randomText)] }) ∧
      (hostData f (generateId now randomText)).id = generateId now randomText ∧
      (∀ e ∈ data.envs, ∀ h ∈ e.items, h.id ≠ (hostData f (generateId now randomText)).id) ∧
      (hostIds (saveHost data "add" itemId f now randomText).data.envs).count
        (generateId now randomText) = 1 ∧
      ((hostIds data.envs).Nodup →
        (hostIds (saveHost data "add" itemId f now randomText).data.envs).Nodup) := by
  obtain ⟨t, target, ht, htarget, -, -⟩ :=
    targetEnvIndex_spec data.envs f.hostEnvironment henv
  have hsave := saveHost_add_eq data itemId f now randomText t hname hip ht
  have hcount := fun a => hostIds_count_updateItems
    (fun items => items ++ [hostData f (generateId now randomText)]) t data.envs target
    htarget a
  simp only [List.map_append, List.map_cons, List.map_nil, List.count_append] at hcount
  rw [hsave]
  refine ⟨⟨t, target, htarget, by simp [updateItems_getElem?_self, htarget]⟩, rfl, ?_, ?_, ?_⟩
  · intro e he h hh heq
    exact hunused ((mem_hostIds _ _).2 ⟨e, he, h, hh, heq⟩)
  · have h0 : (hostIds data.envs).count (generateId now randomText) = 0 :=
      List.count_eq_zero_of_not_mem hunused
    have := hcount (generateId now randomText)
    have h3 : List.count (generateId now randomText)
        [(hostData f (generateId now randomText)).id] = 1 := by simp [hostData]
    simp only
    omega
  · intro hn
    rw [List.nodup_iff_count_le_one] at hn ⊢
    intro a
    have h1 := hcount a
    have h2 := hn a
    by_cases ha : a = generateId now randomText
    · subst ha
      have h0 : (hostIds data.envs).count (generateId now randomText) = 0 :=
        List.count_eq_zero_of_not_mem hunused
      have h3 : List.count (generateId now randomText)
          [(hostData f (generateId now randomText)).id] = 1 := by simp [hostData]
      simp only
      omega
    · have h3 : List.count a [(hostData f (generateId now randomText)).id] = 0 := by
        simp [hostData, List.count_singleton, Ne.symm ha]
      simp only
      omega

/-- Witness of C3 (amended): the document holds the hosts `a` and `b`, and the generated
id `loyw3v284fzyo82mvyr` is the id of neither.  After the add the new host is in `lab`
behind host `b`, its id differs from the id of each of the two hosts, it occurs once, and
the three ids `a`, `b` and the new one are pairwise distinct. -/
theorem saveHost_add_id_new_if_unused_witness :
    twoEnvDoc.envs ≠ [] ∧ trim sampleForm.hostName ≠ "" ∧ trim sampleForm.hostIP ≠ "" ∧
      hostIds twoEnvDoc.envs = ["a", "b"] ∧
      generateId 1700000000000 "0.4fzyo82mvyr" = "loyw3v284fzyo82mvyr" ∧
      generateId 1700000000000 "0.4fzyo82mvyr" ∉ hostIds twoEnvDoc.envs ∧
      (∀ e ∈ twoEnvDoc.envs, ∀ h ∈ e.items,
        h.id ≠ (hostData sampleForm (generateId 1700000000000 "0.4fzyo82mvyr")).id) ∧
      (hostIds (saveHost twoEnvDoc "add" "" sampleForm 1700000000000
        "0.4fzyo82mvyr").data.envs).count (generateId 1700000000000 "0.4fzyo82mvyr") = 1 ∧
      (hostIds (saveHost twoEnvDoc "add" "" sampleForm 1700000000000
        "0.4fzyo82mvyr").data.envs).Nodup ∧
      hostIds (saveHost twoEnvDoc "add" "" sampleForm 1700000000000 "0.4fzyo82mvyr").data.envs
        = ["a", "b", "loyw3v284fzyo82mvyr"] :=
  ⟨by decide, by decide, by decide, by decide, by decide, by decide,
    (saveHost_add_id_new_if_unused twoEnvDoc "" sampleForm 1700000000000 "0.4fzyo82mvyr"
      (by decide) (by decide) (by decide) (by decide)).2.2.1,
    (saveHost_add_id_new_if_unused twoEnvDoc "" sampleForm 1700000000000 "0.4fzyo82mvyr"
      (by decide) (by decide) (by decide) (by decide)).2.2.2.1,
    (saveHost_add_id_new_if_unused twoEnvDoc "" sampleForm 1700000000000 "0.4fzyo82mvyr"
      (by decide) (by decide) (by decide) (by decide)).2.2.2.2 (by decide),
    by decide⟩

/-- C4, counterexample. (1) Host `a` is in `default`, ids are pairwise distinct, and the
form's environment value resolves to `lab`, another environment; but the form's name is
empty, so `saveHost` in mode `edit` stops at the validation alert: host `a` is still in
the list of `default` and no host with that id is in the list of `lab`.
(2) Two environments share the id `dup` and host `a` is in the second; the valid form's
environment value `dup` resolves to the first, another environment, but the code
compares the two ids, finds them equal and replaces in place: host `a` stays in the
second list and the first list stays empty. -/
theorem saveHost_edit_not_moved :
    ((hostIds twoEnvDoc.envs).Nodup ∧
      twoEnvDoc.envs.map (fun e => e.items.map (·.id)) = [["a"], ["b"]] ∧
      targetEnvIndex twoEnvDoc.envs emptyNameForm.hostEnvironment = some 1 ∧
      twoEnvDoc.envs.map (·.id) = ["default", "lab"] ∧
      (saveHost twoEnvDoc "edit" "a" emptyNameForm 1700000000000 "0.4fzyo82mvyr").outcome
        = .validationAlert ∧
      (saveHost twoEnvDoc "edit" "a" emptyNameForm 1700000000000
        "0.4fzyo82mvyr").data.envs.map (fun e => e.items.map (·.id)) = [["a"], ["b"]]) ∧
    ((hostIds twinEnvDoc.envs).Nodup ∧
      twinEnvDoc.envs.map (fun e => e.items.map (·.id)) = [[], ["a"]] ∧
      targetEnvIndex twinEnvDoc.envs dupForm.hostEnvironment = some 0 ∧
      trim dupForm.hostName ≠ "" ∧ trim dupForm.hostIP ≠ "" ∧
      (saveHost twinEnvDoc "edit" "a" dupForm 1700000000000 "0.4fzyo82mvyr").outcome
        = .completed ∧
      (saveHost twinEnvDoc "edit" "a" dupForm 1700000000000
        "0.4fzyo82mvyr").data.envs.map (fun e => e.items.map (·.id)) = [[], ["a"]]) := by
  decide

/-- C4, amended. In a document whose host ids are pairwise distinct, let host `h` be at
index `i` of environment `S` and let the form, with name and ip non-empty after trimming,
resolve to an environment `T` whose id differs from that of `S`.  Then `saveHost` in a
mode other than `add` with `h`'s id runs to its end; the list of `S` is the old one
without index `i` and holds no host with `h`'s id; the list of `T` is the old one with
the new record, carrying `h`'s id, appended at its end, and holds that id exactly once;
and the id occurs exactly once in the whole document. -/
theorem saveHost_edit_moves_host (data : Document) (mode : String) (f : HostForm)
    (now : Nat) (randomText : String) (s i t : Nat) (S T : Environment) (h : HostRecord)
    (hmode : mode ≠ "add")
    (hname : trim f.hostName ≠ "") (hip : trim f.hostIP ≠ "")
    (hdistinct : (hostIds data.envs).Nodup)
    (hS : data.envs[s]? = some S) (hh : S.items[i]? = some h)
    (ht : targetEnvIndex data.envs f.hostEnvironment = some t)
    (hT : data.envs[t]? = some T) (hne : T.id ≠ S.id) :
    (saveHost data mode h.id f now randomText).outcome = .completed ∧
      (saveHost data mode h.id f now randomText).data.envs[s]? =
        some { S with items := S.items.eraseIdx i } ∧
      (∀ x ∈ S.items.eraseIdx i, x.id ≠ h.id) ∧
      (saveHost data mode h.id f now randomText).data.envs[t]? =
        some { T with items := T.items ++ [hostData f h.id] } ∧
      (hostData f h.id).id = h.id ∧
      ((T.items ++ [hostData f h.id]).map (·.id)).count h.id = 1 ∧
      (hostIds (saveHost data mode h.id f now randomText).data.envs).count h.id = 1 := by
  have hfind := findHost_of_nodup data.envs s i S h hdistinct hS hh
  have hst : s ≠ t := by
    rintro rfl
    rw [hS] at hT
    exact hne (by injection hT with hT; rw [hT])
  have hsave := saveHost_edit_move data mode h.id f now randomText s i t S T hmode hname hip
    hfind hS ht hT (Ne.symm hne)
  have hmem : h.id ∈ hostIds data.envs :=
    (mem_hostIds _ _).2 ⟨S, List.getElem?_mem hS, h, List.getElem?_mem hh, rfl⟩
  have hone : (hostIds data.envs).count h.id = 1 := List.count_eq_one_of_mem hdistinct hmem
  have hSle := count_items_le_hostIds data.envs s S hS h.id
  have herase := count_ids_eraseIdx S.items i h hh h.id
  simp only [if_true] at herase
  have hsplice := hostIds_count_updateItems (fun items => items.eraseIdx i) s data.envs S hS h.id
  have hT' : (updateItems (fun items => items.eraseIdx i) s data.envs)[t]? = some T := by
    rw [updateItems_getElem?_ne _ _ _ _ (Ne.symm hst)]; exact hT
  have hTle := count_items_le_hostIds _ t T hT' h.id
  have hpush := hostIds_count_updateItems (fun items => items ++ [hostData f h.id]) t
    (updateItems (fun items => items.eraseIdx i) s data.envs) T hT' h.id
  have hnew : List.count h.id [(hostData f h.id).id] = 1 := by simp [hostData]
  simp only [List.map_append, List.map_cons, List.map_nil, List.count_append] at hpush ⊢
  rw [hsave]
  refine ⟨rfl, ?_, ?_, ?_, rfl, ?_, ?_⟩
  · simp only
    rw [updateItems_getElem?_ne _ _ _ _ hst, updateItems_getElem?_self, hS]
    rfl
  · intro x hx hxid
    have : 0 < ((S.items.eraseIdx i).map (·.id)).count h.id :=
      List.count_pos_iff.2 (hxid ▸ List.mem_map_of_mem _ hx)
    omega
  · simp only
    rw [updateItems_getElem?_self, hT']
    rfl
  · omega
  · simp only
    omega

/-- Witness of C4 (amended): host `a` of `default` moved to `lab` by the sample form. -/
theorem saveHost_edit_moves_host_witness :
    (hostIds (saveHost twoEnvDoc "edit" (mkHost "a" "alpha" "10.0.0.1" "default" []).id
      sampleForm 1700000000000 "0.4fzyo82mvyr").data.envs).count
        (mkHost "a" "alpha" "10.0.0.1" "default" []).id = 1 :=
  (saveHost_edit_moves_host twoEnvDoc "edit" sampleForm 1700000000000 "0.4fzyo82mvyr" 0 0 1
    ⟨"default", "Default", [mkHost "a" "alpha" "10.0.0.1" "default" []]⟩
    ⟨"lab", "Lab", [mkHost "b" "beta" "10.0.0.2" "lab" []]⟩
    (mkHost "a" "alpha" "10.0.0.1" "default" [])
    (by decide) (by decide) (by decide) (by decide) (by decide) (by decide) (by decide)
    (by decide) (by decide)).2.2.2.2.2.2

/-- C5, counterexample. No host of the document has the id `nope`, yet `saveHost` in mode
`edit` with that id and the valid sample form signals nothing: it runs to its end, where
the data is saved and the dialog closed, with the document as it was. -/
theorem saveHost_edit_unknown_id_completes :
    "nope" ∉ hostIds twoEnvDoc.envs ∧
      saveHost twoEnvDoc "edit" "nope" sampleForm 1700000000000 "0.4fzyo82mvyr"
        = ⟨.completed, twoEnvDoc⟩ := by
  decide

/-- C5, amended. When the id matches no host in any environment, `saveHost` in a mode
other than `add` leaves the document unchanged and raises no not-found error: with a name
and an ip that are non-empty after trimming it runs to its end as a silent no-op, and
otherwise it stops at the validation alert. -/
theorem saveHost_edit_unknown_id_noop (data : Document) (mode itemId : String)
    (f : HostForm) (now : Nat) (randomText : String)
    (hmode : mode ≠ "add") (hmiss : itemId ∉ hostIds data.envs) :
    (saveHost data mode itemId f now randomText).data = data ∧
      (saveHost data mode itemId f now randomText).outcome =
        (if trim f.hostName = "" ∨ trim f.hostIP = "" then SaveOutcome.validationAlert
          else SaveOutcome.completed) := by
  by_cases hv : trim f.hostName = "" ∨ trim f.hostIP = ""
  · simp [saveHost, hv]
  · have hv' := hv
    simp only [not_or] at hv'
    rw [saveHost_edit_missing data mode itemId f now randomText hmode hv'.1 hv'.2
      ((findHost_eq_none _ _).2 hmiss)]
    simp [hv]

/-- Witness of C5 (amended): the id `nope` in the two-environment document. -/
theorem saveHost_edit_unknown_id_noop_witness :
    "edit" ≠ "add" ∧ "nope" ∉ hostIds twoEnvDoc.envs ∧
      (saveHost twoEnvDoc "edit" "nope" sampleForm 1700000000000 "0.4fzyo82mvyr").data
        = twoEnvDoc :=
  ⟨by decide, by decide,
    (saveHost_edit_unknown_id_noop twoEnvDoc "edit" "nope" sampleForm 1700000000000
      "0.4fzyo82mvyr" (by decide) (by decide)).1⟩

/-- C6, counterexample. (1) Host `a` is in `default` and the form resolves to `default`,
but its ip is white space only: `saveHost` in mode `edit` stops at the validation alert
and the record at `a`'s index is the old one (name `alpha`), not the form's fields.
(2) With two hosts that share the id `a`, editing the second one (name `second`,
index 1) by its id replaces the record at index 0, the first host with that id: another
host changes and the edited host keeps its old fields. -/
theorem saveHost_edit_not_in_place :
    (targetEnvIndex twoEnvDoc.envs blankIpForm.hostEnvironment = some 0 ∧
      twoEnvDoc.envs.map (fun e => e.items.map (·.id)) = [["a"], ["b"]] ∧
      (saveHost twoEnvDoc "edit" "a" blankIpForm 1700000000000 "0.4fzyo82mvyr").outcome
        = .validationAlert ∧
      (saveHost twoEnvDoc "edit" "a" blankIpForm 1700000000000
          "0.4fzyo82mvyr").data.envs.map (fun e => e.items.map (·.name))
        = [["alpha"], ["beta"]]) ∧
    (targetEnvIndex sharedIdDoc.envs renameForm.hostEnvironment = some 0 ∧
      sharedIdDoc.envs.map (fun e => e.items.map (fun x => (x.id, x.name)))
        = [[("a", "first"), ("a", "second")]] ∧
      (saveHost sharedIdDoc "edit" "a" renameForm 1700000000000
          "0.4fzyo82mvyr").data.envs.map (fun e => e.items.map (fun x => (x.id, x.name)))
        = [[("a", "renamed"), ("a", "second")]]) := by
  decide

/-- C6, amended. Let the id occur in the document and let `h`, at index `i` of
environment `S`, be the first host with that id in environment order and then list order
(the one the lookup finds; the only one when ids are distinct).  When the form has a name
and an ip that are non-empty after trimming and resolves to `S` itself, `saveHost` in a
mode other than `add` runs to its end and replaces the record at index `i` of `S` by the
record built from the form, carrying `h`'s id: the list keeps its length, every other
index of the list keeps its host, and every other environment is unchanged. -/
theorem saveHost_edit_replaces_in_place (data : Document) (mode itemId : String)
    (f : HostForm) (now : Nat) (randomText : String) (s i : Nat) (S : Environment)
    (h : HostRecord)
    (hmode : mode ≠ "add")
    (hname : trim f.hostName ≠ "") (hip : trim f.hostIP ≠ "")
    (hfind : findHost itemId data.envs = some (s, i))
    (hS : data.envs[s]? = some S) (hh : S.items[i]? = some h)
    (ht : targetEnvIndex data.envs f.hostEnvironment = some s) :
    (saveHost data mode itemId f now randomText).outcome = .completed ∧
      (saveHost data mode itemId f now randomText).data.version = data.version ∧
      (saveHost data mode itemId f now randomText).data.envs.length = data.envs.length ∧
      (saveHost data mode itemId f now randomText).data.envs[s]? =
        some { S with items := S.items.set i (hostData f itemId) } ∧
      (hostData f itemId).id = h.id ∧
      (S.items.set i (hostData f itemId)).length = S.items.length ∧
      (S.items.set i (hostData f itemId))[i]? = some (hostData f itemId) ∧
      (∀ j, j ≠ i → (S.items.set i (hostData f itemId))[j]? = S.items[j]?) ∧
      (∀ k, k ≠ s →
        (saveHost data mode itemId f now randomText).data.envs[k]? = data.envs[k]?) := by
  obtain ⟨S', x, hS', hx, hxid, -, -⟩ := findHost_eq_some itemId data.envs s i hfind
  have hSS : S' = S := by rw [hS] at hS'; injection hS' with h1; exact h1.symm
  subst hSS
  have hxh : x = h := by rw [hh] at hx; injection hx with h1; exact h1.symm
  subst hxh
  have hsave := saveHost_edit_replace data mode itemId f now randomText s i s S' S' hmode
    hname hip hfind hS ht hS rfl
  have hi : i < S'.items.length := by
    rcases List.getElem?_eq_some_iff.1 hh with ⟨hlt, -⟩
    exact hlt
  rw [hsave]
  refine ⟨rfl, rfl, updateItems_length _ _ _, ?_, ?_, by simp, ?_, ?_, ?_⟩
  · simp only
    rw [updateItems_getElem?_self, hS]
    rfl
  · simp [hostData, hxid]
  · simp [List.getElem?_set, hi]
  · intro j hj
    simp [List.getElem?_set, Ne.symm hj]
  · intro k hk
    exact updateItems_getElem?_ne _ _ _ _ hk

/-- Witness of C6 (amended): host `a` of `default` renamed in place. -/
theorem saveHost_edit_replaces_in_place_witness :
    findHost "a" twoEnvDoc.envs = some (0, 0) ∧
      targetEnvIndex twoEnvDoc.envs renameForm.hostEnvironment = some 0 ∧
      (saveHost twoEnvDoc "edit" "a" renameForm 1700000000000 "0.4fzyo82mvyr").data.envs[0]? =
        some { id := "default", name := "Default",
               items := [mkHost "a" "alpha" "10.0.0.1" "default" []].set 0
                 (hostData renameForm "a") } :=
  ⟨by decide, by decide,
    (saveHost_edit_replaces_in_place twoEnvDoc "edit" "a" renameForm 1700000000000
      "0.4fzyo82mvyr" 0 0 ⟨"default", "Default", [mkHost "a" "alpha" "10.0.0.1" "default" []]⟩
      (mkHost "a" "alpha" "10.0.0.1" "default" [])
      (by decide) (by decide) (by decide) (by decide) (by decide) (by decide)
      (by decide)).2.2.2.1⟩

/-! ## `deleteHost` -/

theorem deleteLoop_of_not_mem (itemId : String) (envs : List Environment)
    (h : itemId ∉ hostIds envs) : deleteLoop itemId envs = envs := by
  rw [deleteLoop_eq, (findHost_eq_none _ _).2 h]

theorem deleteLoop_count (itemId : String) (envs : List Environment) (a : String) :
    (hostIds (deleteLoop itemId envs)).count a
        + (if a = itemId ∧ itemId ∈ hostIds envs then 1 else 0)
      = (hostIds envs).count a := by
  rw [deleteLoop_eq]
  cases hf : findHost itemId envs with
  | none =>
    have := (findHost_eq_none _ _).1 hf
    simp [this]
  | some p =>
    obtain ⟨s, i⟩ := p
    obtain ⟨S, x, hS, hx, hxid, -, -⟩ := findHost_eq_some itemId envs s i hf
    have hmem : itemId ∈ hostIds envs :=
      (mem_hostIds _ _).2 ⟨S, List.getElem?_mem hS, x, List.getElem?_mem hx, hxid⟩
    have h1 := hostIds_count_updateItems (fun items => items.eraseIdx i) s envs S hS a
    have h2 := count_ids_eraseIdx S.items i x hx a
    simp only [hmem, and_true]
    by_cases ha : a = itemId
    · have hxa : x.id = a := by rw [hxid, ha]
      simp only [hxa, if_true] at h2
      simp only [ha, if_true] at h1 h2 ⊢
      omega
    · have hxa : ¬ x.id = a := fun h => ha (by rw [← h, hxid])
      simp only [hxa, if_false] at h2
      simp only [ha, if_false]
      omega

/-- C7. A confirmed `deleteHost` on an id that occurs in the document removes exactly one
host: the first with that id in environment order and then list order.  No earlier
environment and no earlier index of its list holds the id; its list becomes the old one
without that index (the hosts before and after it, in order); every other environment,
the number of environments and the version are unchanged; and the number of hosts drops
by one.  On an id that occurs nowhere the document is unchanged. -/
theorem deleteHost_removes_first_match (data : Document) (item : HostRecord) :
    (item.id ∈ hostIds data.envs →
      ∃ (s i : Nat) (S : Environment) (h : HostRecord),
        data.envs[s]? = some S ∧ S.items[i]? = some h ∧ h.id = item.id ∧
        (∀ k, k < s → ∀ e, data.envs[k]? = some e → ∀ y ∈ e.items, y.id ≠ item.id) ∧
        (∀ j, j < i → ∀ y, S.items[j]? = some y → y.id ≠ item.id) ∧
        (deleteHost data true item).version = data.version ∧
        (deleteHost data true item).envs.length = data.envs.length ∧
        (deleteHost data true item).envs[s]? = some { S with items := S.items.eraseIdx i } ∧
        S.items.eraseIdx i = S.items.take i ++ S.items.drop (i + 1) ∧
        (∀ k, k ≠ s → (deleteHost data true item).envs[k]? = data.envs[k]?) ∧
        hostCount (deleteHost data true item).envs + 1 = hostCount data.envs) ∧
    (item.id ∉ hostIds data.envs → deleteHost data true item = data) := by
  constructor
  · intro hmem
    cases hf : findHost item.id data.envs with
    | none => exact absurd hmem ((findHost_eq_none _ _).1 hf)
    | some p =>
      obtain ⟨s, i⟩ := p
      obtain ⟨S, x, hS, hx, hxid, hj, hk⟩ := findHost_eq_some item.id data.envs s i hf
      have hdel : deleteHost data true item =
          ⟨data.version, updateItems (fun items => items.eraseIdx i) s data.envs⟩ := by
        simp [deleteHost, deleteLoop_eq, hf]
      have hi : i < S.items.length := by
        rcases List.getElem?_eq_some_iff.1 hx with ⟨hlt, -⟩
        exact hlt
      refine ⟨s, i, S, x, hS, hx, hxid, hk, hj, ?_⟩
      rw [hdel]
      refine ⟨rfl, updateItems_length _ _ _, ?_, List.eraseIdx_eq_take_drop_succ _ _, ?_, ?_⟩
      · simp only
        rw [updateItems_getElem?_self, hS]
        rfl
      · intro k hks
        exact updateItems_getElem?_ne _ _ _ _ hks
      · have := hostCount_updateItems (fun items => items.eraseIdx i) s data.envs S hS
        simp only [List.length_eraseIdx_of_lt hi] at this
        simp only
        omega
  · intro hnot
    simp [deleteHost, deleteLoop_of_not_mem _ _ hnot]

/-- C8, counterexample. Two hosts share the id `a`.  The first confirmed `deleteHost` on
that id removes the host named `first`; the second call is not a no-op: it removes the
host named `second`, so two calls do not give the document that one call gives. -/
theorem deleteHost_twice_removes_two :
    (deleteHost sharedIdDoc true (mkHost "a" "" "" "" [])).envs.map
        (fun e => e.items.map (·.name)) = [["second"]] ∧
      (deleteHost (deleteHost sharedIdDoc true (mkHost "a" "" "" "" [])) true
        (mkHost "a" "" "" "" [])).envs.map (fun e => e.items.map (·.name)) = [[]] ∧
      deleteHost (deleteHost sharedIdDoc true (mkHost "a" "" "" "" [])) true
          (mkHost "a" "" "" "" [])
        ≠ deleteHost sharedIdDoc true (mkHost "a" "" "" "" []) := by
  decide

/-- C8, amended. For every document in which at most one host carries the id (so for
every document whose host ids are pairwise distinct), `deleteHost` on that id followed by
`deleteHost` on it again, with the same answer to the confirmation dialog, gives the
document that the first call gives: the second call changes nothing. -/
theorem deleteHost_idempotent_of_unique (data : Document) (confirmed : Bool)
    (item : HostRecord) (honce : (hostIds data.envs).count item.id ≤ 1) :
    deleteHost (deleteHost data confirmed item) confirmed item
      = deleteHost data confirmed item := by
  cases confirmed with
  | false => simp [deleteHost]
  | true =>
    have hc := deleteLoop_count item.id data.envs item.id
    have hgone : item.id ∉ hostIds (deleteLoop item.id data.envs) := by
      intro hm
      have hpos : 0 < (hostIds (deleteLoop item.id data.envs)).count item.id :=
        List.count_pos_iff.2 hm
      by_cases hmem : item.id ∈ hostIds data.envs
      · simp only [hmem, and_self, if_true] at hc
        omega
      · rw [deleteLoop_of_not_mem _ _ hmem] at hm
        exact hmem hm
    simp [deleteHost, deleteLoop_of_not_mem _ _ hgone]

/-- Witness of C8 (amended): host `a` of the two-environment document, deleted twice. -/
theorem deleteHost_idempotent_of_unique_witness :
    (hostIds twoEnvDoc.envs).count (mkHost "a" "" "" "" []).id ≤ 1 ∧
      deleteHost (deleteHost twoEnvDoc true (mkHost "a" "" "" "" [])) true
          (mkHost "a" "" "" "" [])
        = deleteHost twoEnvDoc true (mkHost "a" "" "" "" []) :=
  ⟨by decide,
    deleteHost_idempotent_of_unique twoEnvDoc true (mkHost "a" "" "" "" []) (by decide)⟩

/-- Witness of C7: the first of the two hosts that share the id `a` is removed, and an
id that occurs nowhere changes nothing. -/
theorem deleteHost_removes_first_match_witness :
    (hostCount (deleteHost sharedIdDoc true (mkHost "a" "" "" "" [])).envs + 1
        = hostCount sharedIdDoc.envs) ∧
      deleteHost twoEnvDoc true (mkHost "nope" "" "" "" []) = twoEnvDoc := by
  constructor
  · obtain ⟨_, _, _, _, _, _, _, _, _, _, _, _, _, _, h⟩ :=
      (deleteHost_removes_first_match sharedIdDoc (mkHost "a" "" "" "" [])).1 (by decide)
    exact h
  · exact (deleteHost_removes_first_match twoEnvDoc (mkHost "nope" "" "" "" [])).2 (by decide)

/-! ## Uniqueness of host ids -/

theorem saveHost_edit_count (data : Document) (mode itemId : String) (f : HostForm)
    (now : Nat) (randomText : String) (hmode : mode ≠ "add") (a : String) :
    (hostIds (saveHost data mode itemId f now randomText).data.envs).count a
      = (hostIds data.envs).count a := by
  by_cases hv : trim f.hostName = "" ∨ trim f.hostIP = ""
  · simp [saveHost, hv]
  · simp only [not_or] at hv
    cases hf : findHost itemId data.envs with
    | none => rw [saveHost_edit_missing data mode itemId f now randomText hmode hv.1 hv.2 hf]
    | some p =>
      obtain ⟨s, i⟩ := p
      obtain ⟨S, x, hS, hx, hxid, -, -⟩ := findHost_eq_some itemId data.envs s i hf
      have henv : data.envs ≠ [] := by
        intro h0
        rw [h0] at hS
        simp at hS
      obtain ⟨t, T, ht, hT, -, -⟩ := targetEnvIndex_spec data.envs f.hostEnvironment henv
      by_cases hid : S.id = T.id
      · rw [saveHost_edit_replace data mode itemId f now randomText s i t S T hmode hv.1 hv.2
          hf hS ht hT hid]
        have h1 := hostIds_count_updateItems (fun items => items.set i (hostData f itemId)) s
          data.envs S hS a
        have h2 : (S.items.set i (hostData f itemId)).map (·.id) = S.items.map (·.id) :=
          ids_set_same S.items i x (hostData f itemId) hx (by simp [hostData, hxid])
        simp only [h2] at h1
        simp only
        omega
      · rw [saveHost_edit_move data mode itemId f now randomText s i t S T hmode hv.1 hv.2
          hf hS ht hT hid]
        have h1 := hostIds_count_updateItems (fun items => items.eraseIdx i) s data.envs S hS a
        have h2 := count_ids_eraseIdx S.items i x hx a
        have hlen : t < (updateItems (fun items => items.eraseIdx i) s data.envs).length := by
          rw [updateItems_length]
          rcases List.getElem?_eq_some_iff.1 hT with ⟨hlt, -⟩
          exact hlt
        obtain ⟨T', hT'⟩ : ∃ T', (updateItems (fun items => items.eraseIdx i) s
            data.envs)[t]? = some T' := ⟨_, List.getElem?_eq_getElem hlen⟩
        have h3 := hostIds_count_updateItems (fun items => items ++ [hostData f itemId]) t
          (updateItems (fun items => items.eraseIdx i) s data.envs) T' hT' a
        have h4 : List.count a [(hostData f itemId).id] = if x.id = a then 1 else 0 := by
          show List.count a [itemId] = _
          rw [← hxid]
          by_cases hxa : x.id = a
          · simp [hxa]
          · simp [List.count_singleton, hxa]
        simp only [List.map_append, List.map_cons, List.map_nil, List.count_append] at h3
        simp only
        omega

theorem hostIds_append_empty (envs : List Environment) (e : Environment)
    (he : e.items = []) : hostIds (envs ++ [e]) = hostIds envs := by
  simp [hostIds, he]

theorem ids_sweepItems (commit : HostRecord → ProbeReply → Nat → HostRecord)
    (hid : ∀ h r n, (commit h r n).id = h.id)
    (replies : Nat → ProbeReply) (clock : Nat → Nat) (k : Nat) (items : List HostRecord) :
    (sweepItems commit replies clock k items).map (·.id) = items.map (·.id) := by
  induction items generalizing k with
  | nil => simp [sweepItems]
  | cons x xs ih => simp [sweepItems, hid, ih]

theorem hostIds_sweepEnvs (commit : HostRecord → ProbeReply → Nat → HostRecord)
    (hid : ∀ h r n, (commit h r n).id = h.id)
    (replies : Nat → ProbeReply) (clock : Nat → Nat) (k : Nat) (envs : List Environment) :
    hostIds (sweepEnvs commit replies clock k envs) = hostIds envs := by
  induction envs generalizing k with
  | nil => simp [sweepEnvs]
  | cons e es ih =>
    have := ih (k + e.items.length)
    simp only [hostIds] at this
    simp [sweepEnvs, hostIds, ids_sweepItems commit hid, this]

theorem commitHealth_id (h : HostRecord) (r : ProbeReply) (n : Nat) :
    (commitHealth h r n).id = h.id := by
  unfold commitHealth
  split
  · split <;> rfl
  · rfl
  · rfl

theorem background_commitHealth_id (h : HostRecord) (r : ProbeReply) (n : Nat) :
    (Background.commitHealth h r n).id = h.id := by
  unfold Background.commitHealth
  split
  · split <;> rfl
  · rfl
  · rfl

theorem one_environment_of_nodup (envs : List Environment) (hn : (hostIds envs).Nodup)
    (s t : Nat) (S T : Environment) (x y : HostRecord)
    (hS : envs[s]? = some S) (hT : envs[t]? = some T)
    (hx : x ∈ S.items) (hy : y ∈ T.items) (hxy : x.id = y.id) : s = t := by
  obtain ⟨i, hi⟩ := List.mem_iff_getElem?.1 hx
  obtain ⟨j, hj⟩ := List.mem_iff_getElem?.1 hy
  have h1 := findHost_of_nodup envs s i S x hn hS hi
  have h2 := findHost_of_nodup envs t j T y hn hT hj
  rw [hxy, h2] at h1
  injection h1 with h1
  injection h1 with h1 _
  exact h1.symm

/-- C9. If the host ids of a document are pairwise distinct across all environments,
they are pairwise distinct in the document left by `saveHost` in a mode other than `add`
(whatever the id and the form: move, in-place replacement, unknown id or rejected form),
by `deleteHost`, by `addNewEnvironment`, by the popup sweep and by the background sweep;
and in each of these documents two hosts with the same id are in the same environment,
so every host is in exactly one. -/
theorem host_ids_stay_distinct (data : Document) (hdistinct : (hostIds data.envs).Nodup)
    (mode itemId : String) (f : HostForm) (now : Nat) (randomText : String)
    (hmode : mode ≠ "add") (confirmed : Bool) (item : HostRecord) (envName : Option String)
    (enableHealthProbe : Bool) (replies : Nat → ProbeReply) (clock : Nat → Nat) :
    ∀ d ∈ [(saveHost data mode itemId f now randomText).data,
           deleteHost data confirmed item,
           addNewEnvironment data envName now randomText,
           performHealthChecks enableHealthProbe data replies clock,
           Background.performHealthChecks data replies clock],
      (hostIds d.envs).Nodup ∧
        ∀ (s t : Nat) (S T : Environment) (x y : HostRecord),
          d.envs[s]? = some S → d.envs[t]? = some T → x ∈ S.items → y ∈ T.items →
            x.id = y.id → s = t := by
  have key : ∀ d : Document, (hostIds d.envs).Nodup →
      (hostIds d.envs).Nodup ∧
        ∀ (s t : Nat) (S T : Environment) (x y : HostRecord),
          d.envs[s]? = some S → d.envs[t]? = some T → x ∈ S.items → y ∈ T.items →
            x.id = y.id → s = t :=
    fun d hd => ⟨hd, fun s t S T x y hS hT hx hy hxy =>
      one_environment_of_nodup d.envs hd s t S T x y hS hT hx hy hxy⟩
  intro d hd
  apply key
  simp only [List.mem_cons, List.mem_singleton, List.mem_nil_iff, or_false] at hd
  rcases hd with rfl | rfl | rfl | rfl | rfl
  · rw [List.nodup_iff_count_le_one] at hdistinct ⊢
    intro a
    rw [saveHost_edit_count data mode itemId f now randomText hmode a]
    exact hdistinct a
  · cases confirmed with
    | false => simpa [deleteHost] using hdistinct
    | true =>
      rw [List.nodup_iff_count_le_one] at hdistinct ⊢
      intro a
      have h1 := deleteLoop_count item.id data.envs a
      have h2 := hdistinct a
      simp only [deleteHost, if_true]
      omega
  · unfold addNewEnvironment
    split
    · exact hdistinct
    · split
      · exact hdistinct
      · simpa [hostIds_append_empty] using hdistinct
  · unfold performHealthChecks
    split
    · simpa [hostIds_sweepEnvs commitHealth commitHealth_id] using hdistinct
    · exact hdistinct
  · unfold Background.performHealthChecks
    simpa [hostIds_sweepEnvs Background.commitHealth background_commitHealth_id] using hdistinct

/-- Witness of C9: the two-environment document, whose ids `a` and `b` are distinct. -/
theorem host_ids_stay_distinct_witness :
    (hostIds twoEnvDoc.envs).Nodup ∧ "edit" ≠ "add" ∧
      (hostIds (saveHost twoEnvDoc "edit" "a" sampleForm 1700000000000
        "0.4fzyo82mvyr").data.envs).Nodup :=
  ⟨by decide, by decide,
    (host_ids_stay_distinct twoEnvDoc (by decide) "edit" "a" sampleForm 1700000000000
      "0.4fzyo82mvyr" (by decide) true (mkHost "a" "" "" "" []) (some "Lab-B") true
      (fun _ => ProbeReply.undefined) (fun _ => 0) _ (List.mem_cons_self _ _)).1⟩

/-! ## `filterItems` -/

theorem startsWithChars_iff (p cs : List Char) : startsWithChars p cs = true ↔ p <+: cs := by
  induction p generalizing cs with
  | nil => simp [startsWithChars]
  | cons a p ih =>
    cases cs with
    | nil => simp [startsWithChars]
    | cons c cs => simp [startsWithChars, ih]

theorem includesChars_iff (p cs : List Char) : includesChars p cs = true ↔ p <:+: cs := by
  induction cs with
  | nil => simp [includesChars, startsWithChars_iff]
  | cons c cs ih =>
    simp [includesChars, startsWithChars_iff, ih, List.infix_cons_iff]

theorem includes_iff (s t : String) : includes s t = true ↔ t.data <:+: s.data := by
  simp [includes, includesChars_iff]

theorem mem_allItems (data : Document) (x : ListedItem) :
    x ∈ allItems data ↔ ∃ env ∈ data.envs, x.item ∈ env.items ∧ x.envId = env.id := by
  simp only [allItems, List.mem_flatMap, List.mem_map]
  constructor
  · rintro ⟨env, henv, item, hitem, rfl⟩
    exact ⟨env, henv, hitem, rfl⟩
  · rintro ⟨env, henv, hitem, hid⟩
    refine ⟨env, henv, x.item, hitem, ?_⟩
    cases x
    simp_all

theorem matchesEnv_iff (selectedEnv : String) (x : ListedItem) :
    matchesEnv selectedEnv x = true ↔
      x.envId = selectedEnv ∨ x.item.environment = some selectedEnv := by
  simp [matchesEnv, or_comm]

theorem matchesSearch_iff (toLowerCase : String → String) (hempty : toLowerCase "" = "")
    (searchInput : String) (item : HostRecord) :
    matchesSearch toLowerCase (toLowerCase searchInput) item = true ↔
      (searchInput ≠ "" →
        ContainsIgnoringCase toLowerCase item.name searchInput ∨
        ContainsIgnoringCase toLowerCase item.ip searchInput ∨
        ∃ tags, item.tags = some tags ∧
          ∃ tag ∈ tags, ContainsIgnoringCase toLowerCase tag searchInput) := by
  unfold matchesSearch ContainsIgnoringCase
  simp only [Bool.or_eq_true, beq_iff_eq, includes_iff]
  constructor
  · intro h _
    rcases h with ((h | h) | h) | h
    · left
      rw [h]
      exact List.nil_infix
    · exact Or.inl h
    · exact Or.inr (Or.inl h)
    · right; right
      cases htags : item.tags with
      | none => simp [htags] at h
      | some tags =>
        simp only [htags, List.any_eq_true, includes_iff] at h
        exact ⟨tags, rfl, h⟩
  · intro h
    by_cases hin : searchInput = ""
    · left; left; left
      rw [hin, hempty]
    · rcases h hin with h | h | ⟨tags, htags, h⟩
      · exact Or.inl (Or.inl (Or.inr h))
      · exact Or.inl (Or.inr h)
      · right
        simp only [htags, List.any_eq_true, includes_iff]
        exact h

theorem matchesTags_iff (activeTags : List String) (item : HostRecord) :
    matchesTags activeTags item = true ↔
      (activeTags ≠ [] → ∃ tags, item.tags = some tags ∧ ∃ tag ∈ tags, tag ∈ activeTags) := by
  unfold matchesTags
  cases activeTags with
  | nil => simp
  | cons a as =>
    cases htags : item.tags with
    | none => simp
    | some tags => simp

/-- C10, counterexample. The host `x` is stored in the list of environment `a` and its own
`environment` value is `b`.  With `b` selected the query returns it, though it is not in
the list of `b`; with `a` selected the query returns it as well, though its `environment`
value is not `a`: one host is returned for two different selected environments, so the
query does not select by membership in one environment. -/
theorem filterItems_returns_stray_host :
    strayDoc.envs.map (fun e => (e.id, e.items.map (fun h => (h.id, h.environment))))
        = [("a", [("x", some "b")]), ("b", [])] ∧
      (∀ localeCompare : String → String → Int,
        (filterItems asciiLower localeCompare strayDoc "" "b" []).map
          (fun y => (y.item.id, y.envId)) = [("x", "a")]) ∧
      (∀ localeCompare : String → String → Int,
        (filterItems asciiLower localeCompare strayDoc "" "a" []).map
          (fun y => (y.item.id, y.envId)) = [("x", "a")]) :=
  ⟨by decide, fun _ => rfl, fun _ => rfl⟩

/-- C10, amended. For every document, search text, active-tag set and selected
environment, and every case-folding function that maps the empty text to itself, the
query returns exactly the entries `(host, id of the environment that stores it)` of the
document such that (a) when an environment is selected, the host is stored in an
environment with the selected id or carries the selected id in its own `environment`
value; (b) when the search text is non-empty, it occurs, case ignored, in the host's
name, its address or at least one of its tags; (c) when the active-tag set is
non-empty, at least one tag of the host is in it.  For `web1` (10.0.0.1, tag `prod`)
and `db1` (10.0.0.2, tag `dev`): searching `db` returns only `db1`, the active tag `prod`
returns only `web1`, and the unmatched text `zzz` with the active tag `prod` returns
nothing. -/
theorem filterItems_returns_exactly (toLowerCase : String → String)
    (localeCompare : String → String → Int) (hempty : toLowerCase "" = "")
    (data : Document) (searchInput selectedEnv : String) (activeTags : List String) :
    (∀ x : ListedItem,
      x ∈ filterItems toLowerCase localeCompare data searchInput selectedEnv activeTags ↔
        (∃ env ∈ data.envs, x.item ∈ env.items ∧ x.envId = env.id) ∧
        (selectedEnv ≠ "" →
          x.envId = selectedEnv ∨ x.item.environment = some selectedEnv) ∧
        (searchInput ≠ "" →
          ContainsIgnoringCase toLowerCase x.item.name searchInput ∨
          ContainsIgnoringCase toLowerCase x.item.ip searchInput ∨
          ∃ tags, x.item.tags = some tags ∧
            ∃ tag ∈ tags, ContainsIgnoringCase toLowerCase tag searchInput) ∧
        (activeTags ≠ [] →
          ∃ tags, x.item.tags = some tags ∧ ∃ tag ∈ tags, tag ∈ activeTags)) ∧
      filterItems asciiLower localeCompare webDbDoc "db" "" []
        = [⟨mkHost "h2" "db1" "10.0.0.2" "default" ["dev"], "default"⟩] ∧
      filterItems asciiLower localeCompare webDbDoc "" "" ["prod"]
        = [⟨mkHost "h1" "web1" "10.0.0.1" "default" ["prod"], "default"⟩] ∧
      filterItems asciiLower localeCompare webDbDoc "zzz" "" ["prod"] = [] := by
  refine ⟨?_, rfl, rfl, rfl⟩
  intro x
  unfold filterItems
  simp only [List.mem_insertionSort, List.mem_filter, Bool.and_eq_true,
    matchesSearch_iff toLowerCase hempty, matchesTags_iff]
  by_cases hsel : selectedEnv = ""
  · simp [hsel, mem_allItems]
  · simp only [ne_eq, hsel, not_false_eq_true, if_true, List.mem_filter, mem_allItems,
      matchesEnv_iff, true_implies]
    tauto

/-- Witness of C10 (amended): ASCII case folding, on the document of `web1` and `db1`. -/
theorem filterItems_returns_exactly_witness :
    asciiLower "" = "" ∧
      filterItems asciiLower (fun _ _ => 0) webDbDoc "db" "" []
        = [⟨mkHost "h2" "db1" "10.0.0.2" "default" ["dev"], "default"⟩] :=
  ⟨by decide,
    (filterItems_returns_exactly asciiLower (fun _ _ => 0) (by decide) webDbDoc "DB" "default"
      ["dev"]).2.1⟩

/-! ## Order of the query result -/

theorem filterItems_eq_sort (toLowerCase : String → String)
    (localeCompare : String → String → Int) (data : Document)
    (searchInput selectedEnv : String) (activeTags : List String) :
    filterItems toLowerCase localeCompare data searchInput selectedEnv activeTags =
      (matchingItems toLowerCase data searchInput selectedEnv activeTags).insertionSort
        (fun a b => compareItems localeCompare a b ≤ 0) := rfl

theorem compareItems_total (localeCompare : String → String → Int)
    (htotal : ∀ a b, localeCompare a b ≤ 0 ∨ localeCompare b a ≤ 0) (x y : ListedItem) :
    compareItems localeCompare x y ≤ 0 ∨ compareItems localeCompare y x ≤ 0 := by
  unfold compareItems
  cases hx : x.item.pinned <;> cases hy : y.item.pinned <;>
    simp [htotal x.item.name y.item.name]

theorem compareItems_trans (localeCompare : String → String → Int)
    (htrans : ∀ a b c, localeCompare a b ≤ 0 → localeCompare b c ≤ 0 → localeCompare a c ≤ 0)
    (x y z : ListedItem) (hxy : compareItems localeCompare x y ≤ 0)
    (hyz : compareItems localeCompare y z ≤ 0) : compareItems localeCompare x z ≤ 0 := by
  unfold compareItems at hxy hyz ⊢
  cases hx : x.item.pinned <;> cases hy : y.item.pinned <;> cases hz : z.item.pinned <;>
    simp [hx, hy, hz] at hxy hyz ⊢
  all_goals exact htrans _ _ _ hxy hyz

theorem compareChars_total (a b : List Char) :
    compareChars a b ≤ 0 ∨ compareChars b a ≤ 0 := by
  induction a generalizing b with
  | nil => cases b <;> simp [compareChars]
  | cons x xs ih =>
    cases b with
    | nil => simp [compareChars]
    | cons y ys =>
      simp only [compareChars]
      by_cases h1 : x.toNat < y.toNat
      · simp [h1]
      · by_cases h2 : y.toNat < x.toNat
        · simp [h2]
        · simp only [h1, h2, if_false]
          exact ih ys

theorem compareChars_trans (a b c : List Char) (hab : compareChars a b ≤ 0)
    (hbc : compareChars b c ≤ 0) : compareChars a c ≤ 0 := by
  induction a generalizing b c with
  | nil => cases c <;> simp [compareChars]
  | cons x xs ih =>
    cases b with
    | nil => simp [compareChars] at hab
    | cons y ys =>
      cases c with
      | nil => simp [compareChars] at hbc
      | cons z zs =>
        simp only [compareChars] at hab hbc ⊢
        by_cases h1 : x.toNat < y.toNat
        · by_cases h2 : y.toNat < z.toNat
          · have : x.toNat < z.toNat := by omega
            simp [this]
          · by_cases h3 : z.toNat < y.toNat
            · simp [h2, h3] at hbc
            · have : x.toNat < z.toNat := by omega
              simp [this]
        · by_cases h1' : y.toNat < x.toNat
          · simp [h1, h1'] at hab
          · simp only [h1, h1', if_false] at hab
            by_cases h2 : y.toNat < z.toNat
            · have : x.toNat < z.toNat := by omega
              simp [this]
            · by_cases h3 : z.toNat < y.toNat
              · simp [h2, h3] at hbc
              · simp only [h2, h3, if_false] at hbc
                have e1 : ¬ x.toNat < z.toNat := by omega
                have e2 : ¬ z.toNat < x.toNat := by omega
                simp only [e1, e2, if_false]
                exact ih ys zs hab hbc
theorem codePointCompare_total (a b : String) :
    codePointCompare a b ≤ 0 ∨ codePointCompare b a ≤ 0 :=
  compareChars_total a.data b.data

theorem codePointCompare_trans (a b c : String) (hab : codePointCompare a b ≤ 0)
    (hbc : codePointCompare b c ≤ 0) : codePointCompare a c ≤ 0 :=
  compareChars_trans a.data b.data c.data hab hbc

/-- C11. Let `localeCompare` be a consistent comparator (total and transitive, as the
language requires of it); the order of names is the one it defines.  The result of
`filterItems` is a permutation of the hosts that pass the filters, which are taken in
document order; in it no unpinned host precedes a pinned one; of two hosts with the
same pinned status the earlier one has the name that `localeCompare` does not put after
the other; and the hosts with one pinned status and one name appear in the same
relative order as before the sort, that is as in the document (the sort is stable). -/
theorem filterItems_sorted_stable (toLowerCase : String → String)
    (localeCompare : String → String → Int)
    (htotal : ∀ a b, localeCompare a b ≤ 0 ∨ localeCompare b a ≤ 0)
    (htrans : ∀ a b c, localeCompare a b ≤ 0 → localeCompare b c ≤ 0 → localeCompare a c ≤ 0)
    (data : Document) (searchInput selectedEnv : String) (activeTags : List String) :
    (filterItems toLowerCase localeCompare data searchInput selectedEnv activeTags).Perm
        (matchingItems toLowerCase data searchInput selectedEnv activeTags) ∧
      (matchingItems toLowerCase data searchInput selectedEnv activeTags).Sublist
        (allItems data) ∧
      (filterItems toLowerCase localeCompare data searchInput selectedEnv activeTags).Pairwise
        (fun x y => y.item.pinned = true → x.item.pinned = true) ∧
      (filterItems toLowerCase localeCompare data searchInput selectedEnv activeTags).Pairwise
        (fun x y => x.item.pinned = y.item.pinned →
          localeCompare x.item.name y.item.name ≤ 0) ∧
      ∀ (pinned : Bool) (name : String),
        (filterItems toLowerCase localeCompare data searchInput selectedEnv activeTags).filter
            (fun z => z.item.pinned == pinned && z.item.name == name) =
          (matchingItems toLowerCase data searchInput selectedEnv activeTags).filter
            (fun z => z.item.pinned == pinned && z.item.name == name) := by
  rw [filterItems_eq_sort]
  have hdoc : (matchingItems toLowerCase data searchInput selectedEnv activeTags).Sublist
      (allItems data) := by
    unfold matchingItems
    by_cases hsel : selectedEnv = ""
    · simp only [hsel, ne_eq, not_true_eq_false, if_false]
      exact List.filter_sublist _
    · simp only [ne_eq, hsel, not_false_eq_true, if_true]
      exact (List.filter_sublist _).trans (List.filter_sublist _)
  generalize matchingItems toLowerCase data searchInput selectedEnv activeTags = l at hdoc ⊢
  haveI : IsTotal ListedItem (fun a b => compareItems localeCompare a b ≤ 0) :=
    ⟨compareItems_total localeCompare htotal⟩
  haveI : IsTrans ListedItem (fun a b => compareItems localeCompare a b ≤ 0) :=
    ⟨compareItems_trans localeCompare htrans⟩
  have hperm := List.perm_insertionSort (fun a b => compareItems localeCompare a b ≤ 0) l
  have hsorted : (l.insertionSort (fun a b => compareItems localeCompare a b ≤ 0)).Pairwise
      (fun a b => compareItems localeCompare a b ≤ 0) :=
    List.sorted_insertionSort (fun a b => compareItems localeCompare a b ≤ 0) l
  refine ⟨hperm, hdoc, ?_, ?_, ?_⟩
  · refine hsorted.imp ?_
    intro x y hxy hy
    unfold compareItems at hxy
    cases hx : x.item.pinned
    · simp [hx, hy] at hxy
    · rfl
  · refine hsorted.imp ?_
    intro x y hxy hp
    unfold compareItems at hxy
    cases hx : x.item.pinned <;> simp [hx, ← hp] at hxy <;> exact hxy
  · intro pinned name
    have hsub : (l.filter (fun z => z.item.pinned == pinned && z.item.name == name)).Sublist
        (l.insertionSort (fun a b => compareItems localeCompare a b ≤ 0)) := by
      refine List.sublist_insertionSort ?_ (List.filter_sublist _)
      rw [List.pairwise_iff_forall_sublist]
      intro a b hab
      have ha : a ∈ l.filter (fun z => z.item.pinned == pinned && z.item.name == name) :=
        hab.subset (by simp)
      have hb : b ∈ l.filter (fun z => z.item.pinned == pinned && z.item.name == name) :=
        hab.subset (by simp)
      simp only [List.mem_filter, Bool.and_eq_true, beq_iff_eq] at ha hb
      have hself : localeCompare name name ≤ 0 := by
        rcases htotal name name with h | h <;> exact h
      unfold compareItems
      simp [ha.2.1, ha.2.2, hb.2.1, hb.2.2, hself]
    have hsub' := hsub.filter (fun z => z.item.pinned == pinned && z.item.name == name)
    rw [List.filter_filter] at hsub'
    simp only [Bool.and_self] at hsub'
    have hlen := (hperm.filter (fun z => z.item.pinned == pinned && z.item.name == name)).length_eq
    exact (hsub'.eq_of_length hlen.symm).symm

end IPManager

namespace IPManager

/-- Witness of C11: code-point comparison on a document with a pinned host and two
hosts of the same name. -/
theorem filterItems_sorted_stable_witness :
    (∀ a b, codePointCompare a b ≤ 0 ∨ codePointCompare b a ≤ 0) ∧
      (∀ a b c, codePointCompare a b ≤ 0 → codePointCompare b c ≤ 0 →
        codePointCompare a c ≤ 0) ∧
      (filterItems asciiLower codePointCompare pinnedDoc "" "" []).map (·.item.id)
        = ["h3", "h2", "h4", "h1"] ∧
      (filterItems asciiLower codePointCompare pinnedDoc "" "" []).Pairwise
        (fun x y => y.item.pinned = true → x.item.pinned = true) :=
  ⟨codePointCompare_total, codePointCompare_trans, by decide,
    (filterItems_sorted_stable asciiLower codePointCompare codePointCompare_total
      codePointCompare_trans pinnedDoc "" "" []).2.2.1⟩

end IPManager

namespace Background

/-! ## The probe -/

theorem portUrl_eq (ip : String) (port : Nat) (digits : String)
    (h : ":" ++ toString port = digits) :
    "http://" ++ ip ++ ":" ++ toString port = "http://" ++ ip ++ digits := by
  rw [String.append_assoc, h]

theorem performHealthCheck_unfold (fetch : Nat → Attempt → Bool) (elapsed : Nat → Nat)
    (ip : String) :
    performHealthCheck fetch elapsed ip =
      if fetch 0 ⟨"http://" ++ ip, 3000⟩ then
        ⟨⟨true, some (elapsed 1), "online", some "http"⟩, (plannedAttempts ip).take 1⟩
      else if fetch 1 ⟨"https://" ++ ip, 3000⟩ then
        ⟨⟨true, some (elapsed 2), "online", some "https"⟩, (plannedAttempts ip).take 2⟩
      else if fetch 2 ⟨"http://" ++ ip ++ ":22", 2000⟩ then
        ⟨⟨true, some (elapsed 3), "online", some "port-22"⟩, (plannedAttempts ip).take 3⟩
      else if fetch 3 ⟨"http://" ++ ip ++ ":23", 2000⟩ then
        ⟨⟨true, some (elapsed 4), "online", some "port-23"⟩, (plannedAttempts ip).take 4⟩
      else if fetch 4 ⟨"http://" ++ ip ++ ":80", 2000⟩ then
        ⟨⟨true, some (elapsed 5), "online", some "port-80"⟩, (plannedAttempts ip).take 5⟩
      else if fetch 5 ⟨"http://" ++ ip ++ ":443", 2000⟩ then
        ⟨⟨true, some (elapsed 6), "online", some "port-443"⟩, (plannedAttempts ip).take 6⟩
      else if fetch 6 ⟨"http://" ++ ip ++ ":3389", 2000⟩ then
        ⟨⟨true, some (elapsed 7), "online", some "port-3389"⟩, (plannedAttempts ip).take 7⟩
      else if fetch 7 ⟨"http://" ++ ip ++ ":8080", 2000⟩ then
        ⟨⟨true, some (elapsed 8), "online", some "port-8080"⟩, (plannedAttempts ip).take 8⟩
      else if fetch 8 ⟨"http://" ++ ip ++ ":8443", 2000⟩ then
        ⟨⟨true, some (elapsed 9), "online", some "port-8443"⟩, (plannedAttempts ip).take 9⟩
      else ⟨⟨false, none, "offline", some "all-failed"⟩, plannedAttempts ip⟩ := by
  have e22 := portUrl_eq ip 22 ":22" (by decide)
  have e23 := portUrl_eq ip 23 ":23" (by decide)
  have e80 := portUrl_eq ip 80 ":80" (by decide)
  have e443 := portUrl_eq ip 443 ":443" (by decide)
  have e3389 := portUrl_eq ip 3389 ":3389" (by decide)
  have e8080 := portUrl_eq ip 8080 ":8080" (by decide)
  have e8443 := portUrl_eq ip 8443 ":8443" (by decide)
  have m22 : "port-" ++ toString 22 = "port-22" := by decide
  have m23 : "port-" ++ toString 23 = "port-23" := by decide
  have m80 : "port-" ++ toString 80 = "port-80" := by decide
  have m443 : "port-" ++ toString 443 = "port-443" := by decide
  have m3389 : "port-" ++ toString 3389 = "port-3389" := by decide
  have m8080 : "port-" ++ toString 8080 = "port-8080" := by decide
  have m8443 : "port-" ++ toString 8443 = "port-8443" := by decide
  simp only [performHealthCheck, tryPorts, commonPorts, plannedAttempts, e22, e23, e80, e443,
    e3389, e8080, e8443, m22, m23, m80, m443, m3389, m8080, m8443, List.length_cons,
    List.length_nil, List.length_append, List.cons_append, List.nil_append, List.take]

theorem performHealthCheck_cases (fetch : Nat → Attempt → Bool) (elapsed : Nat → Nat)
    (ip : String) :
    (∃ k a, (plannedAttempts ip)[k]? = some a ∧ fetch k a = true ∧
        (∀ j b, j < k → (plannedAttempts ip)[j]? = some b → fetch j b = false) ∧
        performHealthCheck fetch elapsed ip =
          ⟨⟨true, some (elapsed (k + 1)), "online", methodNames[k]?⟩,
            (plannedAttempts ip).take (k + 1)⟩) ∨
      ((∀ k a, (plannedAttempts ip)[k]? = some a → fetch k a = false) ∧
        performHealthCheck fetch elapsed ip =
          ⟨⟨false, none, "offline", some "all-failed"⟩, plannedAttempts ip⟩) := by
  have hlen : (plannedAttempts ip).length = 9 := rfl
  have hidx : ∀ k a, (plannedAttempts ip)[k]? = some a → k < 9 := by
    intro k a hk
    rcases List.getElem?_eq_some_iff.1 hk with ⟨hlt, -⟩
    omega
  rw [performHealthCheck_unfold]
  by_cases h0 : fetch 0 ⟨"http://" ++ ip, 3000⟩ = true
  · left
    refine ⟨0, ⟨"http://" ++ ip, 3000⟩, rfl, h0, ?_, ?_⟩
    · intro j b hj hb
      omega
    · simp only [h0, if_true, if_false, Bool.false_eq_true]
      rfl
  rw [Bool.not_eq_true] at h0
  by_cases h1 : fetch 1 ⟨"https://" ++ ip, 3000⟩ = true
  · left
    refine ⟨1, ⟨"https://" ++ ip, 3000⟩, rfl, h1, ?_, ?_⟩
    · intro j b hj hb
      interval_cases j
      simp only [plannedAttempts, List.getElem?_cons_zero, Option.some.injEq] at hb
      subst hb
      assumption
    · simp only [h0, h1, if_true, if_false, Bool.false_eq_true]
      rfl
  rw [Bool.not_eq_true] at h1
  by_cases h2 : fetch 2 ⟨"http://" ++ ip ++ ":22", 2000⟩ = true
  · left
    refine ⟨2, ⟨"http://" ++ ip ++ ":22", 2000⟩, rfl, h2, ?_, ?_⟩
    · intro j b hj hb
      interval_cases j <;> simp only [plannedAttempts, List.getElem?_cons_zero, List.getElem?_cons_succ, Option.some.injEq] at hb <;> subst hb <;> assumption
    · simp only [h0, h1, h2, if_true, if_false, Bool.false_eq_true]
      rfl
  rw [Bool.not_eq_true] at h2
  by_cases h3 : fetch 3 ⟨"http://" ++ ip ++ ":23", 2000⟩ = true
  · left
    refine ⟨3, ⟨"http://" ++ ip ++ ":23", 2000⟩, rfl, h3, ?_, ?_⟩
    · intro j b hj hb
      interval_cases j <;> simp only [plannedAttempts, List.getElem?_cons_zero, List.getElem?_cons_succ, Option.some.injEq] at hb <;> subst hb <;> assumption
    · simp only [h0, h1, h2, h3, if_true, if_false, Bool.false_eq_true]
      rfl
  rw [Bool.not_eq_true] at h3
  by_cases h4 : fetch 4 ⟨"http://" ++ ip ++ ":80", 2000⟩ = true
  · left
    refine ⟨4, ⟨"http://" ++ ip ++ ":80", 2000⟩, rfl, h4, ?_, ?_⟩
    · intro j b hj hb
      interval_cases j <;> simp only [plannedAttempts, List.getElem?_cons_zero, List.getElem?_cons_succ, Option.some.injEq] at hb <;> subst hb <;> assumption
    · simp only [h0, h1, h2, h3, h4, if_true, if_false, Bool.false_eq_true]
      rfl
  rw [Bool.not_eq_true] at h4
  by_cases h5 : fetch 5 ⟨"http://" ++ ip ++ ":443", 2000⟩ = true
  · left
    refine ⟨5, ⟨"http://" ++ ip ++ ":443", 2000⟩, rfl, h5, ?_, ?_⟩
    · intro j b hj hb
      interval_cases j <;> simp only [plannedAttempts, List.getElem?_cons_zero, List.getElem?_cons_succ, Option.some.injEq] at hb <;> subst hb <;> assumption
    · simp only [h0, h1, h2, h3, h4, h5, if_true, if_false, Bool.false_eq_true]
      rfl
  rw [Bool.not_eq_true] at h5
  by_cases h6 : fetch 6 ⟨"http://" ++ ip ++ ":3389", 2000⟩ = true
  · left
    refine ⟨6, ⟨"http://" ++ ip ++ ":3389", 2000⟩, rfl, h6, ?_, ?_⟩
    · intro j b hj hb
      interval_cases j <;> simp only [plannedAttempts, List.getElem?_cons_zero, List.getElem?_cons_succ, Option.some.injEq] at hb <;> subst hb <;> assumption
    · simp only [h0, h1, h2, h3, h4, h5, h6, if_true, if_false, Bool.false_eq_true]
      rfl
  rw [Bool.not_eq_true] at h6
  by_cases h7 : fetch 7 ⟨"http://" ++ ip ++ ":8080", 2000⟩ = true
  · left
    refine ⟨7, ⟨"http://" ++ ip ++ ":8080", 2000⟩, rfl, h7, ?_, ?_⟩
    · intro j b hj hb
      interval_cases j <;> simp only [plannedAttempts, List.getElem?_cons_zero, List.getElem?_cons_succ, Option.some.injEq] at hb <;> subst hb <;> assumption
    · simp only [h0, h1, h2, h3, h4, h5, h6, h7, if_true, if_false, Bool.false_eq_true]
      rfl
  rw [Bool.not_eq_true] at h7
  by_cases h8 : fetch 8 ⟨"http://" ++ ip ++ ":8443", 2000⟩ = true
  · left
    refine ⟨8, ⟨"http://" ++ ip ++ ":8443", 2000⟩, rfl, h8, ?_, ?_⟩
    · intro j b hj hb
      interval_cases j <;> simp only [plannedAttempts, List.getElem?_cons_zero, List.getElem?_cons_succ, Option.some.injEq] at hb <;> subst hb <;> assumption
    · simp only [h0, h1, h2, h3, h4, h5, h6, h7, h8, if_true, if_false, Bool.false_eq_true]
      rfl
  rw [Bool.not_eq_true] at h8
  right
  refine ⟨?_, ?_⟩
  · intro k a hk
    have hk9 := hidx k a hk
    interval_cases k <;> simp only [plannedAttempts, List.getElem?_cons_zero, List.getElem?_cons_succ, Option.some.injEq] at hk <;> subst hk <;> assumption
  · simp only [h0, h1, h2, h3, h4, h5, h6, h7, h8, if_false, Bool.false_eq_true]

/-- C12. For every address, every assignment of success or failure to the calls of the
probe and every clock: the probe answers `online`, with `success` set, exactly when at
least one of the nine planned attempts, taken in the order http, https, ports 22, 23,
80, 443, 3389, 8080, 8443, succeeds; and when attempt number `k` is the first to succeed,
the method is the name of that attempt (`http`, `https` or `port-<p>`) and the attempts
made are exactly the first `k + 1` planned ones, so none is made after the success. -/
theorem performHealthCheck_first_success (fetch : Nat → Attempt → Bool)
    (elapsed : Nat → Nat) (ip : String) :
    ((performHealthCheck fetch elapsed ip).result.status = "online" ↔
        ∃ k a, (plannedAttempts ip)[k]? = some a ∧ fetch k a = true) ∧
      ((performHealthCheck fetch elapsed ip).result.success = true ↔
        (performHealthCheck fetch elapsed ip).result.status = "online") ∧
      ∀ k a, (plannedAttempts ip)[k]? = some a → fetch k a = true →
        (∀ j b, j < k → (plannedAttempts ip)[j]? = some b → fetch j b = false) →
        (performHealthCheck fetch elapsed ip).result.status = "online" ∧
          (performHealthCheck fetch elapsed ip).result.method = methodNames[k]? ∧
          (performHealthCheck fetch elapsed ip).attempts = (plannedAttempts ip).take (k + 1) := by
  rcases performHealthCheck_cases fetch elapsed ip with
    ⟨k, a, hk, hfetch, hprior, hrun⟩ | ⟨hfail, hrun⟩
  · rw [hrun]
    refine ⟨⟨fun _ => ⟨k, a, hk, hfetch⟩, fun _ => rfl⟩, ⟨fun _ => rfl, fun _ => rfl⟩, ?_⟩
    intro k' a' hk' hfetch' hprior'
    have hkk : k' = k := by
      rcases Nat.lt_trichotomy k' k with h | h | h
      · have := hprior k' a' h hk'
        rw [this] at hfetch'
        exact absurd hfetch' (by decide)
      · exact h
      · have := hprior' k a h hk
        rw [this] at hfetch
        exact absurd hfetch (by decide)
    subst hkk
    exact ⟨rfl, rfl, rfl⟩
  · rw [hrun]
    refine ⟨⟨fun h => absurd h (by simp), ?_⟩, ⟨fun h => absurd h (by simp),
      fun h => absurd h (by simp)⟩, ?_⟩
    · rintro ⟨k, a, hk, hfetch⟩
      rw [hfail k a hk] at hfetch
      exact absurd hfetch (by decide)
    · intro k a hk hfetch _
      rw [hfail k a hk] at hfetch
      exact absurd hfetch (by decide)

/-- C13. When every attempt fails, whatever the address and the clock, the probe makes
exactly the nine planned attempts, http and https with a timeout of 3000 ms each and the
seven ports with 2000 ms each, so that the timeouts of the attempts made add up to
20000 ms, and it returns the object `offline` with method `all-failed`: it ends with a
value, not an exception. -/
theorem performHealthCheck_all_failed (fetch : Nat → Attempt → Bool) (elapsed : Nat → Nat)
    (ip : String) (hfail : ∀ k a, fetch k a = false) :
    (performHealthCheck fetch elapsed ip).result =
        { success := false, responseTime := none, status := "offline",
          method := some "all-failed" } ∧
      (performHealthCheck fetch elapsed ip).attempts = plannedAttempts ip ∧
      (performHealthCheck fetch elapsed ip).attempts.length = 9 ∧
      (performHealthCheck fetch elapsed ip).attempts.map (·.timeoutMs)
        = [3000, 3000, 2000, 2000, 2000, 2000, 2000, 2000, 2000] ∧
      ((performHealthCheck fetch elapsed ip).attempts.map (·.timeoutMs)).sum = 20000 := by
  rcases performHealthCheck_cases fetch elapsed ip with
    ⟨k, a, -, hfetch, -, -⟩ | ⟨-, hrun⟩
  · rw [hfail k a] at hfetch
    exact absurd hfetch (by decide)
  · rw [hrun]
    refine ⟨rfl, rfl, rfl, rfl, ?_⟩
    simp [plannedAttempts]

/-- Witness of C13: a network in which nothing answers. -/
theorem performHealthCheck_all_failed_witness :
    (∀ (k : Nat) (a : Attempt), (fun _ _ => false : Nat → Attempt → Bool) k a = false) ∧
      ((performHealthCheck (fun _ _ => false) (fun k => 3000 * k) "10.255.255.1").attempts.map
        (·.timeoutMs)).sum = 20000 :=
  ⟨fun _ _ => rfl,
    (performHealthCheck_all_failed (fun _ _ => false) (fun k => 3000 * k) "10.255.255.1"
      (fun _ _ => rfl)).2.2.2.2⟩

end Background

namespace IPManager

/-! ## Sweeps -/

theorem sweepItems_append (commit : HostRecord → ProbeReply → Nat → HostRecord)
    (replies : Nat → ProbeReply) (clock : Nat → Nat) (k : Nat) (l₁ l₂ : List HostRecord) :
    sweepItems commit replies clock k (l₁ ++ l₂) =
      sweepItems commit replies clock k l₁ ++
        sweepItems commit replies clock (k + l₁.length) l₂ := by
  induction l₁ generalizing k with
  | nil => simp [sweepItems]
  | cons x xs ih =>
    have hk : k + 1 + xs.length = k + (xs.length + 1) := by omega
    show commit x (replies k) (clock k) :: sweepItems commit replies clock (k + 1) (xs ++ l₂) = _
    rw [ih, hk]
    rfl

theorem allHosts_sweepEnvs (commit : HostRecord → ProbeReply → Nat → HostRecord)
    (replies : Nat → ProbeReply) (clock : Nat → Nat) (k : Nat) (envs : List Environment) :
    (sweepEnvs commit replies clock k envs).flatMap (fun env => env.items) =
      sweepItems commit replies clock k (envs.flatMap (fun env => env.items)) := by
  induction envs generalizing k with
  | nil => simp [sweepEnvs, sweepItems]
  | cons e es ih => simp [sweepEnvs, sweepItems_append, ih]

theorem sweepItems_getElem? (commit : HostRecord → ProbeReply → Nat → HostRecord)
    (replies : Nat → ProbeReply) (clock : Nat → Nat) (k j : Nat) (items : List HostRecord) :
    (sweepItems commit replies clock k items)[j]? =
      items[j]?.map (fun h => commit h (replies (k + j)) (clock (k + j))) := by
  induction items generalizing k j with
  | nil => simp [sweepItems]
  | cons x xs ih =>
    cases j with
    | zero => simp [sweepItems]
    | succ j =>
      simp only [sweepItems, List.getElem?_cons_succ, ih]
      have : k + 1 + j = k + (j + 1) := by omega
      rw [this]

theorem sweepItems_length (commit : HostRecord → ProbeReply → Nat → HostRecord)
    (replies : Nat → ProbeReply) (clock : Nat → Nat) (k : Nat) (items : List HostRecord) :
    (sweepItems commit replies clock k items).length = items.length := by
  induction items generalizing k with
  | nil => simp [sweepItems]
  | cons x xs ih => simp [sweepItems, ih]

theorem commitHealth_checking (h : HostRecord) (r : ProbeReply) (n : Nat) :
    commitHealth { h with healthStatus := some "checking" } r n = commitHealth h r n := by
  unfold commitHealth
  split
  · split <;> rfl
  · rfl
  · rfl

theorem commitHealth_terminal (h : HostRecord) (r : ProbeReply) (n : Nat) :
    IsTerminal (commitHealth h r n).healthStatus := by
  unfold commitHealth IsTerminal
  split
  · split
    · exact Or.inl rfl
    · exact Or.inr rfl
  · exact Or.inr rfl
  · exact Or.inr rfl

theorem background_commitHealth_terminal (h : HostRecord) (r : ProbeReply) (n : Nat) :
    IsTerminal (Background.commitHealth h r n).healthStatus := by
  unfold Background.commitHealth IsTerminal
  split
  · split
    · exact Or.inl rfl
    · exact Or.inr rfl
  · exact Or.inr rfl
  · exact Or.inr rfl

theorem sweepItems_terminal (commit : HostRecord → ProbeReply → Nat → HostRecord)
    (hterm : ∀ h r n, IsTerminal (commit h r n).healthStatus)
    (replies : Nat → ProbeReply) (clock : Nat → Nat) (k : Nat) (items : List HostRecord) :
    ∀ h ∈ sweepItems commit replies clock k items, IsTerminal h.healthStatus := by
  induction items generalizing k with
  | nil => simp [sweepItems]
  | cons x xs ih =>
    intro h hh
    simp only [sweepItems, List.mem_cons] at hh
    rcases hh with rfl | hh
    · exact hterm _ _ _
    · exact ih _ h hh

theorem sweepLog_steps (replies : Nat → ProbeReply) (clock : Nat → Nat) (k : Nat)
    (hosts : List HostRecord) :
    (sweepLog replies clock k hosts).map (fun e => (e.step, e.index)) =
      (List.range' k hosts.length).flatMap
        (fun i => [(SweepStep.checking, i), (SweepStep.probe, i), (SweepStep.commit, i)]) := by
  induction hosts generalizing k with
  | nil => simp [sweepLog]
  | cons x xs ih => simp [sweepLog, ih, List.range'_succ]

theorem sweepLog_probes (replies : Nat → ProbeReply) (clock : Nat → Nat) (k : Nat)
    (hosts : List HostRecord) :
    (probesOf (sweepLog replies clock k hosts)).map (fun e => (e.index, e.host.ip)) =
      (hosts.enumFrom k).map (fun p => (p.1, p.2.ip)) := by
  induction hosts generalizing k with
  | nil => simp [sweepLog, probesOf]
  | cons x xs ih =>
    have := ih (k + 1)
    simp only [probesOf] at this
    simp [sweepLog, probesOf, List.filter_cons, this]

theorem sweepLog_commits (replies : Nat → ProbeReply) (clock : Nat → Nat) (k : Nat)
    (hosts : List HostRecord) :
    (commitsOf (sweepLog replies clock k hosts)).map (fun e => e.host) =
      sweepItems commitHealth replies clock k hosts := by
  induction hosts generalizing k with
  | nil => simp [sweepLog, commitsOf, sweepItems]
  | cons x xs ih =>
    have := ih (k + 1)
    simp only [commitsOf] at this
    simp [sweepLog, commitsOf, List.filter_cons, this, sweepItems, commitHealth_checking]

theorem sweepLog_commit_indices (replies : Nat → ProbeReply) (clock : Nat → Nat) (k : Nat)
    (hosts : List HostRecord) :
    (commitsOf (sweepLog replies clock k hosts)).map (fun e => e.index) =
      List.range' k hosts.length := by
  induction hosts generalizing k with
  | nil => simp [sweepLog, commitsOf]
  | cons x xs ih =>
    have := ih (k + 1)
    simp only [commitsOf] at this
    simp [sweepLog, commitsOf, List.filter_cons, this, List.range'_succ]

theorem background_sweepLog_steps (replies : Nat → ProbeReply) (clock : Nat → Nat) (k : Nat)
    (hosts : List HostRecord) :
    (Background.sweepLog replies clock k hosts).map (fun e => (e.step, e.index)) =
      (List.range' k hosts.length).flatMap
        (fun i => [(SweepStep.probe, i), (SweepStep.commit, i)]) := by
  induction hosts generalizing k with
  | nil => simp [Background.sweepLog]
  | cons x xs ih => simp [Background.sweepLog, ih, List.range'_succ]

theorem background_sweepLog_probes (replies : Nat → ProbeReply) (clock : Nat → Nat) (k : Nat)
    (hosts : List HostRecord) :
    (probesOf (Background.sweepLog replies clock k hosts)).map (fun e => (e.index, e.host.ip)) =
      (hosts.enumFrom k).map (fun p => (p.1, p.2.ip)) := by
  induction hosts generalizing k with
  | nil => simp [Background.sweepLog, probesOf]
  | cons x xs ih =>
    have := ih (k + 1)
    simp only [probesOf] at this
    simp [Background.sweepLog, probesOf, List.filter_cons, this]

theorem background_sweepLog_commits (replies : Nat → ProbeReply) (clock : Nat → Nat)
    (k : Nat) (hosts : List HostRecord) :
    (commitsOf (Background.sweepLog replies clock k hosts)).map (fun e => e.host) =
      sweepItems Background.commitHealth replies clock k hosts := by
  induction hosts generalizing k with
  | nil => simp [Background.sweepLog, commitsOf, sweepItems]
  | cons x xs ih =>
    have := ih (k + 1)
    simp only [commitsOf] at this
    simp [Background.sweepLog, commitsOf, List.filter_cons, this, sweepItems]

theorem background_sweepLog_commit_indices (replies : Nat → ProbeReply) (clock : Nat → Nat)
    (k : Nat) (hosts : List HostRecord) :
    (commitsOf (Background.sweepLog replies clock k hosts)).map (fun e => e.index) =
      List.range' k hosts.length := by
  induction hosts generalizing k with
  | nil => simp [Background.sweepLog, commitsOf]
  | cons x xs ih =>
    have := ih (k + 1)
    simp only [commitsOf] at this
    simp [Background.sweepLog, commitsOf, List.filter_cons, this, List.range'_succ]

/-- C14. For every document, every behaviour of the prober (a reply, no reply, or an
exception, host by host) and every clock, the popup sweep, when enabled, and the
background sweep take their steps host by host in document order: for host 0 all its
steps, then for host 1, and so on, the commit of a host coming before the probe of the
next.  Each host is probed once, at its own address; there are exactly as many commits
as hosts, in document order; the committed records are the hosts of the document the
sweep leaves; and every one of them has the status `online` or `offline`.  A probe
that throws is committed as `offline` like any other and the loop goes on. -/
theorem sweep_commits_every_host (data : Document) (replies : Nat → ProbeReply)
    (clock : Nat → Nat) :
    ((performHealthChecksLog true data replies clock).map (fun e => (e.step, e.index)) =
        (List.range (allHosts data).length).flatMap
          (fun k => [(SweepStep.checking, k), (SweepStep.probe, k), (SweepStep.commit, k)]) ∧
      (probesOf (performHealthChecksLog true data replies clock)).map
          (fun e => (e.index, e.host.ip)) = (allHosts data).enum.map (fun p => (p.1, p.2.ip)) ∧
      (commitsOf (performHealthChecksLog true data replies clock)).map (fun e => e.index) =
        List.range (allHosts data).length ∧
      (commitsOf (performHealthChecksLog true data replies clock)).map (fun e => e.host) =
        allHosts (performHealthChecks true data replies clock) ∧
      ∀ h ∈ allHosts (performHealthChecks true data replies clock),
        IsTerminal h.healthStatus) ∧
    ((Background.performHealthChecksLog data replies clock).map (fun e => (e.step, e.index)) =
        (List.range (allHosts data).length).flatMap
          (fun k => [(SweepStep.probe, k), (SweepStep.commit, k)]) ∧
      (probesOf (Background.performHealthChecksLog data replies clock)).map
          (fun e => (e.index, e.host.ip)) = (allHosts data).enum.map (fun p => (p.1, p.2.ip)) ∧
      (commitsOf (Background.performHealthChecksLog data replies clock)).map
          (fun e => e.index) = List.range (allHosts data).length ∧
      (commitsOf (Background.performHealthChecksLog data replies clock)).map
          (fun e => e.host) = allHosts (Background.performHealthChecks data replies clock) ∧
      ∀ h ∈ allHosts (Background.performHealthChecks data replies clock),
        IsTerminal h.healthStatus) := by
  have hpop : allHosts (performHealthChecks true data replies clock) =
      sweepItems commitHealth replies clock 0 (allHosts data) := by
    simp [performHealthChecks, allHosts, allHosts_sweepEnvs]
  have hbg : allHosts (Background.performHealthChecks data replies clock) =
      sweepItems Background.commitHealth replies clock 0 (allHosts data) := by
    simp [Background.performHealthChecks, allHosts, allHosts_sweepEnvs]
  refine ⟨⟨?_, ?_, ?_, ?_, ?_⟩, ⟨?_, ?_, ?_, ?_, ?_⟩⟩
  · simp only [performHealthChecksLog, if_true, sweepLog_steps, List.range_eq_range']
  · simp only [performHealthChecksLog, if_true, sweepLog_probes, List.enum]
  · simp only [performHealthChecksLog, if_true, sweepLog_commit_indices,
      List.range_eq_range']
  · rw [hpop]
    simp only [performHealthChecksLog, if_true, sweepLog_commits]
  · rw [hpop]
    exact sweepItems_terminal commitHealth commitHealth_terminal replies clock 0 _
  · simp only [Background.performHealthChecksLog, background_sweepLog_steps,
      List.range_eq_range']
  · simp only [Background.performHealthChecksLog, background_sweepLog_probes, List.enum]
  · simp only [Background.performHealthChecksLog, background_sweepLog_commit_indices,
      List.range_eq_range']
  · rw [hbg]
    simp only [Background.performHealthChecksLog, background_sweepLog_commits]
  · rw [hbg]
    exact sweepItems_terminal Background.commitHealth background_commitHealth_terminal
      replies clock 0 _

/-- Witness of C14: three hosts, the probe of the last one throws. -/
theorem sweep_commits_every_host_witness :
    (allHosts threeHostDoc).length = 3 ∧ sampleReplies 2 = ProbeReply.thrown ∧
      (commitsOf (performHealthChecksLog true threeHostDoc sampleReplies
        (fun k => 1000 + k))).map (fun e => e.index) = List.range (allHosts threeHostDoc).length ∧
      (commitsOf (Background.performHealthChecksLog threeHostDoc sampleReplies
        (fun k => 1000 + k))).map (fun e => e.index) = List.range (allHosts threeHostDoc).length :=
  ⟨by decide, by decide,
    (sweep_commits_every_host threeHostDoc sampleReplies (fun k => 1000 + k)).1.2.2.1,
    (sweep_commits_every_host threeHostDoc sampleReplies (fun k => 1000 + k)).2.2.2.1⟩

theorem sweepLog_getElem? (replies : Nat → ProbeReply) (clock : Nat → Nat) (k j : Nat)
    (hosts : List HostRecord) (host : HostRecord) (hj : hosts[j]? = some host) :
    (sweepLog replies clock k hosts)[3 * j]? =
        some ⟨.checking, k + j, { host with healthStatus := some "checking" }⟩ ∧
      (sweepLog replies clock k hosts)[3 * j + 1]? =
        some ⟨.probe, k + j, { host with healthStatus := some "checking" }⟩ ∧
      (sweepLog replies clock k hosts)[3 * j + 2]? =
        some ⟨.commit, k + j, commitHealth host (replies (k + j)) (clock (k + j))⟩ := by
  induction hosts generalizing k j with
  | nil => simp at hj
  | cons x xs ih =>
    cases j with
    | zero =>
      simp only [List.getElem?_cons_zero, Option.some.injEq] at hj
      subst hj
      simp [sweepLog, commitHealth_checking]
    | succ j =>
      simp only [List.getElem?_cons_succ] at hj
      obtain ⟨h1, h2, h3⟩ := ih (k + 1) j hj
      have e1 : 3 * (j + 1) = 3 * j + 1 + 1 + 1 := by omega
      have e2 : 3 * (j + 1) + 1 = 3 * j + 1 + 1 + 1 + 1 := by omega
      have e3 : 3 * (j + 1) + 2 = 3 * j + 2 + 1 + 1 + 1 := by omega
      have e4 : k + 1 + j = k + (j + 1) := by omega
      rw [e4] at h1 h2 h3
      rw [e2, e3, e1]
      simp only [sweepLog, List.getElem?_cons_succ]
      exact ⟨h1, h2, h3⟩

theorem background_sweepLog_getElem? (replies : Nat → ProbeReply) (clock : Nat → Nat)
    (k j : Nat) (hosts : List HostRecord) (host : HostRecord) (hj : hosts[j]? = some host) :
    (Background.sweepLog replies clock k hosts)[2 * j]? = some ⟨.probe, k + j, host⟩ ∧
      (Background.sweepLog replies clock k hosts)[2 * j + 1]? =
        some ⟨.commit, k + j,
          Background.commitHealth host (replies (k + j)) (clock (k + j))⟩ := by
  induction hosts generalizing k j with
  | nil => simp at hj
  | cons x xs ih =>
    cases j with
    | zero =>
      simp only [List.getElem?_cons_zero, Option.some.injEq] at hj
      subst hj
      simp [Background.sweepLog]
    | succ j =>
      simp only [List.getElem?_cons_succ] at hj
      obtain ⟨h1, h2⟩ := ih (k + 1) j hj
      have e1 : 2 * (j + 1) = 2 * j + 1 + 1 := by omega
      have e2 : 2 * (j + 1) + 1 = 2 * j + 1 + 1 + 1 := by omega
      have e4 : k + 1 + j = k + (j + 1) := by omega
      rw [e4] at h1 h2
      rw [e2, e1]
      simp only [Background.sweepLog, List.getElem?_cons_succ]
      exact ⟨h1, h2⟩

/-- C15, counterexample. (1) Background sweep of three hosts: its steps are a probe and
a commit per host and no write of `checking`; when the second host is probed its
status is the stored `online`.  (2) Popup sweep of the same hosts: the probe of the
first host returns the method `https` and that of the second `all-failed`, but after
the sweep the first host has no `healthMethod` and the second still has the old
`http`. -/
theorem sweeps_skip_checking_or_method :
    ((Background.performHealthChecksLog threeHostDoc sampleReplies (fun k => 1000 + k)).map
        (fun e => (e.step, e.index, e.host.healthStatus)) =
      [(.probe, 0, none), (.commit, 0, some "online"),
       (.probe, 1, some "online"), (.commit, 1, some "offline"),
       (.probe, 2, none), (.commit, 2, some "offline")]) ∧
    (sampleReplies 0 = .result ⟨true, some 12, "online", some "https"⟩ ∧
      sampleReplies 1 = .result ⟨false, none, "offline", some "all-failed"⟩ ∧
      (allHosts threeHostDoc).map (fun h => h.healthMethod) = [none, some "http", none] ∧
      (allHosts (performHealthChecks true threeHostDoc sampleReplies
        (fun k => 1000 + k))).map (fun h => (h.healthStatus, h.healthMethod)) =
        [(some "online", none), (some "offline", some "http"), (some "offline", none)]) := by
  decide

/-- C15, amended. Let `host` be host number `k` of the document.  In the popup sweep
(enabled) its three steps are, in this order, the write of `checking`, the probe, sent
while the record has the status `checking`, and the commit.  In the background sweep
its two steps are the probe, sent with the record as stored, and the commit.  In both,
the committed record is the host number `k` of the document the sweep leaves; its
status is `online` exactly when the probe replied with success and `offline` otherwise;
its last-check time is the clock value read at the commit; and when it is `online` its
response time is the one of the reply.  In the background sweep its `healthMethod` is
the method of the reply, or `error` when the probe gave no result. -/
theorem sweep_steps_and_writes (data : Document) (replies : Nat → ProbeReply)
    (clock : Nat → Nat) (k : Nat) (host : HostRecord)
    (hk : (allHosts data)[k]? = some host) :
    (∃ committed : HostRecord,
      (performHealthChecksLog true data replies clock)[3 * k]? =
        some ⟨.checking, k, { host with healthStatus := some "checking" }⟩ ∧
      (performHealthChecksLog true data replies clock)[3 * k + 1]? =
        some ⟨.probe, k, { host with healthStatus := some "checking" }⟩ ∧
      (performHealthChecksLog true data replies clock)[3 * k + 2]? =
        some ⟨.commit, k, committed⟩ ∧
      (allHosts (performHealthChecks true data replies clock))[k]? = some committed ∧
      (committed.healthStatus = some "online" ∨ committed.healthStatus = some "offline") ∧
      (committed.healthStatus = some "online" ↔
        ∃ r, replies k = .result r ∧ r.success = true) ∧
      committed.lastHealthCheck = some (clock k) ∧
      (∀ r, replies k = .result r → r.success = true →
        committed.responseTime = r.responseTime)) ∧
    (∃ committed : HostRecord,
      (Background.performHealthChecksLog data replies clock)[2 * k]? =
        some ⟨.probe, k, host⟩ ∧
      (Background.performHealthChecksLog data replies clock)[2 * k + 1]? =
        some ⟨.commit, k, committed⟩ ∧
      (allHosts (Background.performHealthChecks data replies clock))[k]? = some committed ∧
      (committed.healthStatus = some "online" ∨ committed.healthStatus = some "offline") ∧
      (committed.healthStatus = some "online" ↔
        ∃ r, replies k = .result r ∧ r.success = true) ∧
      committed.lastHealthCheck = some (clock k) ∧
      (∀ r, replies k = .result r → r.success = true →
        committed.responseTime = r.responseTime) ∧
      (∀ r, replies k = .result r → committed.healthMethod = r.method) ∧
      ((∀ r, replies k ≠ .result r) → committed.healthMethod = some "error")) := by
  have hpop : allHosts (performHealthChecks true data replies clock) =
      sweepItems commitHealth replies clock 0 (allHosts data) := by
    simp [performHealthChecks, allHosts, allHosts_sweepEnvs]
  have hbg : allHosts (Background.performHealthChecks data replies clock) =
      sweepItems Background.commitHealth replies clock 0 (allHosts data) := by
    simp [Background.performHealthChecks, allHosts, allHosts_sweepEnvs]
  constructor
  · obtain ⟨h1, h2, h3⟩ := sweepLog_getElem? replies clock 0 k (allHosts data) host hk
    simp only [Nat.zero_add] at h1 h2 h3
    refine ⟨commitHealth host (replies k) (clock k), ?_, ?_, ?_, ?_, ?_, ?_, ?_, ?_⟩
    · simpa [performHealthChecksLog] using h1
    · simpa [performHealthChecksLog] using h2
    · simpa [performHealthChecksLog] using h3
    · rw [hpop, sweepItems_getElem?, hk]
      simp
    · exact commitHealth_terminal _ _ _
    · cases hr : replies k with
      | result r => cases hs : r.success <;> simp [commitHealth, hs]
      | undefined => simp [commitHealth]
      | thrown => simp [commitHealth]
    · cases hr : replies k with
      | result r => cases hs : r.success <;> simp [commitHealth, hs]
      | undefined => simp [commitHealth]
      | thrown => simp [commitHealth]
    · intro r hr hs
      simp [commitHealth, hr, hs]
  · obtain ⟨h1, h2⟩ := background_sweepLog_getElem? replies clock 0 k (allHosts data) host hk
    simp only [Nat.zero_add] at h1 h2
    refine ⟨Background.commitHealth host (replies k) (clock k), ?_, ?_, ?_, ?_, ?_, ?_, ?_,
      ?_, ?_⟩
    · simpa [Background.performHealthChecksLog] using h1
    · simpa [Background.performHealthChecksLog] using h2
    · rw [hbg, sweepItems_getElem?, hk]
      simp
    · exact background_commitHealth_terminal _ _ _
    · cases hr : replies k with
      | result r => cases hs : r.success <;> simp [Background.commitHealth, hs]
      | undefined => simp [Background.commitHealth]
      | thrown => simp [Background.commitHealth]
    · cases hr : replies k with
      | result r => cases hs : r.success <;> simp [Background.commitHealth, hs]
      | undefined => simp [Background.commitHealth]
      | thrown => simp [Background.commitHealth]
    · intro r hr hs
      simp [Background.commitHealth, hr, hs]
    · intro r hr
      cases hs : r.success <;> simp [Background.commitHealth, hr, hs]
    · intro hno
      cases hr : replies k with
      | result r => exact absurd hr (hno r)
      | undefined => simp [Background.commitHealth]
      | thrown => simp [Background.commitHealth]

/-- Witness of C15 (amended): the second of the three sample hosts. -/
theorem sweep_steps_and_writes_witness :
    (allHosts threeHostDoc)[1]? = some seenHost ∧
      ∃ committed : HostRecord,
        (Background.performHealthChecksLog threeHostDoc sampleReplies
          (fun k => 1000 + k))[2 * 1 + 1]? = some ⟨.commit, 1, committed⟩ ∧
        committed.lastHealthCheck = some 1001 :=
  ⟨by decide,
    let ⟨c, _, h2, _, _, _, h6, _⟩ :=
      (sweep_steps_and_writes threeHostDoc sampleReplies (fun k => 1000 + k) 1 seenHost
        (by decide)).2
    ⟨c, h2, h6⟩⟩

theorem sweepEnvs_length (commit : HostRecord → ProbeReply → Nat → HostRecord)
    (replies : Nat → ProbeReply) (clock : Nat → Nat) (k : Nat) (envs : List Environment) :
    (sweepEnvs commit replies clock k envs).length = envs.length := by
  induction envs generalizing k with
  | nil => simp [sweepEnvs]
  | cons e es ih => simp [sweepEnvs, ih]

theorem sweepEnvs_getElem? (commit : HostRecord → ProbeReply → Nat → HostRecord)
    (replies : Nat → ProbeReply) (clock : Nat → Nat) (k i : Nat) (envs : List Environment)
    (env : Environment) (hi : envs[i]? = some env) :
    ∃ k', (sweepEnvs commit replies clock k envs)[i]? =
      some { env with items := sweepItems commit replies clock k' env.items } := by
  induction envs generalizing k i with
  | nil => simp at hi
  | cons e es ih =>
    cases i with
    | zero =>
      simp only [List.getElem?_cons_zero, Option.some.injEq] at hi
      subst hi
      exact ⟨k, by simp [sweepEnvs]⟩
    | succ i =>
      simp only [List.getElem?_cons_succ] at hi
      obtain ⟨k', hk'⟩ := ih (k + e.items.length) i hi
      exact ⟨k', by simpa [sweepEnvs] using hk'⟩

theorem commitHealth_frame (h : HostRecord) (r : ProbeReply) (n : Nat) :
    SameIdentity (commitHealth h r n) h ∧
      ((commitHealth h r n).healthStatus = some "offline" →
        (commitHealth h r n).responseTime = h.responseTime) := by
  unfold commitHealth SameIdentity
  split
  · split <;> simp
  · simp
  · simp

theorem background_commitHealth_frame (h : HostRecord) (r : ProbeReply) (n : Nat) :
    SameIdentity (Background.commitHealth h r n) h ∧
      ((Background.commitHealth h r n).healthStatus = some "offline" →
        (Background.commitHealth h r n).responseTime = h.responseTime) := by
  unfold Background.commitHealth SameIdentity
  split
  · split <;> simp
  · simp
  · simp

theorem sweepEnvs_frame (commit : HostRecord → ProbeReply → Nat → HostRecord)
    (hframe : ∀ h r n, SameIdentity (commit h r n) h ∧
      ((commit h r n).healthStatus = some "offline" →
        (commit h r n).responseTime = h.responseTime))
    (replies : Nat → ProbeReply) (clock : Nat → Nat) (envs : List Environment)
    (k : Nat) (env : Environment) (hk : envs[k]? = some env) :
    ∃ env' : Environment, (sweepEnvs commit replies clock 0 envs)[k]? = some env' ∧
      env'.id = env.id ∧ env'.name = env.name ∧ env'.items.length = env.items.length ∧
      ∀ (j : Nat) (h : HostRecord), env.items[j]? = some h →
        ∃ h' : HostRecord, env'.items[j]? = some h' ∧ SameIdentity h' h ∧
          (h'.healthStatus = some "offline" → h'.responseTime = h.responseTime) := by
  obtain ⟨k', hk'⟩ := sweepEnvs_getElem? commit replies clock 0 k envs env hk
  refine ⟨_, hk', rfl, rfl, sweepItems_length _ _ _ _ _, ?_⟩
  intro j h hj
  refine ⟨commit h (replies (k' + j)) (clock (k' + j)), ?_, hframe _ _ _⟩
  simp [sweepItems_getElem?, hj]

/-- C20. After the popup sweep (enabled or not) and after the background sweep, whatever
the prober does: the version, the number and order of the environments, the id and the
name of each environment, and the length and order of each host list are as before;
the host at each position has the id, name, ip, port, rdpUser, environment, tags,
notes and pinned value it had, so that only `healthStatus`, `lastHealthCheck`,
`responseTime` and `healthMethod` can differ; and a host whose status is now `offline`
has the response time that was stored before. -/
theorem sweep_changes_health_only (enableHealthProbe : Bool) (data : Document)
    (replies : Nat → ProbeReply) (clock : Nat → Nat) :
    ∀ d ∈ [performHealthChecks enableHealthProbe data replies clock,
           Background.performHealthChecks data replies clock],
      d.version = data.version ∧ d.envs.length = data.envs.length ∧
        ∀ (k : Nat) (env : Environment), data.envs[k]? = some env →
          ∃ env' : Environment, d.envs[k]? = some env' ∧
            env'.id = env.id ∧ env'.name = env.name ∧
            env'.items.length = env.items.length ∧
            ∀ (j : Nat) (h : HostRecord), env.items[j]? = some h →
              ∃ h' : HostRecord, env'.items[j]? = some h' ∧ SameIdentity h' h ∧
                (h'.healthStatus = some "offline" → h'.responseTime = h.responseTime) := by
  intro d hd
  simp only [List.mem_cons, List.mem_singleton, List.mem_nil_iff, or_false] at hd
  rcases hd with rfl | rfl
  · cases enableHealthProbe with
    | false =>
      refine ⟨rfl, rfl, ?_⟩
      intro k env hk
      refine ⟨env, by simpa [performHealthChecks] using hk, rfl, rfl, rfl, ?_⟩
      intro j h hj
      exact ⟨h, hj, ⟨rfl, rfl, rfl, rfl, rfl, rfl, rfl, rfl, rfl⟩, fun _ => rfl⟩
    | true =>
      refine ⟨rfl, by simp [performHealthChecks, sweepEnvs_length], ?_⟩
      intro k env hk
      simpa [performHealthChecks] using
        sweepEnvs_frame commitHealth commitHealth_frame replies clock data.envs k env hk
  · refine ⟨rfl, by simp [Background.performHealthChecks, sweepEnvs_length], ?_⟩
    intro k env hk
    simpa [Background.performHealthChecks] using
      sweepEnvs_frame Background.commitHealth background_commitHealth_frame replies clock
        data.envs k env hk

end IPManager

namespace IPManager

/-! ## The address-bar lookup -/

/-- C16, the code at the failing input. The host with id `h1` is named `web` and comes
first; the next host has the id `web`.  For the text `web` the lookup returns the first
host, matched by its name, although a host whose id is exactly the text exists. -/
theorem findTargetHost_returns_earlier_name_match :
    nameFirstDoc.envs.map (fun e => e.items.map (fun h => (h.id, h.name)))
        = [[("h1", "web"), ("web", "db")]] ∧
      (Background.findTargetHost asciiLower "web" nameFirstDoc.envs).map
        (fun h => (h.id, h.name)) = some ("h1", "web") ∧
      Background.inputEntered asciiLower (some nameFirstDoc) "web" = some "http://10.0.0.1" := by
  decide

end IPManager

namespace Background

open IPManager

/-! ## The context-menu check -/

theorem mem_oneOf (cs : List Char) (x : List Char) :
    x ∈ (oneOf cs).matches' ↔ ∃ c ∈ cs, x = [c] := by
  induction cs with
  | nil =>
    simp only [oneOf, List.foldr_nil, List.not_mem_nil, false_and, exists_false, iff_false]
    exact Language.not_mem_zero x
  | cons a as ih =>
    have : oneOf (a :: as) = RegularExpression.char a + oneOf as := rfl
    rw [this, RegularExpression.matches'_add, Language.mem_add, ih,
      RegularExpression.matches'_char]
    constructor
    · rintro (h | ⟨c, hc, rfl⟩)
      · exact ⟨a, by simp, h⟩
      · exact ⟨c, by simp [hc], rfl⟩
    · rintro ⟨c, hc, rfl⟩
      rcases List.mem_cons.1 hc with rfl | hc
      · exact Or.inl rfl
      · exact Or.inr ⟨c, hc, rfl⟩

theorem isDigit_iff (c : Char) : c.isDigit = true ↔ 48 ≤ c.toNat ∧ c.toNat ≤ 57 := by
  simp [Char.isDigit, Char.toNat, UInt32.le_def, BitVec.le_def, UInt32.toNat]

theorem toNat_digitChar (d : Nat) (hd : d ≤ 9) : (Char.ofNat (48 + d)).toNat = 48 + d := by
  interval_cases d <;> rfl

theorem mem_digits_upto (c : Char) (n : Nat) (hn : n ≤ 9) :
    c ∈ (List.range (n + 1)).map (fun d => Char.ofNat (48 + d)) ↔
      48 ≤ c.toNat ∧ c.toNat ≤ 48 + n := by
  constructor
  · intro h
    obtain ⟨d, hd, rfl⟩ := List.mem_map.1 h
    have hd' := List.mem_range.1 hd
    rw [toNat_digitChar d (by omega)]
    omega
  · rintro ⟨h1, h2⟩
    refine List.mem_map.2 ⟨c.toNat - 48, List.mem_range.2 (by omega), ?_⟩
    have : 48 + (c.toNat - 48) = c.toNat := by omega
    rw [this, Char.ofNat_toNat]

theorem char_eq_of_toNat (c : Char) (n : Nat) (h : c.toNat = n) : c = Char.ofNat n := by
  rw [← h, Char.ofNat_toNat]

theorem mem_class_09 (c : Char) :
    c ∈ ['0', '1', '2', '3', '4', '5', '6', '7', '8', '9'] ↔ 48 ≤ c.toNat ∧ c.toNat ≤ 57 :=
  mem_digits_upto c 9 (by omega)

theorem mem_class_05 (c : Char) :
    c ∈ ['0', '1', '2', '3', '4', '5'] ↔ 48 ≤ c.toNat ∧ c.toNat ≤ 53 :=
  mem_digits_upto c 5 (by omega)

theorem mem_class_04 (c : Char) :
    c ∈ ['0', '1', '2', '3', '4'] ↔ 48 ≤ c.toNat ∧ c.toNat ≤ 52 :=
  mem_digits_upto c 4 (by omega)

theorem mem_class_01 (c : Char) : c ∈ ['0', '1'] ↔ 48 ≤ c.toNat ∧ c.toNat ≤ 49 :=
  mem_digits_upto c 1 (by omega)

theorem mem_char (a : Char) (x : List Char) :
    x ∈ (RegularExpression.char a).matches' ↔ x = [a] := by
  rw [RegularExpression.matches'_char]
  rfl

theorem mem_optional (r : RegularExpression Char) (x : List Char) :
    x ∈ (optional r).matches' ↔ x = [] ∨ x ∈ r.matches' := by
  unfold optional
  rw [RegularExpression.matches'_add, Language.mem_add, RegularExpression.matches'_epsilon,
    Language.mem_one]

theorem mem_digitClass (x : List Char) :
    x ∈ digitClass.matches' ↔ ∃ c, x = [c] ∧ 48 ≤ c.toNat ∧ c.toNat ≤ 57 := by
  unfold digitClass
  rw [mem_oneOf]
  constructor
  · rintro ⟨c, hc, rfl⟩
    exact ⟨c, rfl, (mem_class_09 c).1 hc⟩
  · rintro ⟨c, rfl, hc⟩
    exact ⟨c, (mem_class_09 c).2 hc, rfl⟩

theorem mem_octetRegex (g : List Char) : g ∈ octetRegex.matches' ↔ IsOctetText g := by
  unfold octetRegex IsOctetText
  simp only [RegularExpression.matches'_add, RegularExpression.matches'_mul, Language.mem_add,
    Language.mem_mul, mem_char, mem_optional, mem_digitClass, mem_oneOf, mem_class_01,
    mem_class_04, mem_class_05, isDigit_iff]
  constructor
  · rintro ((⟨_, ⟨_, rfl, _, rfl, rfl⟩, _, ⟨c, hc, rfl⟩, rfl⟩ |
        ⟨_, ⟨_, rfl, _, ⟨b, hb, rfl⟩, rfl⟩, _, ⟨c, rfl, hc⟩, rfl⟩) |
        ⟨_, ⟨_, (rfl | ⟨a, ha, rfl⟩), _, ⟨b, rfl, hb⟩, rfl⟩, _, (rfl | ⟨c, rfl, hc⟩), rfl⟩)
    all_goals
      simp only [List.append_assoc, List.singleton_append, List.nil_append, List.append_nil, List.cons_append,
        List.length_cons, List.length_nil, List.mem_cons, List.mem_singleton, List.not_mem_nil,
        or_false, forall_eq_or_imp, forall_eq, decimalValue, List.foldl_cons, List.foldl_nil,
        Char.reduceToNat]
      omega
  · rintro ⟨h1, h2, hdig, hval⟩
    rcases g with _ | ⟨a, _ | ⟨b, _ | ⟨c, _ | ⟨d, rest⟩⟩⟩⟩
    · simp at h1
    · have ha := hdig a (by simp)
      right
      exact ⟨[a], ⟨[], Or.inl rfl, [a], ⟨a, rfl, ha⟩, rfl⟩, [], Or.inl rfl, rfl⟩
    · have ha := hdig a (by simp)
      have hb := hdig b (by simp)
      right
      exact ⟨[a], ⟨[], Or.inl rfl, [a], ⟨a, rfl, ha⟩, rfl⟩, [b], Or.inr ⟨b, rfl, hb⟩, rfl⟩
    · have ha := hdig a (by simp)
      have hb := hdig b (by simp)
      have hc := hdig c (by simp)
      simp only [decimalValue, List.foldl_cons, List.foldl_nil] at hval
      by_cases ha1 : a.toNat ≤ 49
      · right
        exact ⟨[a, b], ⟨[a], Or.inr ⟨a, ⟨ha.1, ha1⟩, rfl⟩, [b], ⟨b, rfl, hb⟩, rfl⟩, [c],
          Or.inr ⟨c, rfl, hc⟩, rfl⟩
      · have ha2 : a = '2' := char_eq_of_toNat a 50 (by omega)
        subst ha2
        by_cases hb4 : b.toNat ≤ 52
        · left; right
          exact ⟨['2', b], ⟨['2'], rfl, [b], ⟨b, ⟨hb.1, hb4⟩, rfl⟩, rfl⟩, [c], ⟨c, rfl, hc⟩, rfl⟩
        · have hb5 : b = '5' := char_eq_of_toNat b 53 (by
            simp only [Char.reduceToNat] at hval
            omega)
          subst hb5
          left; left
          refine ⟨['2', '5'], ⟨['2'], rfl, ['5'], rfl, rfl⟩, [c], ⟨c, ⟨hc.1, ?_⟩, rfl⟩, rfl⟩
          simp only [Char.reduceToNat] at hval
          omega
    · simp at h2

theorem ipRegex_rmatch_iff (cs : List Char) : ipRegex.rmatch cs = true ↔ IsDottedQuad cs := by
  rw [RegularExpression.rmatch_iff_matches']
  unfold ipRegex IsDottedQuad
  simp only [RegularExpression.matches'_mul, Language.mem_mul, mem_char, mem_octetRegex]
  constructor
  · rintro ⟨_, ⟨_, ⟨_, ⟨a, ha, _, rfl, rfl⟩, _, ⟨b, hb, _, rfl, rfl⟩, rfl⟩, _,
      ⟨c, hc, _, rfl, rfl⟩, rfl⟩, d, hd, rfl⟩
    exact ⟨a, b, c, d, ha, hb, hc, hd, by simp⟩
  · rintro ⟨a, b, c, d, ha, hb, hc, hd, rfl⟩
    exact ⟨_, ⟨_, ⟨_, ⟨a, ha, _, rfl, rfl⟩, _, ⟨b, hb, _, rfl, rfl⟩, rfl⟩, _,
      ⟨c, hc, _, rfl, rfl⟩, rfl⟩, d, hd, by simp⟩

/-- C19. For every selected text, the listener of the menu item `addIpToManager` accepts
the text, trimmed, if and only if the trimmed text is made of exactly four groups
separated by single dots, each group being one to three decimal digits with a value
from 0 to 255 (leading zeros allowed); it rejects every other text.  So a text with
leading zeros and white space around it is accepted, and a group above 255, a fifth
group, an empty group and an extra character are rejected. -/
theorem contextMenuClicked_accepts_iff (selectionText : String) :
    (contextMenuClicked "addIpToManager" selectionText = .accepted (trim selectionText) ↔
        IsDottedQuad (trim selectionText).data) ∧
      (¬ IsDottedQuad (trim selectionText).data →
        contextMenuClicked "addIpToManager" selectionText = .rejected) ∧
      contextMenuClicked "addIpToManager" " 192.168.001.1\n" = .accepted "192.168.001.1" ∧
      contextMenuClicked "addIpToManager" "1.2.3.256" = .rejected ∧
      contextMenuClicked "addIpToManager" "1.2.3.4.5" = .rejected ∧
      contextMenuClicked "addIpToManager" "1..3.4" = .rejected ∧
      contextMenuClicked "addIpToManager" "1.2.3.4x" = .rejected := by
  have hstep : contextMenuClicked "addIpToManager" selectionText =
      if ipRegex.rmatch (trim selectionText).data = true then
        .accepted (trim selectionText) else .rejected := by
    unfold contextMenuClicked
    rw [if_pos rfl]
  refine ⟨?_, ?_, by decide, by decide, by decide, by decide, by decide⟩
  · rw [hstep]
    by_cases h : ipRegex.rmatch (trim selectionText).data = true
    · rw [if_pos h]
      exact ⟨fun _ => (ipRegex_rmatch_iff _).1 h, fun _ => rfl⟩
    · rw [if_neg h]
      exact ⟨fun hacc => MenuOutcome.noConfusion hacc,
        fun hq => absurd ((ipRegex_rmatch_iff _).2 hq) h⟩
  · intro hq
    rw [hstep, if_neg (fun h => hq ((ipRegex_rmatch_iff _).1 h))]

end Background

namespace Background

open IPManager

/-- Witness of C12: only the sixth call, to port 443, succeeds. -/
theorem performHealthCheck_first_success_witness :
    (performHealthCheck (onlyCall 5) (fun k => 100 * k) "10.0.0.1").result.method
        = some "port-443" ∧
      (performHealthCheck (onlyCall 5) (fun k => 100 * k) "10.0.0.1").attempts
        = (plannedAttempts "10.0.0.1").take 6 :=
  ((performHealthCheck_first_success (onlyCall 5) (fun k => 100 * k) "10.0.0.1").2.2 5
    ⟨"http://10.0.0.1:443", 2000⟩ (by decide) (by decide)
    (by intro j b hj _; simp only [onlyCall, beq_eq_false_iff_ne]; omega)).2

/-- Witness of C20: the three sample hosts after the background sweep. -/
theorem sweep_changes_health_only_witness :
    (Background.performHealthChecks threeHostDoc sampleReplies (fun k => 1000 + k)).envs.length
      = threeHostDoc.envs.length :=
  (sweep_changes_health_only true threeHostDoc sampleReplies (fun k => 1000 + k) _
    (List.mem_cons_of_mem _ (List.mem_cons_self _ _))).2.1

end Background

namespace Background

open IPManager

/-! ## The address-bar suggestions -/

/-- The positions taken by `(xs.filter p).take n`: an increasing list of positions of `xs`
that hold, one by one, the elements of the result, and that leaves out a position with a
matching element only when the result is full and the position comes after all of them. -/
theorem take_filter_positions {α : Type} (p : α → Bool) (xs : List α) (n : Nat) :
    ∃ idx : List Nat,
      idx.Sorted (· < ·) ∧
      List.Forall₂ (fun i x => xs[i]? = some x ∧ p x = true) idx ((xs.filter p).take n) ∧
      ∀ i x, xs[i]? = some x → p x = true → i ∉ idx →
        ((xs.filter p).take n).length = n ∧ ∀ j ∈ idx, j < i := by
  have hE : (xs.enum.filter (fun q => p q.2)).map Prod.snd = xs.filter p := by
    have := List.filter_map (f := Prod.snd) (p := p) (l := xs.enum)
    rw [List.enum_map_snd] at this
    rw [this]; rfl
  have hsorted : ((xs.enum.filter (fun q => p q.2)).map Prod.fst).Sorted (· < ·) := by
    have h1 : List.Sublist ((xs.enum.filter (fun q => p q.2)).map Prod.fst)
        (xs.enum.map Prod.fst) :=
      (List.filter_sublist _).map _
    rw [List.enum_map_fst] at h1
    exact (List.pairwise_lt_range _).sublist h1
  refine ⟨((xs.enum.filter (fun q => p q.2)).take n).map Prod.fst, ?_, ?_, ?_⟩
  · rw [List.map_take]
    exact List.Pairwise.sublist (List.take_sublist _ _) hsorted
  · rw [← hE, ← List.map_take, List.forall₂_map_left_iff, List.forall₂_map_right_iff,
      List.forall₂_same]
    intro q hq
    have hq2 := List.mem_of_mem_take hq
    rw [List.mem_filter] at hq2
    obtain ⟨i, x⟩ := q
    exact ⟨List.mk_mem_enum_iff_getElem?.1 hq2.1, hq2.2⟩
  · intro i x hix hpx hni
    have hmemF : (i, x) ∈ xs.enum.filter (fun q => p q.2) :=
      List.mem_filter.2 ⟨List.mk_mem_enum_iff_getElem?.2 hix, hpx⟩
    have hnotT : (i, x) ∉ (xs.enum.filter (fun q => p q.2)).take n := fun h =>
      hni (List.mem_map.2 ⟨(i, x), h, rfl⟩)
    rw [← List.take_append_drop n (xs.enum.filter (fun q => p q.2)), List.mem_append] at hmemF
    have hD : (i, x) ∈ (xs.enum.filter (fun q => p q.2)).drop n := hmemF.resolve_left hnotT
    constructor
    · rw [← hE, ← List.map_take, List.length_map, List.length_take]
      have : 0 < ((xs.enum.filter (fun q => p q.2)).drop n).length := List.length_pos_of_mem hD
      rw [List.length_drop] at this
      omega
    · intro j hj
      obtain ⟨q, hq, rfl⟩ := List.mem_map.1 hj
      have hs := hsorted
      rw [← List.take_append_drop n (xs.enum.filter (fun q => p q.2)), List.map_append] at hs
      exact (List.pairwise_append.1 hs).2.2 q.1 (List.mem_map.2 ⟨q, hq, rfl⟩) i
        (List.mem_map.2 ⟨(i, x), hD, rfl⟩)

/-- The array `allHosts` of the listener holds one entry per host of the document, in the
order of the hosts. -/
theorem omnibox_allHosts_eq (data : Document) :
    Omnibox.allHosts data = (IPManager.allHosts data).map (fun item =>
      { content := item.id, description := item.name ++ " - " ++ item.ip }) := by
  simp [Omnibox.allHosts, IPManager.allHosts, List.map_flatMap]

/-- The suggestions are the entries of the first five hosts that pass the test. -/
theorem inputChanged_eq (toLowerCase : String → String) (data : Document) (text : String) :
    inputChanged toLowerCase (some data) text
      = some ((((IPManager.allHosts data).filter (fun item =>
          includes (toLowerCase (item.name ++ " - " ++ item.ip)) (toLowerCase text))).take 5).map
            (fun item => { content := item.id, description := item.name ++ " - " ++ item.ip })) := by
  simp only [inputChanged, Omnibox.filtered, omnibox_allHosts_eq, List.filter_map, List.map_take]
  rfl

/-- Without stored data the listener does not call `suggest`. -/
theorem inputChanged_none (toLowerCase : String → String) (text : String) :
    inputChanged toLowerCase none text = none := rfl

/-- A host at a position of `allHosts` is in the list of an environment of the document. -/
theorem allHosts_getElem?_mem (data : Document) (i : Nat) (h : HostRecord)
    (hi : (IPManager.allHosts data)[i]? = some h) : ∃ env ∈ data.envs, h ∈ env.items := by
  have := List.getElem?_mem hi
  simpa [IPManager.allHosts, List.mem_flatMap] using this

/-- C21. For every stored document and every typed text, the `onInputChanged` listener
passes to `suggest` a list of at most five entries.  The entries stand, one by one, for
hosts at increasing positions of the document order (the hosts of the first environment
in list order, then those of the second, and so on): each such host is in the list of an
environment of the document, its description `name - ip` contains the text after both are
lower-cased, and the entry carries the host's id as content and that description.  They
are the first such hosts: a position with a matching host is left out only when the list
already has five entries, all of them from earlier positions. -/
theorem inputChanged_first_five (toLowerCase : String → String) (data : Document)
    (text : String) :
    ∃ l, inputChanged toLowerCase (some data) text = some l ∧
      l.length ≤ 5 ∧
      ∃ idx : List Nat,
        idx.Sorted (· < ·) ∧
        List.Forall₂ (fun i s => ∃ h : HostRecord, (IPManager.allHosts data)[i]? = some h ∧
            (∃ env ∈ data.envs, h ∈ env.items) ∧
            ContainsIgnoringCase toLowerCase (h.name ++ " - " ++ h.ip) text ∧
            s = { content := h.id, description := h.name ++ " - " ++ h.ip }) idx l ∧
        ∀ (i : Nat) (h : HostRecord), (IPManager.allHosts data)[i]? = some h →
          ContainsIgnoringCase toLowerCase (h.name ++ " - " ++ h.ip) text →
          i ∉ idx → l.length = 5 ∧ ∀ j ∈ idx, j < i := by
  obtain ⟨idx, hsorted, hall, hmax⟩ := take_filter_positions (fun item : HostRecord =>
    includes (toLowerCase (item.name ++ " - " ++ item.ip)) (toLowerCase text))
    (IPManager.allHosts data) 5
  refine ⟨_, inputChanged_eq toLowerCase data text, ?_, idx, hsorted, ?_, ?_⟩
  · rw [List.length_map, List.length_take]
    exact Nat.min_le_left _ _
  · rw [List.forall₂_map_right_iff]
    refine hall.imp ?_
    rintro i h ⟨hi, hp⟩
    exact ⟨h, hi, allHosts_getElem?_mem data i h hi, (includes_iff _ _).1 hp, rfl⟩
  · intro i h hi hc hni
    have := hmax i h hi ((includes_iff _ _).2 hc) hni
    rw [List.length_map]
    exact this

/-- The suggestions for the text `WEB` in a document with seven matching hosts and one
other: the entries of the first five matching hosts, in both environments. -/
theorem inputChanged_sample :
    inputChanged asciiLower (some eightHostDoc) "WEB"
      = some [⟨"h1", "Web1 - 10.0.0.1"⟩, ⟨"h2", "web2 - 10.0.0.2"⟩, ⟨"h4", "web3 - 10.0.0.4"⟩,
          ⟨"h5", "WEB4 - 10.0.1.1"⟩, ⟨"h6", "web5 - 10.0.1.2"⟩] := by
  decide

/-- With fewer than five matching hosts all of them are suggested. -/
theorem inputChanged_sample_few :
    inputChanged asciiLower (some eightHostDoc) "0.1." 
      = some [⟨"h5", "WEB4 - 10.0.1.1"⟩, ⟨"h6", "web5 - 10.0.1.2"⟩, ⟨"h7", "web6 - 10.0.1.3"⟩,
          ⟨"h8", "web7 - 10.0.1.4"⟩] ∧
      inputChanged asciiLower (some eightHostDoc) "mail" = some [] := by
  decide

end Background

namespace IPManager

/-! ## The reference printer and reader of JSON text -/

theorem skipWhiteSpace_cons_of_not (c : Char) (cs : List Char)
    (h : isJsonWhiteSpace c = false) : skipWhiteSpace (c :: cs) = c :: cs := by
  simp [skipWhiteSpace, h]

theorem skipWhiteSpace_append (ws cs : List Char) (h : ∀ c ∈ ws, isJsonWhiteSpace c = true) :
    skipWhiteSpace (ws ++ cs) = skipWhiteSpace cs := by
  induction ws with
  | nil => rfl
  | cons w ws ih =>
    have hw : isJsonWhiteSpace w = true := h w (List.mem_cons_self _ _)
    have := ih (fun c hc => h c (List.mem_cons_of_mem _ hc))
    simp [skipWhiteSpace, hw, this]

theorem skipWhiteSpace_indentation (depth : Nat) (cs : List Char) :
    skipWhiteSpace (indentation depth ++ cs) = skipWhiteSpace cs := by
  apply skipWhiteSpace_append
  intro c hc
  rw [indentation, List.mem_replicate] at hc
  rw [hc.2]
  rfl

theorem skipWhiteSpace_newline (depth : Nat) (cs : List Char) :
    skipWhiteSpace ('\n' :: (indentation depth ++ cs)) = skipWhiteSpace cs := by
  have : skipWhiteSpace ('\n' :: (indentation depth ++ cs))
      = skipWhiteSpace (indentation depth ++ cs) := by
    simp [skipWhiteSpace, isJsonWhiteSpace]
  rw [this, skipWhiteSpace_indentation]

theorem skipWhiteSpace_idem (cs : List Char) :
    skipWhiteSpace (skipWhiteSpace cs) = skipWhiteSpace cs := by
  induction cs with
  | nil => rfl
  | cons c cs ih =>
    by_cases h : isJsonWhiteSpace c = true
    · simp [skipWhiteSpace, h, ih]
    · simp [skipWhiteSpace, h]

theorem skipWhiteSpace_of_startsValue (text rest : List Char) (h : startsValue text = true) :
    skipWhiteSpace (text ++ rest) = text ++ rest := by
  cases text with
  | nil => simp [startsValue] at h
  | cons c cs =>
    apply skipWhiteSpace_cons_of_not
    simp only [startsValue, Bool.or_eq_true, beq_iff_eq] at h
    rcases h with ((((((h | h) | h) | h) | h) | h) | h) | h
    any_goals (subst h; rfl)
    simp only [decDigit?, Option.isSome_iff_exists] at h
    obtain ⟨d, hd⟩ := h
    split at hd
    · rename_i hc
      simp only [isJsonWhiteSpace, Bool.or_eq_false_iff, beq_eq_false_iff_ne, ne_eq]
      refine ⟨⟨⟨?_, ?_⟩, ?_⟩, ?_⟩ <;> (intro he; subst he; revert hc; decide)
    · exact absurd hd (by simp)

theorem expect_append (p rest : List Char) : expect p (p ++ rest) = some rest := by
  induction p with
  | nil => cases rest <;> rfl
  | cons a p ih => simp [expect, ih]

end IPManager

namespace IPManager

/-! ### Numbers -/

theorem toNat_ofNat_digit (d : Nat) (hd : d < 10) : (Char.ofNat (48 + d)).toNat = 48 + d := by
  interval_cases d <;> rfl

theorem decDigit?_ofNat (d : Nat) (hd : d < 10) : decDigit? (Char.ofNat (48 + d)) = some d := by
  have h := toNat_ofNat_digit d hd
  simp only [decDigit?, h]
  rw [if_pos (by omega)]
  simp

theorem digits10_isDigit (fuel n : Nat) :
    ∀ c ∈ digits10 fuel n, (decDigit? c).isSome = true := by
  induction fuel generalizing n with
  | zero => simp [digits10]
  | succ fuel ih =>
    intro c hc
    unfold digits10 at hc
    split at hc
    · rename_i hn
      rw [List.mem_singleton] at hc
      rw [hc, decDigit?_ofNat n hn]
      rfl
    · rw [List.mem_cons] at hc
      rcases hc with hc | hc
      · rw [hc, decDigit?_ofNat _ (Nat.mod_lt _ (by decide))]
        rfl
      · exact ih _ c hc

theorem digits10_ne_nil (fuel n : Nat) : digits10 (fuel + 1) n ≠ [] := by
  unfold digits10
  split <;> simp

theorem digits10_value (fuel n : Nat) (hn : n < 10 ^ fuel) :
    (digits10 fuel n).foldr (fun c acc => 10 * acc + (c.toNat - 48)) 0 = n := by
  induction fuel generalizing n with
  | zero =>
    have : n = 0 := by simpa using hn
    simp [digits10, this]
  | succ fuel ih =>
    unfold digits10
    split
    · rename_i h
      simp [toNat_ofNat_digit n h]
    · rename_i h
      have h1 : n / 10 < 10 ^ fuel := by
        rw [Nat.div_lt_iff_lt_mul (by decide)]
        rw [Nat.pow_succ] at hn
        exact hn
      rw [List.foldr_cons, ih _ h1, toNat_ofNat_digit _ (Nat.mod_lt _ (by decide))]
      omega

theorem digitsValue_reverse (l : List Char) :
    digitsValue l.reverse = l.foldr (fun c acc => 10 * acc + (c.toNat - 48)) 0 := by
  rw [digitsValue, List.foldl_reverse]

theorem digits10_getLast (fuel n : Nat) (hn : n < 10 ^ fuel) (hpos : 0 < n) :
    (digits10 fuel n).getLast? ≠ some '0' := by
  induction fuel generalizing n with
  | zero =>
    have : n = 0 := by simpa using hn
    omega
  | succ fuel ih =>
    unfold digits10
    split
    · rename_i h
      rw [List.getLast?_singleton]
      intro he
      have h1 := toNat_ofNat_digit n h
      rw [Option.some.injEq] at he
      rw [he] at h1
      have : ('0' : Char).toNat = 48 := rfl
      omega
    · rename_i h
      have h1 : n / 10 < 10 ^ fuel := by
        rw [Nat.div_lt_iff_lt_mul (by decide)]
        rw [Nat.pow_succ] at hn
        exact hn
      have h2 : 0 < n / 10 := Nat.div_pos (by omega) (by decide)
      have h3 := ih _ h1 h2
      cases fuel with
      | zero => simp at h1; omega
      | succ fuel =>
        have h4 := digits10_ne_nil fuel (n / 10)
        rw [List.getLast?_cons]
        cases hl : (digits10 (fuel + 1) (n / 10)).getLast? with
        | none => rw [List.getLast?_eq_none_iff] at hl; exact absurd hl h4
        | some c => rw [hl] at h3; simpa using h3

theorem digits_span (ds rest : List Char) (hds : ∀ c ∈ ds, (decDigit? c).isSome = true)
    (hrest : ∀ c, rest.head? = some c → (decDigit? c).isSome = false) :
    (ds ++ rest).takeWhile (fun c => (decDigit? c).isSome) = ds ∧
      (ds ++ rest).dropWhile (fun c => (decDigit? c).isSome) = rest := by
  rw [List.takeWhile_append_of_pos hds, List.dropWhile_append_of_pos hds]
  cases rest with
  | nil => simp
  | cons c cs =>
    have := hrest c rfl
    simp [List.takeWhile, List.dropWhile, this]

theorem endsValue_head (rest : List Char) (h : endsValue rest = true) (c : Char)
    (hc : rest.head? = some c) : c = ',' ∨ c = '\n' := by
  cases rest with
  | nil => simp at hc
  | cons d ds =>
    simp only [List.head?_cons, Option.some.injEq] at hc
    subst hc
    simpa [endsValue] using h

theorem readNumber_numberToString (q : ℚ) (text rest : List Char)
    (hq : numberToString? q = some text) (hrest : endsValue rest = true) :
    readNumber (text ++ rest) = some (q, rest) ∧
      ∃ c cs, text = c :: cs ∧ (c = '-' ∨ (decDigit? c).isSome = true) := by
  unfold numberToString? at hq
  split at hq
  swap
  · exact absurd hq (by simp)
  rename_i hsafe
  obtain ⟨hden, hbound⟩ := hsafe
  rw [Option.some.injEq] at hq
  have hdigits := digits10_isDigit 16 q.num.natAbs
  have hdigits' : ∀ c ∈ (digits10 16 q.num.natAbs).reverse, (decDigit? c).isSome = true :=
    fun c hc => hdigits c (List.mem_reverse.1 hc)
  have hlt : q.num.natAbs < 10 ^ 16 := lt_trans hbound (by norm_num)
  have hval : digitsValue (digits10 16 q.num.natAbs).reverse = q.num.natAbs := by
    rw [digitsValue_reverse, digits10_value _ _ hlt]
  have hne : (digits10 16 q.num.natAbs).reverse ≠ [] := by
    simpa using digits10_ne_nil 15 q.num.natAbs
  have hrest' : ∀ c, rest.head? = some c → (decDigit? c).isSome = false := by
    intro c hc
    rcases endsValue_head rest hrest c hc with h | h <;> subst h <;> rfl
  have hspan := digits_span _ rest hdigits' hrest'
  have hdot : (rest.head? == some '.' || rest.head? == some 'e' || rest.head? == some 'E')
      = false := by
    cases hh : rest.head? with
    | none => rfl
    | some c => rcases endsValue_head rest hrest c hh with h | h <;> subst h <;> rfl
  have hzero : ((digits10 16 q.num.natAbs).reverse.head? == some '0' &&
      decide (1 < (digits10 16 q.num.natAbs).reverse.length)) = false := by
    by_cases h0 : q.num.natAbs = 0
    · rw [h0]; rfl
    · have := digits10_getLast 16 _ hlt (Nat.pos_of_ne_zero h0)
      rw [List.head?_reverse]
      simp [this]
  have hhead : ∃ c cs, (digits10 16 q.num.natAbs).reverse = c :: cs ∧
      (decDigit? c).isSome = true := by
    cases hl : (digits10 16 q.num.natAbs).reverse with
    | nil => exact absurd hl hne
    | cons c cs => exact ⟨c, cs, rfl, hdigits' c (by rw [hl]; exact List.mem_cons_self _ _)⟩
  have hqnum : ((q.num : ℤ) : ℚ) = q := Rat.coe_int_num_of_den_eq_one hden
  by_cases hneg : q.num < 0
  · rw [if_pos hneg] at hq
    subst hq
    refine ⟨?_, '-', _, rfl, Or.inl rfl⟩
    have hbody : (if (('-' :: (digits10 16 q.num.natAbs).reverse ++ rest).head? == some '-') = true
        then ('-' :: (digits10 16 q.num.natAbs).reverse ++ rest).drop 1
        else ('-' :: (digits10 16 q.num.natAbs).reverse ++ rest))
        = (digits10 16 q.num.natAbs).reverse ++ rest := by simp
    unfold readNumber
    simp only [List.singleton_append, hbody, hspan.1, hspan.2, hzero, hdot, hval]
    have he : (digits10 16 q.num.natAbs).reverse.isEmpty = false := by
      simpa [List.isEmpty_iff] using hne
    simp only [he, List.cons_append, List.head?_cons, beq_self_eq_true, if_true, hbound,
      Bool.false_eq_true, if_false]
    congr 2
    have : (q.num.natAbs : ℤ) = -q.num := by omega
    rw [this, Int.cast_neg, neg_neg]
    exact hqnum
  · rw [if_neg hneg] at hq
    subst hq
    obtain ⟨c, cs, hcs, hc⟩ := hhead
    refine ⟨?_, c, cs, by simpa using hcs, Or.inr hc⟩
    have hminus : c ≠ '-' := by
      intro h
      subst h
      exact absurd hc (by decide)
    have hnegf : (([] ++ (digits10 16 q.num.natAbs).reverse ++ rest).head? == some '-') = false := by
      rw [List.nil_append, hcs]
      simpa using hminus
    unfold readNumber
    simp only [hnegf, Bool.false_eq_true, if_false]
    simp only [List.nil_append, hspan.1, hspan.2, hzero, hdot, hval]
    have he : (digits10 16 q.num.natAbs).reverse.isEmpty = false := by
      simpa [List.isEmpty_iff] using hne
    simp only [he, hbound, Bool.false_eq_true, if_false, if_true]
    congr 2
    have : (q.num.natAbs : ℤ) = q.num := by omega
    rw [this]
    exact hqnum

end IPManager

namespace IPManager

/-! ### Strings -/

theorem char_of_toNat (c : Char) (n : Nat) (h : c.toNat = n) : c = Char.ofNat n := by
  rw [← h]
  exact (Char.ofNat_toNat c).symm

theorem readStringBody_quote (rest : List Char) :
    readStringBody ('"' :: rest) = some ([], rest) := by
  rw [readStringBody.eq_def]
  simp

theorem readStringBody_escape (e x : Char) (tail s r : List Char) (he : e ≠ 'u')
    (hx : unescape? e = some x) (h : readStringBody tail = some (s, r)) :
    readStringBody ('\\' :: e :: tail) = some (x :: s, r) := by
  rw [readStringBody.eq_def]
  simp [he, hx, h]

theorem readStringBody_hex (a b c d x : Char) (tail s r : List Char)
    (hx : readHex4 a b c d = some x) (h : readStringBody tail = some (s, r)) :
    readStringBody ('\\' :: 'u' :: a :: b :: c :: d :: tail) = some (x :: s, r) := by
  rw [readStringBody.eq_def]
  simp [hx, h]

theorem readStringBody_plain (c : Char) (tail s r : List Char) (h1 : c ≠ '"')
    (h2 : c ≠ '\\') (h3 : ¬c.toNat < 32) (h : readStringBody tail = some (s, r)) :
    readStringBody (c :: tail) = some (c :: s, r) := by
  rw [readStringBody.eq_def]
  simp [h1, h2, h3, h]

theorem readStringBody_quoteChar (c : Char) (tail s r : List Char)
    (h : readStringBody tail = some (s, r)) :
    readStringBody (quoteChar c ++ tail) = some (c :: s, r) := by
  by_cases h1 : c = '"'
  · subst h1
    exact readStringBody_escape '"' '"' tail s r (by decide) (by decide) h
  by_cases h2 : c = '\\'
  · subst h2
    exact readStringBody_escape '\\' '\\' tail s r (by decide) (by decide) h
  by_cases h3 : c.toNat < 32
  · obtain ⟨n, hn⟩ : ∃ n, c.toNat = n := ⟨_, rfl⟩
    have hc := char_of_toNat c n hn
    rw [hn] at h3
    subst hc
    clear h1 h2 hn
    interval_cases n
    all_goals first
      | exact readStringBody_escape _ _ tail s r (by decide) (by decide) h
      | exact readStringBody_hex _ _ _ _ _ tail s r (by decide) h
  · have : quoteChar c = [c] := by
      unfold quoteChar
      rw [if_neg h1, if_neg h2, if_neg (by omega), if_neg (by omega), if_neg (by omega),
        if_neg (by omega), if_neg (by omega), if_neg h3]
    rw [this]
    exact readStringBody_plain c tail s r h1 h2 h3 h

theorem readStringBody_quoted (cs rest : List Char) :
    readStringBody (cs.flatMap quoteChar ++ '"' :: rest) = some (cs, rest) := by
  induction cs with
  | nil => exact readStringBody_quote rest
  | cons c cs ih =>
    rw [List.flatMap_cons, List.append_assoc]
    exact readStringBody_quoteChar c _ cs rest ih

end IPManager

namespace IPManager

/-! ### Arrays and objects -/

theorem readValue_skip (fuel : Nat) (cs : List Char) :
    readValue fuel (skipWhiteSpace cs) = readValue fuel cs := by
  cases fuel with
  | zero => simp [readValue]
  | succ fuel => simp only [readValue, skipWhiteSpace_idem]

theorem readItems_skip (fuel : Nat) (cs : List Char) :
    readItems fuel (skipWhiteSpace cs) = readItems fuel cs := by
  cases fuel with
  | zero => simp [readItems]
  | succ fuel => simp only [readItems, readValue_skip]

theorem readMembers_skip (fuel : Nat) (cs : List Char) :
    readMembers fuel (skipWhiteSpace cs) = readMembers fuel cs := by
  cases fuel with
  | zero => simp [readMembers]
  | succ fuel => simp only [readMembers, skipWhiteSpace_idem]

theorem readValue_word (fuel : Nat) (c : Char) (word rest : List Char) (v : Json)
    (hc : isJsonWhiteSpace c = false)
    (hv : ∀ cs, (if c = 'n' then (expect "ull".data cs).map (fun r => (Json.null, r))
      else if c = 't' then (expect "rue".data cs).map (fun r => (Json.bool true, r))
      else if c = 'f' then (expect "alse".data cs).map (fun r => (Json.bool false, r))
      else none) = (expect word cs).map (fun r => (v, r)))
    (hnone : c = 'n' ∨ c = 't' ∨ c = 'f') :
    readValue (fuel + 1) (c :: (word ++ rest)) = some (v, rest) := by
  have h := hv (word ++ rest)
  rw [expect_append] at h
  rw [readValue, skipWhiteSpace_cons_of_not c _ hc]
  rcases hnone with h1 | h1 | h1 <;> subst h1 <;> simpa using h

theorem readValue_null (fuel : Nat) (rest : List Char) :
    readValue (fuel + 1) ("null".data ++ rest) = some (.null, rest) :=
  readValue_word fuel 'n' "ull".data rest .null rfl (fun _ => rfl) (Or.inl rfl)

theorem readValue_true (fuel : Nat) (rest : List Char) :
    readValue (fuel + 1) ("true".data ++ rest) = some (.bool true, rest) :=
  readValue_word fuel 't' "rue".data rest (.bool true) rfl (fun _ => rfl) (Or.inr (Or.inl rfl))

theorem readValue_false (fuel : Nat) (rest : List Char) :
    readValue (fuel + 1) ("false".data ++ rest) = some (.bool false, rest) :=
  readValue_word fuel 'f' "alse".data rest (.bool false) rfl (fun _ => rfl)
    (Or.inr (Or.inr rfl))

theorem readValue_string (fuel : Nat) (s rest : List Char) :
    readValue (fuel + 1) (quote s ++ rest) = some (.str ⟨s⟩, rest) := by
  rw [quote, List.cons_append, List.append_assoc, readValue,
    skipWhiteSpace_cons_of_not _ _ (by rfl)]
  simp [readStringBody_quoted]

theorem readValue_number (fuel : Nat) (q : ℚ) (text rest : List Char)
    (hq : numberToString? q = some text) (hrest : endsValue rest = true) :
    readValue (fuel + 1) (text ++ rest) = some (.num (.finite q), rest) := by
  obtain ⟨hread, c, cs, htext, hc⟩ := readNumber_numberToString q text rest hq hrest
  have hdigit : c = '-' ∨ (48 ≤ c.toNat ∧ c.toNat ≤ 57) := by
    rcases hc with hc | hc
    · exact Or.inl hc
    · right
      simp only [decDigit?, Option.isSome_iff_exists] at hc
      obtain ⟨d, hd⟩ := hc
      split at hd
      · assumption
      · exact absurd hd (by simp)
  have hne : ∀ x : Char, ¬(x = '-' ∨ (48 ≤ x.toNat ∧ x.toNat ≤ 57)) → c ≠ x := by
    intro x hx hcx
    exact hx (hcx ▸ hdigit)
  have hws : isJsonWhiteSpace c = false := by
    simp only [isJsonWhiteSpace, Bool.or_eq_false_iff, beq_eq_false_iff_ne, ne_eq]
    exact ⟨⟨⟨hne _ (by decide), hne _ (by decide)⟩, hne _ (by decide)⟩, hne _ (by decide)⟩
  rw [htext] at hread ⊢
  rw [List.cons_append, readValue, skipWhiteSpace_cons_of_not _ _ hws]
  simp only [if_neg (hne 'n' (by decide)), if_neg (hne 't' (by decide)),
    if_neg (hne 'f' (by decide)), if_neg (hne '"' (by decide)), if_neg (hne '[' (by decide)),
    if_neg (hne '{' (by decide))]
  rw [List.cons_append] at hread
  rw [hread]
  rfl

theorem readValue_empty_array (fuel : Nat) (rest : List Char) :
    readValue (fuel + 1) ("[]".data ++ rest) = some (.arr [], rest) := by
  show readValue (fuel + 1) ('[' :: ']' :: rest) = _
  rw [readValue, skipWhiteSpace_cons_of_not _ _ (by rfl)]
  simp [skipWhiteSpace_cons_of_not _ _ (show isJsonWhiteSpace ']' = false by rfl)]

theorem readValue_empty_object (fuel : Nat) (rest : List Char) :
    readValue (fuel + 1) ("\x7b\x7d".data ++ rest) = some (.obj [], rest) := by
  show readValue (fuel + 1) ('{' :: '}' :: rest) = _
  rw [readValue, skipWhiteSpace_cons_of_not _ _ (by rfl)]
  simp [skipWhiteSpace_cons_of_not _ _ (show isJsonWhiteSpace '}' = false by rfl)]

theorem readValue_array (fuel : Nat) (body text tail rest : List Char) (items : List Json)
    (hbody : skipWhiteSpace body = text ++ tail) (hstart : startsValue text = true)
    (hitems : readItems fuel (text ++ tail) = some (items, rest)) :
    readValue (fuel + 1) ('[' :: body) = some (.arr items, rest) := by
  rw [readValue, skipWhiteSpace_cons_of_not _ _ (by rfl)]
  cases text with
  | nil => simp [startsValue] at hstart
  | cons c cs =>
    have hc : c ≠ ']' := by
      intro h
      subst h
      simp [startsValue, decDigit?] at hstart
    rw [List.cons_append] at hbody hitems
    simp [hbody, hc, hitems]

theorem readValue_object (fuel : Nat) (body text tail rest : List Char)
    (properties : List (String × Json))
    (hbody : skipWhiteSpace body = '"' :: text ++ tail)
    (hmembers : readMembers fuel ('"' :: text ++ tail) = some (properties, rest))
    (hkeys : keysInOrder properties = true) :
    readValue (fuel + 1) ('{' :: body) = some (.obj properties, rest) := by
  rw [readValue, skipWhiteSpace_cons_of_not _ _ (by rfl)]
  rw [List.cons_append] at hbody hmembers
  simp [hbody, hmembers, hkeys]

theorem readItems_last (fuel : Nat) (cs rest r : List Char) (v : Json)
    (hv : readValue fuel cs = some (v, rest)) (hrest : skipWhiteSpace rest = ']' :: r) :
    readItems (fuel + 1) cs = some ([v], r) := by
  rw [readItems, hv]
  simp [hrest]

theorem readItems_more (fuel : Nat) (cs rest r r' : List Char) (v : Json) (vs : List Json)
    (hv : readValue fuel cs = some (v, rest)) (hrest : skipWhiteSpace rest = ',' :: r)
    (hvs : readItems fuel r = some (vs, r')) :
    readItems (fuel + 1) cs = some (v :: vs, r') := by
  rw [readItems, hv]
  simp [hrest, hvs]

theorem readMembers_last (fuel : Nat) (key text rest r : List Char) (v : Json)
    (hv : readValue fuel (' ' :: text) = some (v, rest))
    (hrest : skipWhiteSpace rest = '}' :: r) :
    readMembers (fuel + 1) (quote key ++ ':' :: ' ' :: text) = some ([(⟨key⟩, v)], r) := by
  rw [quote, List.cons_append, List.append_assoc, readMembers,
    skipWhiteSpace_cons_of_not _ _ (by rfl)]
  simp [readStringBody_quoted, skipWhiteSpace_cons_of_not _ _
    (show isJsonWhiteSpace ':' = false by rfl), hv, hrest]

theorem readMembers_more (fuel : Nat) (key text rest r r' : List Char) (v : Json)
    (ps : List (String × Json))
    (hv : readValue fuel (' ' :: text) = some (v, rest))
    (hrest : skipWhiteSpace rest = ',' :: r)
    (hps : readMembers fuel r = some (ps, r')) :
    readMembers (fuel + 1) (quote key ++ ':' :: ' ' :: text) = some ((⟨key⟩, v) :: ps, r') := by
  rw [quote, List.cons_append, List.append_assoc, readMembers,
    skipWhiteSpace_cons_of_not _ _ (by rfl)]
  simp [readStringBody_quoted, skipWhiteSpace_cons_of_not _ _
    (show isJsonWhiteSpace ':' = false by rfl), hv, hrest, hps]

end IPManager

namespace IPManager

theorem nanToNullMembers_keys (ps : List (String × Json)) :
    (nanToNullMembers ps).map Prod.fst = ps.map Prod.fst := by
  induction ps with
  | nil => simp [nanToNullMembers]
  | cons p ps ih =>
    obtain ⟨key, v⟩ := p
    simp [nanToNullMembers, ih]

theorem keysInOrder_eq (ps : List (String × Json)) :
    keysInOrder ps = (decide (ps.map Prod.fst).Nodup &&
      (ps.map Prod.fst).all (fun key => !isDigitKey key)) := by
  have hall : ∀ l : List (String × Json),
      l.all (fun p => !isDigitKey p.1) = (l.map Prod.fst).all (fun key => !isDigitKey key) := by
    intro l
    induction l with
    | nil => rfl
    | cons p l ih => simp [List.all_cons, ih]
  rw [keysInOrder, hall]

theorem keysInOrder_nanToNull (ps : List (String × Json)) :
    keysInOrder (nanToNullMembers ps) = keysInOrder ps := by
  rw [keysInOrder_eq, keysInOrder_eq, nanToNullMembers_keys]

theorem readValue_space (fuel : Nat) (cs : List Char) :
    readValue fuel (' ' :: cs) = readValue fuel cs := by
  rw [← readValue_skip fuel (' ' :: cs), ← readValue_skip fuel cs]
  rfl

theorem startsValue_number (q : ℚ) (text : List Char) (hq : numberToString? q = some text) :
    startsValue text = true := by
  obtain ⟨-, c, cs, htext, hc⟩ := readNumber_numberToString q text [] hq rfl
  subst htext
  rcases hc with hc | hc
  · subst hc; rfl
  · simp [startsValue, hc]

theorem startsValue_append (a b : List Char) (h : startsValue a = true) :
    startsValue (a ++ b) = true := by
  cases a with
  | nil => simp [startsValue] at h
  | cons c cs => simpa [startsValue] using h

mutual

theorem readValue_printValue : ∀ (v : Json) (depth : Nat) (text : List Char),
    printValue depth v = some text →
    startsValue text = true ∧
      ∀ (fuel : Nat) (rest : List Char), text.length < fuel → endsValue rest = true →
        readValue fuel (text ++ rest) = some (v.nanToNull, rest)
  | .null, depth, text, h => by
    simp only [printValue, Option.some.injEq] at h
    subst h
    refine ⟨rfl, ?_⟩
    intro fuel rest hfuel _
    obtain ⟨f, rfl⟩ : ∃ f, fuel = f + 1 := ⟨fuel - 1, by omega⟩
    exact readValue_null f rest
  | .bool b, depth, text, h => by
    simp only [printValue, Option.some.injEq] at h
    subst h
    cases b
    · refine ⟨rfl, ?_⟩
      intro fuel rest hfuel _
      obtain ⟨f, rfl⟩ : ∃ f, fuel = f + 1 := ⟨fuel - 1, by omega⟩
      exact readValue_false f rest
    · refine ⟨rfl, ?_⟩
      intro fuel rest hfuel _
      obtain ⟨f, rfl⟩ : ∃ f, fuel = f + 1 := ⟨fuel - 1, by omega⟩
      exact readValue_true f rest
  | .num .nan, depth, text, h => by
    simp only [printValue, Option.some.injEq] at h
    subst h
    refine ⟨rfl, ?_⟩
    intro fuel rest hfuel _
    obtain ⟨f, rfl⟩ : ∃ f, fuel = f + 1 := ⟨fuel - 1, by omega⟩
    exact readValue_null f rest
  | .num (.finite q), depth, text, h => by
    simp only [printValue] at h
    refine ⟨startsValue_number q text h, ?_⟩
    intro fuel rest hfuel hrest
    obtain ⟨f, rfl⟩ : ∃ f, fuel = f + 1 := ⟨fuel - 1, by omega⟩
    exact readValue_number f q text rest h hrest
  | .str s, depth, text, h => by
    simp only [printValue, Option.some.injEq] at h
    subst h
    refine ⟨rfl, ?_⟩
    intro fuel rest hfuel _
    obtain ⟨f, rfl⟩ : ∃ f, fuel = f + 1 := ⟨fuel - 1, by omega⟩
    exact readValue_string f s.data rest
  | .arr items, depth, text, h => by
    rw [printValue] at h
    by_cases hempty : items.isEmpty = true
    · rw [if_pos hempty, Option.some.injEq] at h
      subst h
      have : items = [] := List.isEmpty_iff.1 hempty
      subst this
      refine ⟨rfl, ?_⟩
      intro fuel rest hfuel _
      obtain ⟨f, rfl⟩ : ∃ f, fuel = f + 1 := ⟨fuel - 1, by omega⟩
      exact readValue_empty_array f rest
    · rw [if_neg hempty] at h
      cases hitems : printItems (depth + 1) items with
      | none => rw [hitems] at h; exact absurd h (by simp)
      | some t =>
        rw [hitems] at h
        simp only [Option.some.injEq] at h
        subst h
        have hne : items ≠ [] := fun h0 => hempty (List.isEmpty_iff.2 h0)
        obtain ⟨hstart, hread⟩ := readItems_printItems items (depth + 1) t hne hitems
        refine ⟨rfl, ?_⟩
        intro fuel rest hfuel _
        obtain ⟨f, rfl⟩ : ∃ f, fuel = f + 1 := ⟨fuel - 1, by omega⟩
        have hlen : t.length + 1 < f := by
          simp only [List.length_cons, List.length_append] at hfuel
          omega
        have hbody : ('[' :: '\n' :: (indentation (depth + 1) ++ t ++
            '\n' :: (indentation depth ++ [']']))) ++ rest
            = '[' :: ('\n' :: (indentation (depth + 1) ++
              (t ++ '\n' :: (indentation depth ++ ']' :: rest)))) := by
          simp
        rw [hbody]
        refine readValue_array f _ t ('\n' :: (indentation depth ++ ']' :: rest)) rest _ ?_
          hstart (hread f depth rest hlen)
        rw [skipWhiteSpace_newline, skipWhiteSpace_of_startsValue _ _ hstart]
  | .obj properties, depth, text, h => by
    rw [printValue] at h
    by_cases hempty : properties.isEmpty = true
    · rw [if_pos hempty, Option.some.injEq] at h
      subst h
      have : properties = [] := List.isEmpty_iff.1 hempty
      subst this
      refine ⟨rfl, ?_⟩
      intro fuel rest hfuel _
      obtain ⟨f, rfl⟩ : ∃ f, fuel = f + 1 := ⟨fuel - 1, by omega⟩
      exact readValue_empty_object f rest
    · rw [if_neg hempty] at h
      by_cases hkeys : keysInOrder properties = true
      swap
      · rw [if_neg hkeys] at h; exact absurd h (by simp)
      rw [if_pos hkeys] at h
      cases hmembers : printMembers (depth + 1) properties with
      | none => rw [hmembers] at h; exact absurd h (by simp)
      | some t =>
        rw [hmembers] at h
        simp only [Option.some.injEq] at h
        subst h
        have hne : properties ≠ [] := fun h0 => hempty (List.isEmpty_iff.2 h0)
        obtain ⟨⟨cs, hcs⟩, hread⟩ :=
          readMembers_printMembers properties (depth + 1) t hne hmembers
        refine ⟨rfl, ?_⟩
        intro fuel rest hfuel _
        obtain ⟨f, rfl⟩ : ∃ f, fuel = f + 1 := ⟨fuel - 1, by omega⟩
        have hlen : t.length + 1 < f := by
          simp only [List.length_cons, List.length_append] at hfuel
          omega
        have hbody : ('{' :: '\n' :: (indentation (depth + 1) ++ t ++
            '\n' :: (indentation depth ++ ['}']))) ++ rest
            = '{' :: ('\n' :: (indentation (depth + 1) ++
              (t ++ '\n' :: (indentation depth ++ '}' :: rest)))) := by
          simp
        rw [hbody]
        have hr := hread f depth rest hlen
        have hstart : startsValue t = true := by rw [hcs]; rfl
        rw [Json.nanToNull]
        refine readValue_object f _ cs ('\n' :: (indentation depth ++ '}' :: rest)) rest _ ?_
          ?_ ?_
        · rw [skipWhiteSpace_newline, skipWhiteSpace_of_startsValue _ _ hstart, hcs]
        · rw [hcs] at hr
          exact hr
        · rw [keysInOrder_nanToNull]
          exact hkeys

theorem readItems_printItems : ∀ (items : List Json) (depth : Nat) (text : List Char),
    items ≠ [] → printItems depth items = some text →
    startsValue text = true ∧
      ∀ (fuel d : Nat) (rest : List Char), text.length + 1 < fuel →
        readItems fuel (text ++ '\n' :: (indentation d ++ ']' :: rest))
          = some (nanToNullItems items, rest)
  | [], _, _, hne, _ => absurd rfl hne
  | v :: vs, depth, text, _, h => by
    rw [printItems] at h
    cases hv : printValue depth v with
    | none => rw [hv] at h; exact absurd h (by simp)
    | some t1 =>
      cases hvs : printItems depth vs with
      | none => rw [hv, hvs] at h; exact absurd h (by simp)
      | some t2 =>
        rw [hv, hvs] at h
        simp only [Option.some.injEq] at h
        obtain ⟨hstart1, hread1⟩ := readValue_printValue v depth t1 hv
        by_cases hempty : vs.isEmpty = true
        · rw [if_pos hempty] at h
          subst h
          have : vs = [] := List.isEmpty_iff.1 hempty
          subst this
          refine ⟨hstart1, ?_⟩
          intro fuel d rest hfuel
          obtain ⟨f, rfl⟩ : ∃ f, fuel = f + 1 := ⟨fuel - 1, by omega⟩
          rw [nanToNullItems, nanToNullItems]
          exact readItems_last f _ _ rest _ (hread1 f _ (by omega) rfl)
            (by rw [skipWhiteSpace_newline]; exact skipWhiteSpace_cons_of_not _ _ (by rfl))
        · rw [if_neg hempty] at h
          subst h
          have hne : vs ≠ [] := fun h0 => hempty (List.isEmpty_iff.2 h0)
          obtain ⟨hstart2, hread2⟩ := readItems_printItems vs depth t2 hne hvs
          refine ⟨startsValue_append _ _ hstart1, ?_⟩
          intro fuel d rest hfuel
          obtain ⟨f, rfl⟩ : ∃ f, fuel = f + 1 := ⟨fuel - 1, by omega⟩
          simp only [List.length_cons, List.length_append] at hfuel
          have hassoc : t1 ++ ',' :: '\n' :: (indentation depth ++ t2) ++
              '\n' :: (indentation d ++ ']' :: rest)
              = t1 ++ ',' :: ('\n' :: (indentation depth ++
                (t2 ++ '\n' :: (indentation d ++ ']' :: rest)))) := by
            simp
          rw [hassoc, nanToNullItems]
          refine readItems_more f _ _ _ rest _ _ (hread1 f _ (by omega) rfl)
            (skipWhiteSpace_cons_of_not _ _ (by rfl)) ?_
          rw [← readItems_skip, skipWhiteSpace_newline,
            skipWhiteSpace_of_startsValue _ _ hstart2]
          exact hread2 f d rest (by omega)

theorem readMembers_printMembers : ∀ (properties : List (String × Json)) (depth : Nat)
    (text : List Char),
    properties ≠ [] → printMembers depth properties = some text →
    (∃ cs, text = '"' :: cs) ∧
      ∀ (fuel d : Nat) (rest : List Char), text.length + 1 < fuel →
        readMembers fuel (text ++ '\n' :: (indentation d ++ '}' :: rest))
          = some (nanToNullMembers properties, rest)
  | [], _, _, hne, _ => absurd rfl hne
  | (key, v) :: ps, depth, text, _, h => by
    rw [printMembers] at h
    cases hv : printValue depth v with
    | none => rw [hv] at h; exact absurd h (by simp)
    | some t1 =>
      cases hps : printMembers depth ps with
      | none => rw [hv, hps] at h; exact absurd h (by simp)
      | some t2 =>
        rw [hv, hps] at h
        simp only [Option.some.injEq] at h
        obtain ⟨hstart1, hread1⟩ := readValue_printValue v depth t1 hv
        by_cases hempty : ps.isEmpty = true
        · rw [if_pos hempty] at h
          subst h
          have : ps = [] := List.isEmpty_iff.1 hempty
          subst this
          refine ⟨⟨_, rfl⟩, ?_⟩
          intro fuel d rest hfuel
          obtain ⟨f, rfl⟩ : ∃ f, fuel = f + 1 := ⟨fuel - 1, by omega⟩
          simp only [List.length_cons, List.length_append] at hfuel
          have hassoc : quote key.data ++ ':' :: ' ' :: t1 ++
              '\n' :: (indentation d ++ '}' :: rest)
              = quote key.data ++ ':' :: ' ' ::
                (t1 ++ '\n' :: (indentation d ++ '}' :: rest)) := by
            simp
          rw [hassoc, nanToNullMembers, nanToNullMembers]
          have hv1 : readValue f (' ' :: (t1 ++ '\n' :: (indentation d ++ '}' :: rest)))
              = some (v.nanToNull, '\n' :: (indentation d ++ '}' :: rest)) := by
            rw [readValue_space]
            exact hread1 f _ (by omega) rfl
          exact readMembers_last f key.data _ _ rest _ hv1
            (by rw [skipWhiteSpace_newline]; exact skipWhiteSpace_cons_of_not _ _ (by rfl))
        · rw [if_neg hempty] at h
          subst h
          have hne : ps ≠ [] := fun h0 => hempty (List.isEmpty_iff.2 h0)
          obtain ⟨⟨cs, hcs⟩, hread2⟩ := readMembers_printMembers ps depth t2 hne hps
          have hstart2 : startsValue t2 = true := by rw [hcs]; rfl
          refine ⟨⟨_, rfl⟩, ?_⟩
          intro fuel d rest hfuel
          obtain ⟨f, rfl⟩ : ∃ f, fuel = f + 1 := ⟨fuel - 1, by omega⟩
          simp only [List.length_cons, List.length_append] at hfuel
          have hassoc : quote key.data ++ ':' :: ' ' ::
              (t1 ++ ',' :: '\n' :: (indentation depth ++ t2)) ++
              '\n' :: (indentation d ++ '}' :: rest)
              = quote key.data ++ ':' :: ' ' :: (t1 ++ ',' :: ('\n' :: (indentation depth ++
                (t2 ++ '\n' :: (indentation d ++ '}' :: rest))))) := by
            simp
          rw [hassoc, nanToNullMembers]
          have hv1 : readValue f (' ' :: (t1 ++ ',' :: ('\n' :: (indentation depth ++
              (t2 ++ '\n' :: (indentation d ++ '}' :: rest))))))
              = some (v.nanToNull, ',' :: ('\n' :: (indentation depth ++
                (t2 ++ '\n' :: (indentation d ++ '}' :: rest))))) := by
            rw [readValue_space]
            exact hread1 f _ (by omega) rfl
          refine readMembers_more f key.data _ _ _ rest _ _ hv1
            (skipWhiteSpace_cons_of_not _ _ (by rfl)) ?_
          rw [← readMembers_skip, skipWhiteSpace_newline,
            skipWhiteSpace_of_startsValue _ _ hstart2]
          exact hread2 f d rest (by omega)

end

end IPManager

namespace IPManager

/-! ### The round trip of a value -/

theorem readJson_printJson (v : Json) (text : String) (h : printJson v = some text) :
    readJson text = some v.nanToNull := by
  unfold printJson at h
  cases hp : printValue 0 v with
  | none => rw [hp] at h; exact absurd h (by simp)
  | some cs =>
    rw [hp] at h
    simp only [Option.map_some', Option.some.injEq] at h
    subst h
    have hread := (readValue_printValue v 0 cs hp).2 (cs.length + 1) [] (by omega) rfl
    rw [List.append_nil] at hread
    simp [readJson, String.length, hread, skipWhiteSpace]

theorem parse_stringify (stringify : Json → String) (parse : String → Option Json)
    (hstringify : PrintsJson stringify) (hparse : ReadsJson parse) (v : Json) (text : String)
    (h : printJson v = some text) : parse (stringify v) = some v.nanToNull := by
  rw [hstringify v text h]
  exact hparse _ _ (readJson_printJson v text h)

theorem printJson_of_roundTrips (v : Json) (h : v.RoundTrips) :
    ∃ text, printJson v = some text := by
  obtain ⟨cs, hcs⟩ := Option.isSome_iff_exists.1 (h.1 0)
  exact ⟨⟨cs⟩, by simp [printJson, hcs]⟩

theorem roundTrips_null : Json.RoundTrips .null := ⟨fun _ => rfl, rfl⟩

theorem roundTrips_bool (b : Bool) : Json.RoundTrips (.bool b) := ⟨fun _ => rfl, rfl⟩

theorem roundTrips_str (s : String) : Json.RoundTrips (.str s) := ⟨fun _ => rfl, rfl⟩

theorem roundTrips_int (n : Int) (hn : n.natAbs < 2 ^ 53) :
    Json.RoundTrips (.num (.finite n)) := by
  refine ⟨fun _ => ?_, rfl⟩
  rw [printValue, numberToString?,
    if_pos ⟨Rat.intCast_den n, by rw [Rat.intCast_num]; exact hn⟩]
  rfl

theorem roundTrips_nat (n : Nat) (hn : n < 2 ^ 53) : (jsonNat n).RoundTrips := by
  have h := roundTrips_int (n : Int) (by simpa using hn)
  simpa [jsonNat] using h

theorem printItems_isSome (depth : Nat) (items : List Json)
    (h : ∀ v ∈ items, (printValue depth v).isSome = true) :
    (printItems depth items).isSome = true := by
  induction items with
  | nil => rfl
  | cons v vs ih =>
    obtain ⟨t1, h1⟩ := Option.isSome_iff_exists.1 (h v (List.mem_cons_self _ _))
    obtain ⟨t2, h2⟩ := Option.isSome_iff_exists.1
      (ih (fun w hw => h w (List.mem_cons_of_mem _ hw)))
    simp [printItems, h1, h2]

theorem printMembers_isSome (depth : Nat) (ps : List (String × Json))
    (h : ∀ p ∈ ps, (printValue depth p.2).isSome = true) :
    (printMembers depth ps).isSome = true := by
  induction ps with
  | nil => rfl
  | cons p ps ih =>
    obtain ⟨key, v⟩ := p
    obtain ⟨t1, h1⟩ := Option.isSome_iff_exists.1 (h (key, v) (List.mem_cons_self _ _))
    obtain ⟨t2, h2⟩ := Option.isSome_iff_exists.1
      (ih (fun w hw => h w (List.mem_cons_of_mem _ hw)))
    simp only at h1
    simp [printMembers, h1, h2]

theorem nanToNullItems_eq (items : List Json) (h : ∀ v ∈ items, v.nanToNull = v) :
    nanToNullItems items = items := by
  induction items with
  | nil => rfl
  | cons v vs ih =>
    rw [nanToNullItems, h v (List.mem_cons_self _ _),
      ih (fun w hw => h w (List.mem_cons_of_mem _ hw))]

theorem nanToNullMembers_eq (ps : List (String × Json)) (h : ∀ p ∈ ps, p.2.nanToNull = p.2) :
    nanToNullMembers ps = ps := by
  induction ps with
  | nil => rfl
  | cons p ps ih =>
    obtain ⟨key, v⟩ := p
    rw [nanToNullMembers, h (key, v) (List.mem_cons_self _ _),
      ih (fun w hw => h w (List.mem_cons_of_mem _ hw))]

theorem roundTrips_arr (items : List Json) (h : ∀ v ∈ items, v.RoundTrips) :
    (Json.arr items).RoundTrips := by
  refine ⟨fun depth => ?_, ?_⟩
  · rw [printValue]
    split
    · rfl
    · obtain ⟨t, ht⟩ := Option.isSome_iff_exists.1
        (printItems_isSome (depth + 1) items (fun v hv => (h v hv).1 _))
      simp [ht]
  · rw [Json.nanToNull, nanToNullItems_eq items (fun v hv => (h v hv).2)]

theorem roundTrips_obj (ps : List (String × Json)) (hkeys : keysInOrder ps = true)
    (h : ∀ p ∈ ps, p.2.RoundTrips) : (Json.obj ps).RoundTrips := by
  refine ⟨fun depth => ?_, ?_⟩
  · rw [printValue]
    split
    · rfl
    · obtain ⟨t, ht⟩ := Option.isSome_iff_exists.1
        (printMembers_isSome (depth + 1) ps (fun p hp => (h p hp).1 _))
      simp [hkeys, ht]
  · rw [Json.nanToNull, nanToNullMembers_eq ps (fun p hp => (h p hp).2)]

theorem roundTrips_optional (key : String) (value : Option Json)
    (h : ∀ v, value = some v → v.RoundTrips) :
    ∀ p ∈ optionalProperty key value, p.2.RoundTrips := by
  intro p hp
  cases value with
  | none => simp [optionalProperty] at hp
  | some v =>
    simp only [optionalProperty, List.mem_singleton] at hp
    subst hp
    exact h v rfl

theorem keysInOrder_of_sublist (ps : List (String × Json)) (keys : List String)
    (hsub : List.Sublist (ps.map Prod.fst) keys)
    (hkeys : (decide keys.Nodup && keys.all (fun key => !isDigitKey key)) = true) :
    keysInOrder ps = true := by
  rw [keysInOrder_eq]
  rw [Bool.and_eq_true, decide_eq_true_eq, List.all_eq_true] at hkeys ⊢
  exact ⟨hkeys.1.sublist hsub, fun key hkey => hkeys.2 key (hsub.subset hkey)⟩

theorem optionalProperty_keys (key : String) (value : Option Json) :
    List.Sublist ((optionalProperty key value).map Prod.fst) [key] := by
  cases value with
  | none => simp [optionalProperty]
  | some v => simp [optionalProperty]

theorem host_roundTrips (h : HostRecord) (hsafe : safeNumbers h = true)
    (hport : h.port ≠ .NaN) : h.toJson.RoundTrips := by
  simp only [safeNumbers, Bool.and_eq_true] at hsafe
  obtain ⟨⟨hp, hcheck⟩, htime⟩ := hsafe
  rw [HostRecord.toJson]
  apply roundTrips_obj
  · apply keysInOrder_of_sublist _ (["name", "ip", "port", "rdpUser"] ++ ["environment"] ++
      ["tags"] ++ ["notes", "pinned", "id"] ++ ["healthStatus"] ++ ["lastHealthCheck"] ++
      ["responseTime"] ++ ["healthMethod"])
    · simp only [List.map_append]
      exact ((((((List.Sublist.refl _).append (optionalProperty_keys _ _)).append
        (optionalProperty_keys _ _)).append (List.Sublist.refl _)).append
        (optionalProperty_keys _ _)).append (optionalProperty_keys _ _)).append
        (optionalProperty_keys _ _) |>.append (optionalProperty_keys _ _)
    · decide
  · simp only [List.forall_mem_append, List.forall_mem_cons,
      List.not_mem_nil, false_implies, implies_true, and_true]
    refine ⟨⟨⟨⟨⟨⟨⟨⟨roundTrips_str _, roundTrips_str _, ?_, ?_⟩, ?_⟩, ?_⟩,
      roundTrips_str _, roundTrips_bool _, roundTrips_str _⟩, ?_⟩, ?_⟩, ?_⟩, ?_⟩
    · cases hport' : h.port with
      | null => exact roundTrips_null
      | NaN => exact absurd hport' hport
      | num n =>
        rw [hport'] at hp
        exact roundTrips_int n (by simpa using hp)
    · cases h.rdpUser with
      | none => exact roundTrips_null
      | some u => exact roundTrips_str u
    · apply roundTrips_optional
      intro v hv
      cases he : h.environment with
      | none => rw [he] at hv; simp at hv
      | some e => rw [he] at hv; simp at hv; subst hv; exact roundTrips_str e
    · apply roundTrips_optional
      intro v hv
      cases he : h.tags with
      | none => rw [he] at hv; simp at hv
      | some tags =>
        rw [he] at hv
        simp at hv
        subst hv
        apply roundTrips_arr
        intro w hw
        obtain ⟨tag, -, rfl⟩ := List.mem_map.1 hw
        exact roundTrips_str tag
    · apply roundTrips_optional
      intro v hv
      cases he : h.healthStatus with
      | none => rw [he] at hv; simp at hv
      | some e => rw [he] at hv; simp at hv; subst hv; exact roundTrips_str e
    · apply roundTrips_optional
      intro v hv
      cases he : h.lastHealthCheck with
      | none => rw [he] at hv; simp at hv
      | some t =>
        rw [he] at hv hcheck
        simp at hv
        subst hv
        exact roundTrips_nat t (by simpa using hcheck)
    · apply roundTrips_optional
      intro v hv
      cases he : h.responseTime with
      | none => rw [he] at hv; simp at hv
      | some t =>
        rw [he] at hv htime
        simp at hv
        subst hv
        exact roundTrips_nat t (by simpa using htime)
    · apply roundTrips_optional
      intro v hv
      cases he : h.healthMethod with
      | none => rw [he] at hv; simp at hv
      | some e => rw [he] at hv; simp at hv; subst hv; exact roundTrips_str e

theorem environment_roundTrips (env : Environment)
    (hsafe : ∀ h ∈ env.items, safeNumbers h = true) (hport : ∀ h ∈ env.items, h.port ≠ .NaN) :
    env.toJson.RoundTrips := by
  rw [Environment.toJson]
  apply roundTrips_obj _ (by rfl)
  simp only [List.forall_mem_cons, List.not_mem_nil, false_implies,
    implies_true, and_true]
  refine ⟨roundTrips_str _, roundTrips_str _, roundTrips_arr _ ?_⟩
  intro v hv
  obtain ⟨h, hh, rfl⟩ := List.mem_map.1 hv
  exact host_roundTrips h (hsafe h hh) (hport h hh)

theorem document_roundTrips (doc : Document) (hversion : doc.version = 1)
    (hsafe : ∀ h ∈ allHosts doc, safeNumbers h = true)
    (hport : ∀ h ∈ allHosts doc, h.port ≠ .NaN) : doc.toJson.RoundTrips := by
  rw [Document.toJson]
  apply roundTrips_obj _ (by rfl)
  simp only [List.forall_mem_cons, List.not_mem_nil, false_implies,
    implies_true, and_true]
  refine ⟨?_, roundTrips_arr _ ?_⟩
  · rw [hversion]
    exact roundTrips_int 1 (by decide)
  · intro v hv
    obtain ⟨env, henv, rfl⟩ := List.mem_map.1 hv
    exact environment_roundTrips env
      (fun h hh => hsafe h (List.mem_flatMap.2 ⟨env, henv, hh⟩))
      (fun h hh => hport h (List.mem_flatMap.2 ⟨env, henv, hh⟩))

end IPManager

namespace IPManager

/-! ## Import and export -/

theorem hasTruthy_iff (v : Json) (key : String) :
    v.HasTruthy key ↔ v.truthyAt key = true := by
  unfold Json.HasTruthy Json.truthyAt
  cases v.get key <;> simp

theorem handleFileImport_of_parsed (parse : String → Option Json) (render : Json → Bool)
    (data : Json) (text : String) (v : Json) (hp : parse text = some v) (hnull : v ≠ .null) :
    handleFileImport parse render data text =
      if (v.truthyAt "version" && v.truthyAt "envs") = true then
        (if render v = true then ImportOutcome.imported else ImportOutcome.parseError, v)
      else (.invalidFormat, data) := by
  unfold handleFileImport
  rw [hp]
  cases v <;> first
    | exact absurd rfl hnull
    | (simp only []; split <;> [split <;> rfl; rfl])

theorem options_handleFileImport_of_parsed (parse : String → Option Json)
    (set : Json → Bool) (stored : Option Json) (text : String) (v : Json)
    (hp : parse text = some v) (hnull : v ≠ .null) :
    OptionsManager.handleFileImport parse set stored text =
      if (v.truthyAt "version" && v.truthyAt "envs") = true then
        (if set v = true then (ImportOutcome.imported, some v)
          else (ImportOutcome.parseError, stored))
      else (.invalidFormat, stored) := by
  unfold OptionsManager.handleFileImport
  rw [hp]
  cases v <;> first
    | exact absurd rfl hnull
    | rfl

theorem handleFileImport_of_failed (parse : String → Option Json) (render set : Json → Bool)
    (data : Json) (stored : Option Json) (text : String)
    (hp : parse text = none ∨ parse text = some .null) :
    handleFileImport parse render data text = (.parseError, data) ∧
      OptionsManager.handleFileImport parse set stored text = (.parseError, stored) := by
  unfold handleFileImport OptionsManager.handleFileImport
  rcases hp with hp | hp <;> rw [hp] <;> exact ⟨rfl, rfl⟩

theorem not_hasTruthy_null (key : String) : ¬Json.null.HasTruthy key := by
  rintro ⟨w, hw, -⟩
  simp [Json.get] at hw

/-- The import of the exported text of a value that the reference printer covers: the
value read is the exported one with `null` for `NaN`, and it is taken when its `version`
and its `envs` are truthy. -/
theorem handleFileImport_exportData (stringify : Json → String)
    (parse : String → Option Json) (hstringify : PrintsJson stringify)
    (hparse : ReadsJson parse) (render set : Json → Bool) (current : Json)
    (stored : Option Json) (v : Json) (text : String) (hv : printJson v = some text)
    (hversion : v.nanToNull.HasTruthy "version") (henvs : v.nanToNull.HasTruthy "envs") :
    handleFileImport parse render current (exportData stringify v)
        = (if render v.nanToNull = true then .imported else .parseError, v.nanToNull) ∧
      OptionsManager.handleFileImport parse set stored (stringify v)
        = if set v.nanToNull = true then (.imported, some v.nanToNull)
          else (.parseError, stored) := by
  have hread := parse_stringify stringify parse hstringify hparse v text hv
  have hnull : v.nanToNull ≠ .null := fun h => not_hasTruthy_null "version" (h ▸ hversion)
  have htest : (v.nanToNull.truthyAt "version" && v.nanToNull.truthyAt "envs") = true := by
    rw [Bool.and_eq_true]
    exact ⟨(hasTruthy_iff _ _).1 hversion, (hasTruthy_iff _ _).1 henvs⟩
  rw [exportData, handleFileImport_of_parsed parse render current _ _ hread hnull,
    options_handleFileImport_of_parsed parse set stored _ _ hread hnull, if_pos htest,
    if_pos htest]
  exact ⟨rfl, rfl⟩

set_option maxRecDepth 100000 in
/-- The text that the reference prints for the document with the port `NaN`. -/
theorem printJson_nanPortDoc :
    printJson nanPortDoc.toJson = some "\x7b\n  \"version\": 1,\n  \"envs\": [\n    \x7b\n      \"id\": \"default\",\n      \"name\": \"Default\",\n      \"items\": []\n    \x7d,\n    \x7b\n      \"id\": \"lab\",\n      \"name\": \"Lab\",\n      \"items\": [\n        \x7b\n          \"name\": \"web1\",\n          \"ip\": \"10.0.0.1\",\n          \"port\": null,\n          \"rdpUser\": null,\n          \"environment\": \"lab\",\n          \"tags\": [\n            \"prod\",\n            \"db\"\n          ],\n          \"notes\": \"\",\n          \"pinned\": false,\n          \"id\": \"loyw3v284fzyo82mvyr\"\n        \x7d\n      ]\n    \x7d\n  ]\n\x7d" := by
  rfl

/-- C17, counterexample. Adding the form with the port text `abc` to the document of two
empty environments gives a document with version 1 whose host has the port `NaN`.  The
text that export prints for it has `null` for the port, and importing that text is
accepted and leaves a document with the port `null`: it is not the document that was
exported.  This holds with the reference printer and reader in the place of the two
builtins, and with any two functions that agree with them. -/
theorem import_export_loses_nan_port :
    (saveHost emptyDoc "add" "" nanPortForm 1700000000000 "0.4fzyo82mvyr").data = nanPortDoc ∧
      nanPortDoc.version = 1 ∧
      printJson nanPortDoc.toJson = some "\x7b\n  \"version\": 1,\n  \"envs\": [\n    \x7b\n      \"id\": \"default\",\n      \"name\": \"Default\",\n      \"items\": []\n    \x7d,\n    \x7b\n      \"id\": \"lab\",\n      \"name\": \"Lab\",\n      \"items\": [\n        \x7b\n          \"name\": \"web1\",\n          \"ip\": \"10.0.0.1\",\n          \"port\": null,\n          \"rdpUser\": null,\n          \"environment\": \"lab\",\n          \"tags\": [\n            \"prod\",\n            \"db\"\n          ],\n          \"notes\": \"\",\n          \"pinned\": false,\n          \"id\": \"loyw3v284fzyo82mvyr\"\n        \x7d\n      ]\n    \x7d\n  ]\n\x7d" ∧
      handleFileImport readJson (fun _ => true) emptyDoc.toJson
        (exportData referenceStringify nanPortDoc.toJson) = (.imported, nullPortDoc.toJson) ∧
      nullPortDoc.toJson ≠ nanPortDoc.toJson ∧
      (∀ (stringify : Json → String) (parse : String → Option Json),
        PrintsJson stringify → ReadsJson parse →
        ∀ (render : Json → Bool) (current : Json),
          (handleFileImport parse render current
            (exportData stringify nanPortDoc.toJson)).2 = nullPortDoc.toJson) := by
  have htext : ∃ text, printJson nanPortDoc.toJson = some text := ⟨_, printJson_nanPortDoc⟩
  have hnull : nanPortDoc.toJson.nanToNull = nullPortDoc.toJson := rfl
  have hversion : nullPortDoc.toJson.HasTruthy "version" := ⟨_, rfl, rfl⟩
  have henvs : nullPortDoc.toJson.HasTruthy "envs" := ⟨_, rfl, rfl⟩
  obtain ⟨text, htext⟩ := htext
  have hall : ∀ (stringify : Json → String) (parse : String → Option Json),
      PrintsJson stringify → ReadsJson parse → ∀ (render : Json → Bool) (current : Json),
      handleFileImport parse render current (exportData stringify nanPortDoc.toJson)
        = (if render nullPortDoc.toJson = true then .imported else .parseError,
            nullPortDoc.toJson) := by
    intro stringify parse hs hp render current
    have := (handleFileImport_exportData stringify parse hs hp render (fun _ => true) current
      none nanPortDoc.toJson text htext (hnull ▸ hversion) (hnull ▸ henvs)).1
    rw [hnull] at this
    exact this
  refine ⟨by decide, rfl, printJson_nanPortDoc, ?_, ?_, ?_⟩
  · exact hall referenceStringify readJson
      (fun v t h => by simp [referenceStringify, h]) (fun _ _ h => h) (fun _ => true) _
  · simp [nullPortDoc, nanPortDoc, Document.toJson, Environment.toJson, HostRecord.toJson]
  · intro stringify parse hs hp render current
    rw [hall stringify parse hs hp render current]

/-- C17, amended. Let `stringify` and `parse` print and read as `JSON.stringify(·, null, 2)`
and `JSON.parse` do on the values and texts that the reference covers.  For every
document with version 1 in which no host has the port `NaN` and the numbers of the hosts
are integers below 2^53 in magnitude, importing the text that export produces passes
the test and leaves as the document exactly the value that was exported, whatever
document was there before.  In the popup the import then reports success when the
re-rendering runs to its end; in the options page the stored value is replaced, and
success reported, when the write to storage is fulfilled. -/
theorem import_export_round_trip (stringify : Json → String) (parse : String → Option Json)
    (hstringify : PrintsJson stringify) (hparse : ReadsJson parse)
    (render set : Json → Bool) (current : Json) (stored : Option Json) (doc : Document)
    (hversion : doc.version = 1)
    (hsafe : ∀ h ∈ allHosts doc, safeNumbers h = true)
    (hport : ∀ h ∈ allHosts doc, h.port ≠ .NaN) :
    handleFileImport parse render current (exportData stringify doc.toJson)
        = (if render doc.toJson = true then .imported else .parseError, doc.toJson) ∧
      ∃ text, OptionsManager.exportData stringify (some doc.toJson) = some text ∧
        OptionsManager.handleFileImport parse set stored text
          = if set doc.toJson = true then (.imported, some doc.toJson)
            else (.parseError, stored) := by
  have hround := document_roundTrips doc hversion hsafe hport
  obtain ⟨text, htext⟩ := printJson_of_roundTrips _ hround
  have hfix : doc.toJson.nanToNull = doc.toJson := hround.2
  have hv : doc.toJson.HasTruthy "version" := by
    refine ⟨.num (.finite doc.version), rfl, ?_⟩
    rw [hversion]
    rfl
  have he : doc.toJson.HasTruthy "envs" := ⟨_, rfl, rfl⟩
  have h := handleFileImport_exportData stringify parse hstringify hparse render set current
    stored doc.toJson text htext (hfix.symm ▸ hv) (hfix.symm ▸ he)
  rw [hfix] at h
  exact ⟨h.1, stringify doc.toJson, rfl, h.2⟩

/-- Witness of C17: the document with the hosts `web1` and `db1` and a probed host with
a port, quotation marks and a line break in its texts, printed and read by the
reference. -/
theorem import_export_round_trip_witness :
    probedDoc.version = 1 ∧
      (∀ h ∈ allHosts probedDoc, safeNumbers h = true) ∧
      (∀ h ∈ allHosts probedDoc, h.port ≠ .NaN) ∧
      PrintsJson referenceStringify ∧ ReadsJson readJson ∧
      handleFileImport readJson (fun _ => true) emptyDoc.toJson
        (exportData referenceStringify probedDoc.toJson) = (.imported, probedDoc.toJson) :=
  ⟨rfl, by decide, by decide, fun v t h => by simp [referenceStringify, h], fun _ _ h => h,
    (import_export_round_trip referenceStringify readJson
      (fun v t h => by simp [referenceStringify, h]) (fun _ _ h => h) (fun _ => true)
      (fun _ => true) emptyDoc.toJson none probedDoc rfl (by decide) (by decide)).1⟩

/-- C18, counterexample. (1) The parsed file `{"version": 0, "envs": []}` has both a
`version` and an `envs` property, yet the popup and the options page refuse it as an
invalid format and the document stays the one that was there.  (2) The parsed file
`{"version": 1, "envs": "x"}` passes the test of the popup, which replaces the document
by it; the re-rendering that follows throws on an `envs` that is no array, so the import
ends with the message of a parse error while the document is no longer the one that was
there. -/
theorem handleFileImport_rejects_version_zero :
    (∃ v, versionZeroFile.get "version" = some v) ∧
      (∃ v, versionZeroFile.get "envs" = some v) ∧
      (∀ render : Json → Bool,
        handleFileImport (fun _ => some versionZeroFile) render emptyDoc.toJson "file text"
          = (.invalidFormat, emptyDoc.toJson)) ∧
      (∀ set : Json → Bool,
        OptionsManager.handleFileImport (fun _ => some versionZeroFile) set
          (some emptyDoc.toJson) "file text" = (.invalidFormat, some emptyDoc.toJson)) ∧
      renderEnvs envsTextFile = false ∧
      handleFileImport (fun _ => some envsTextFile) renderEnvs emptyDoc.toJson "file text"
        = (.parseError, envsTextFile) ∧
      envsTextFile ≠ emptyDoc.toJson :=
  ⟨⟨_, rfl⟩, ⟨_, rfl⟩, fun _ => rfl, fun _ => rfl, rfl, rfl,
    by simp [envsTextFile, emptyDoc, Document.toJson]⟩

/-- C18, amended. For every text, parser and document, both imports take the parsed value
if and only if it has a `version` property and an `envs` property whose values are both
truthy (not `0`, `NaN`, the empty text, `false` or `null`).  The popup then replaces the
document by exactly the parsed value, and reports success when the re-rendering that
follows runs to its end, the error of the `catch` branch otherwise; the options page
replaces the stored value by exactly the parsed value and reports success when the write
is fulfilled, and reports the error and leaves the stored value otherwise.  A parsed
value that fails the test is refused as an invalid format, and a text that `JSON.parse`
rejects or that is `null` ends in the `catch` branch; in both cases the document stays
the one that was there. -/
theorem handleFileImport_accepts_iff_truthy (parse : String → Option Json)
    (render set : Json → Bool) (data : Json) (stored : Option Json) (text : String) :
    (∀ v, parse text = some v → v.HasTruthy "version" → v.HasTruthy "envs" →
      handleFileImport parse render data text
          = (if render v = true then .imported else .parseError, v) ∧
        OptionsManager.handleFileImport parse set stored text
          = if set v = true then (.imported, some v) else (.parseError, stored)) ∧
      (∀ v, parse text = some v → v ≠ .null →
        ¬(v.HasTruthy "version" ∧ v.HasTruthy "envs") →
        handleFileImport parse render data text = (.invalidFormat, data) ∧
          OptionsManager.handleFileImport parse set stored text
            = (.invalidFormat, stored)) ∧
      ((parse text = none ∨ parse text = some .null) →
        handleFileImport parse render data text = (.parseError, data) ∧
          OptionsManager.handleFileImport parse set stored text = (.parseError, stored)) ∧
      ((handleFileImport parse render data text).1 = .imported ↔
        ∃ v, parse text = some v ∧ v.HasTruthy "version" ∧ v.HasTruthy "envs" ∧
          render v = true) ∧
      ((OptionsManager.handleFileImport parse set stored text).1 = .imported ↔
        ∃ v, parse text = some v ∧ v.HasTruthy "version" ∧ v.HasTruthy "envs" ∧
          set v = true) := by
  have htest : ∀ v : Json, (v.truthyAt "version" && v.truthyAt "envs") = true ↔
      (v.HasTruthy "version" ∧ v.HasTruthy "envs") := by
    intro v
    rw [Bool.and_eq_true, hasTruthy_iff, hasTruthy_iff]
  have haccept : ∀ v, parse text = some v → v.HasTruthy "version" → v.HasTruthy "envs" →
      handleFileImport parse render data text
          = (if render v = true then .imported else .parseError, v) ∧
        OptionsManager.handleFileImport parse set stored text
          = if set v = true then (.imported, some v) else (.parseError, stored) := by
    intro v hp hv he
    have hnull : v ≠ .null := fun h => not_hasTruthy_null "version" (h ▸ hv)
    rw [handleFileImport_of_parsed parse render data text v hp hnull,
      options_handleFileImport_of_parsed parse set stored text v hp hnull,
      if_pos ((htest v).2 ⟨hv, he⟩), if_pos ((htest v).2 ⟨hv, he⟩)]
    exact ⟨rfl, rfl⟩
  have hrefuse : ∀ v, parse text = some v → v ≠ .null →
      ¬(v.HasTruthy "version" ∧ v.HasTruthy "envs") →
      handleFileImport parse render data text = (.invalidFormat, data) ∧
        OptionsManager.handleFileImport parse set stored text = (.invalidFormat, stored) := by
    intro v hp hnull hno
    rw [handleFileImport_of_parsed parse render data text v hp hnull,
      options_handleFileImport_of_parsed parse set stored text v hp hnull,
      if_neg (fun h => hno ((htest v).1 h)), if_neg (fun h => hno ((htest v).1 h))]
    exact ⟨rfl, rfl⟩
  have hfail := handleFileImport_of_failed parse render set data stored text
  refine ⟨haccept, hrefuse, hfail, ?_, ?_⟩
  · constructor
    · intro himp
      cases hp : parse text with
      | none =>
        rw [(hfail (Or.inl hp)).1] at himp
        exact absurd himp (by simp)
      | some v =>
        by_cases hnull : v = .null
        · rw [(hfail (Or.inr (hnull ▸ hp))).1] at himp
          exact absurd himp (by simp)
        · by_cases hok : v.HasTruthy "version" ∧ v.HasTruthy "envs"
          · rw [(haccept v hp hok.1 hok.2).1] at himp
            by_cases hr : render v = true
            · exact ⟨v, rfl, hok.1, hok.2, hr⟩
            · rw [if_neg hr] at himp
              exact absurd himp (by simp)
          · rw [(hrefuse v hp hnull hok).1] at himp
            exact absurd himp (by simp)
    · rintro ⟨v, hp, hv, he, hr⟩
      rw [(haccept v hp hv he).1, if_pos hr]
  · constructor
    · intro himp
      cases hp : parse text with
      | none =>
        rw [(hfail (Or.inl hp)).2] at himp
        exact absurd himp (by simp)
      | some v =>
        by_cases hnull : v = .null
        · rw [(hfail (Or.inr (hnull ▸ hp))).2] at himp
          exact absurd himp (by simp)
        · by_cases hok : v.HasTruthy "version" ∧ v.HasTruthy "envs"
          · rw [(haccept v hp hok.1 hok.2).2] at himp
            by_cases hr : set v = true
            · exact ⟨v, rfl, hok.1, hok.2, hr⟩
            · rw [if_neg hr] at himp
              exact absurd himp (by simp)
          · rw [(hrefuse v hp hnull hok).2] at himp
            exact absurd himp (by simp)
    · rintro ⟨v, hp, hv, he, hr⟩
      rw [(haccept v hp hv he).2, if_pos hr]

end IPManager
